import Mathlib

/-!
Verification of the lichess-tv chunk parser (chunk.c / chunk.h).

The parser is embedded shallowly: the mutable byte buffer becomes a
`List Nat` of byte values that is threaded explicitly through every
routine, the cursor (`size_t *poff`) becomes an explicit `Nat` that each
routine returns alongside the possibly mutated buffer, and the output
record (`struct chunk *c`) becomes an explicit `Chunk` value.  The length
argument `len` of every C routine is always the full buffer length at
every call site, so it is rendered as `buf.length`.

Loops (`for (;;)`) become fuel-indexed structural recursions so that all
definitions compute by kernel reduction.  Fuel is always started at
`buf.length + 1`; every loop iteration that continues consumes at least
one byte of the buffer (it must consume a comma token), so this fuel
never runs out.  This is proved below (`chunk_parse_loop_fuel` etc.).
When fuel would run out, the loop takes the same abort path the C code
takes on a structural violation (cursor forced to end of buffer); the
fuel lemmas show this branch is unreachable from the wrappers.

Byte values are the unsigned readings of the C `char` buffer.  All bytes
relevant to the grammar are ASCII; the only place where a signed `char`
could differ from this model is the perfect-hash word in `parse_symbol`,
and the theorems below never rely on the hash value of a non-ASCII span
(the full-content verification step makes the result of `parse_symbol`
independent of the hash for every span that is not a known name).
-/

/-- Byte list of an ASCII string literal. -/
def strBytes (s : String) : List Nat :=
  s.data.map Char.toNat

/-- Token kinds of the tokenizer, mirroring the anonymous enum inside
`struct token` in chunk.c. -/
inductive JType where
  | ERROR | STRING | NUMBER | COMMA | COLON
  | OBEG | OEND | ABEG | AEND | FALSE | TRUE
deriving DecidableEq, Repr

/-- `struct token`: an (offset, length) span of the buffer plus a kind. -/
structure Token where
  off : Nat
  len : Nat
  type : JType
deriving DecidableEq, Repr

/-- `enum symbol`: the closed set of recognized field and enum names. -/
inductive CSym where
  | SYM_d | SYM_t | SYM_featured | SYM_user | SYM_rating | SYM_black
  | SYM_color | SYM_fen | SYM_white | SYM_players | SYM_name | SYM_UNKNOWN
deriving DecidableEq, Repr

/-- `struct player` of chunk.h: `name` and `rating` are `char *` views
into the buffer, modelled as `Option Nat` offsets (`none` = null). -/
structure Player where
  name : Option Nat
  rating : Option Nat
deriving DecidableEq, Repr

/-- The chunk type tag of chunk.h. -/
inductive CType where
  | CHUNK_UNKNOWN | CHUNK_FEATURED | CHUNK_FEN
deriving DecidableEq, Repr

/-- `struct chunk` of chunk.h: the two player slots are a pair
(index 0 = black, index 1 = white). -/
structure Chunk where
  fen : Option Nat
  players : Player × Player
  type : CType
deriving DecidableEq, Repr

/-- The concatenated name table `s` of parse_symbol. -/
def symtab : List Nat :=
  strBytes "dtfeatureduserratingblackcolorfenwhiteplayersname"

/-- The 16-entry (offset, length) lookup table `lut` of parse_symbol;
entries 11..15 are the zero-filled empty slots. -/
def lut : List (Nat × Nat) :=
  [(0, 1), (1, 1), (2, 8), (10, 4), (14, 6), (20, 5),
   (25, 5), (30, 3), (33, 5), (38, 7), (45, 4),
   (0, 0), (0, 0), (0, 0), (0, 0), (0, 0)]

/-- The perfect-hash index of parse_symbol: assemble a little-endian
32-bit word from up to the first four bytes (zero padded), multiply by
2367153 in 32-bit arithmetic, take the top four bits. -/
def hashIdx (tok : List Nat) : Nat :=
  let tmp := fun i => (tok.take 4).getD i 0
  let h := tmp 3 * 2 ^ 24 + tmp 2 * 2 ^ 16 + tmp 1 * 2 ^ 8 + tmp 0
  h * 2367153 % 2 ^ 32 / 2 ^ 28 % 16

/-- The symbol whose enum value is `i` (parse_symbol returns the raw
index `i`; the empty table slots 11..15 can never pass the verification
step, so mapping them to SYM_UNKNOWN is unreachable). -/
def symOfIdx : Nat → CSym
  | 0 => .SYM_d
  | 1 => .SYM_t
  | 2 => .SYM_featured
  | 3 => .SYM_user
  | 4 => .SYM_rating
  | 5 => .SYM_black
  | 6 => .SYM_color
  | 7 => .SYM_fen
  | 8 => .SYM_white
  | 9 => .SYM_players
  | 10 => .SYM_name
  | _ => .SYM_UNKNOWN

/-- parse_symbol: hash the span, then verify stored length and full byte
content of the table entry against the span; only on exact match return
the symbol, otherwise SYM_UNKNOWN. -/
def parse_symbol (tok : List Nat) : CSym :=
  let i := hashIdx tok
  let e := lut.getD i (0, 0)
  if e.2 = tok.length ∧ (symtab.drop e.1).take e.2 = tok
  then symOfIdx i
  else .SYM_UNKNOWN

/-- The byte span stored in lut slot `i`: the `len` bytes of the symbol
table starting at `off` (the empty slots 11..15 hold the empty span). -/
def lutName (i : Nat) : List Nat :=
  (symtab.drop (lut.getD i (0, 0)).1).take (lut.getD i (0, 0)).2

/-- Whitespace test of skip_whitespace (tab, LF, CR, space). -/
def isWs (b : Nat) : Bool :=
  b = 9 || b = 10 || b = 13 || b = 32

/-- ASCII digit test of the tokenizer number loop. -/
def isDigit (b : Nat) : Bool :=
  48 ≤ b && b ≤ 57

/-- Fuelled body of skip_whitespace; the wrapper passes exactly
`buf.length - off`, which is enough fuel to reach the end of buffer. -/
def skip_ws_go (buf : List Nat) : Nat → Nat → Nat
  | 0, off => off
  | fuel + 1, off =>
    if h : off < buf.length then
      if isWs buf[off] then skip_ws_go buf fuel (off + 1) else off
    else off

/-- skip_whitespace: advance the cursor past tab, LF, CR, space. -/
def skip_whitespace (buf : List Nat) (off : Nat) : Nat :=
  skip_ws_go buf (buf.length - off) off

/-- Fuelled body of skip_until. -/
def skip_until_go (buf : List Nat) (byte : Nat) : Nat → Nat → Nat
  | 0, off => off
  | fuel + 1, off =>
    if h : off < buf.length then
      if buf[off] = byte then off else skip_until_go buf byte fuel (off + 1)
    else off

/-- skip_until: advance the cursor to the next occurrence of `byte`,
or to the end of the buffer. -/
def skip_until (buf : List Nat) (off : Nat) (byte : Nat) : Nat :=
  skip_until_go buf byte (buf.length - off) off

/-- Fuelled body of the digit-run loop in the tokenizer number case and
in terminate_number. -/
def scan_digits_go (buf : List Nat) : Nat → Nat → Nat
  | 0, off => off
  | fuel + 1, off =>
    if h : off < buf.length then
      if isDigit buf[off] then scan_digits_go buf fuel (off + 1) else off
    else off

/-- The digit-run loop `while (off < len && digit) off++` of json_next,
also used by terminate_number. -/
def scan_digits (buf : List Nat) (off : Nat) : Nat :=
  scan_digits_go buf (buf.length - off) off

/-- peek: `off == len ? -1 : buf[off]`, with -1 rendered as `none`.
The cursor never exceeds the buffer length at any call site, so the
out-of-range read of the C expression is unreachable. -/
def peek (buf : List Nat) (off : Nat) : Option Nat :=
  if h : off < buf.length then some buf[off] else none

/-- json_next: skip whitespace, then produce the next token, advancing
the cursor past it.  Returns the token, the (possibly mutated) buffer
and the new cursor.  The only mutation is the null byte written over the
closing quote of a successfully parsed string. -/
def json_next (buf : List Nat) (off0 : Nat) : Token × List Nat × Nat :=
  let len := buf.length
  let off := skip_whitespace buf off0
  match peek buf off with
  | none => (⟨len, 0, .ERROR⟩, buf, off)
  | some c =>
    if c = 123 then (⟨off, 1, .OBEG⟩, buf, off + 1)
    else if c = 125 then (⟨off, 1, .OEND⟩, buf, off + 1)
    else if c = 91 then (⟨off, 1, .ABEG⟩, buf, off + 1)
    else if c = 93 then (⟨off, 1, .AEND⟩, buf, off + 1)
    else if c = 34 then
      let e := skip_until buf (off + 1) 34
      if e = len then
        (⟨off + 1, e - (off + 1), .ERROR⟩, buf, e)
      else
        (⟨off + 1, e - (off + 1), .STRING⟩, buf.set e 0, e + 1)
    else if c = 44 then (⟨off, 1, .COMMA⟩, buf, off + 1)
    else if isDigit c then
      let e := scan_digits buf off
      (⟨off, e - off, .NUMBER⟩, buf, e)
    else if c = 58 then (⟨off, 1, .COLON⟩, buf, off + 1)
    else if c = 102 then
      if 5 ≤ len - off ∧ (buf.drop off).take 5 = strBytes "false" then
        (⟨off, 5, .FALSE⟩, buf, off + 5)
      else (⟨len, 0, .ERROR⟩, buf, len)
    else if c = 116 then
      if 4 ≤ len - off ∧ (buf.drop off).take 4 = strBytes "true" then
        (⟨off, 4, .TRUE⟩, buf, off + 4)
      else (⟨len, 0, .ERROR⟩, buf, len)
    else (⟨len, 0, .ERROR⟩, buf, off)

/-- parse_key: a string token followed by a colon; on either mismatch
force the cursor to end of buffer and return SYM_UNKNOWN, else classify
the key bytes with parse_symbol. -/
def parse_key (buf : List Nat) (off : Nat) : CSym × List Nat × Nat :=
  let r1 := json_next buf off
  let t := r1.1
  if t.type ≠ JType.STRING then (.SYM_UNKNOWN, r1.2.1, r1.2.1.length)
  else
    let r2 := json_next r1.2.1 r1.2.2
    if r2.1.type ≠ JType.COLON then (.SYM_UNKNOWN, r2.2.1, r2.2.1.length)
    else (parse_symbol ((r2.2.1.drop t.off).take t.len), r2.2.1, r2.2.2)

/-- parse_string: a string token; returns the offset of its first
content byte (`buf + t.off`), or null with the cursor forced to end of
buffer. -/
def parse_string (buf : List Nat) (off : Nat) : Option Nat × List Nat × Nat :=
  let r := json_next buf off
  if r.1.type ≠ JType.STRING then (none, r.2.1, r.2.1.length)
  else (some r.1.off, r.2.1, r.2.2)

/-- parse_number: a number token; returns the offset of its first digit,
or null with the cursor forced to end of buffer. -/
def parse_number (buf : List Nat) (off : Nat) : Option Nat × List Nat × Nat :=
  let r := json_next buf off
  if r.1.type ≠ JType.NUMBER then (none, r.2.1, r.2.1.length)
  else (some r.1.off, r.2.1, r.2.2)

/-- parse_enum: a string token classified with parse_symbol, or
SYM_UNKNOWN with the cursor forced to end of buffer. -/
def parse_enum (buf : List Nat) (off : Nat) : CSym × List Nat × Nat :=
  let r := json_next buf off
  if r.1.type ≠ JType.STRING then (.SYM_UNKNOWN, r.2.1, r.2.1.length)
  else (parse_symbol ((r.2.1.drop r.1.off).take r.1.len), r.2.1, r.2.2)

/-- skip_value: consume exactly one scalar token (string, number, true
or false); any other token kind makes the skip return the end-of-buffer
sentinel. -/
def skip_value (buf : List Nat) (off : Nat) : List Nat × Nat :=
  let r := json_next buf off
  match r.1.type with
  | .FALSE | .TRUE | .STRING | .NUMBER => (r.2.1, r.2.2)
  | _ => (r.2.1, r.2.1.length)

/-- terminate_number: scan past the digit run starting at `s` and write
a null byte over the first non-digit byte.  The C routine scans and
writes through a raw pointer with no bound; in this model the write is a
`List.set`, which is the identity when the position is out of range.
Theorem C8 below proves that at the one call site (the parse_player
commit point) the write position is strictly inside the buffer, so the
unbounded C scan and this bounded model agree on every reachable call. -/
def terminate_number (buf : List Nat) (s : Option Nat) :
    List Nat × Option Nat :=
  match s with
  | none => (buf, none)
  | some r => ((buf.set (scan_digits buf r) 0), some r)

/-- Write a player value into slot `idx` of the pair; parse_player only
calls this with `idx` equal to 0 or 1. -/
def setPlayer (p : Player × Player) (idx : Int) (v : Player) :
    Player × Player :=
  if idx = 0 then (v, p.2) else (p.1, v)

/-- Outcome of the closing `switch (json_next(buf, len, &off))` that
ends every key-loop iteration: `done` for object-close, `again` for
comma (next iteration), `fail` for anything else (abort, cursor forced
to end of buffer). -/
inductive LoopStep where
  | done | again | fail
deriving DecidableEq, Repr

/-- The closing token switch shared by all four key loops: consume one
token; object-close ends the loop, comma continues it, anything else
aborts with the cursor forced to the end-of-buffer sentinel. -/
def loop_close (buf : List Nat) (off : Nat) : List Nat × Nat × LoopStep :=
  match json_next buf off with
  | (t, buf3, off3) =>
    match t.type with
    | .OEND => (buf3, off3, .done)
    | .COMMA => (buf3, off3, .again)
    | _ => (buf3, buf3.length, .fail)

/-- Exit of one iteration of the user-object loop: the closing switch
with the current local `name`; `done = 1` at object-close, next
iteration on comma, abort otherwise. -/
def user_close (buf2 : List Nat) (off2 : Nat) (nm : Option Nat)
    (recur : List Nat → Nat → Option Nat →
      List Nat × Nat × Option Nat × Bool) :
    List Nat × Nat × Option Nat × Bool :=
  match loop_close buf2 off2 with
  | (buf3, off3, .done) => (buf3, off3, nm, true)
  | (buf3, off3, .again) => recur buf3 off3 nm
  | (buf3, off3, .fail) => (buf3, off3, nm, false)

/-- The inner `for (int done = 0; !done;)` loop over the keys of a
`user` object in parse_player.  Carries the local `name`.  The final
Bool is true when the loop finished at its object-close and false when
parse_player must abort (`return len`). -/
def user_loop (buf0 : List Nat) (off0 : Nat) (name0 : Option Nat) :
    Nat → List Nat × Nat × Option Nat × Bool
  | 0 => (buf0, buf0.length, name0, false)
  | fuel + 1 =>
    match parse_key buf0 off0 with
    | (sym, buf1, off1) =>
      match sym with
      | .SYM_name =>
        match parse_string buf1 off1 with
        | (nm, buf2, off2) =>
          user_close buf2 off2 nm (fun b o n => user_loop b o n fuel)
      | _ =>
        match skip_value buf1 off1 with
        | (buf2, off2) =>
          user_close buf2 off2 name0 (fun b o n => user_loop b o n fuel)

/-- Result of one run of the parse_player key loop.  `buf`, `off` and
`p` are what the C code leaves behind (`off` is the end-of-buffer
sentinel on every abort path); `idx` is the final value of the local
`int idx`, and `committed` records whether the loop exited through the
commit point (object-close with a resolved index).  The parse_player
wrapper projects the ghost fields away. -/
structure PLoopRes where
  buf : List Nat
  off : Nat
  p : Player × Player
  idx : Int
  committed : Bool
  grating : Option Nat
deriving DecidableEq, Repr

/-- Exit of one parse_player loop iteration, after the dispatch on the
key: the closing switch with the current locals, `return len` on the
abort paths inside the SYM_user case, or the commit at object-close. -/
def player_close (buf2 : List Nat) (off2 : Nat) (idx2 : Int)
    (rating2 name2 : Option Nat) (p : Player × Player)
    (recur : List Nat → Nat → Int → Option Nat → Option Nat →
      (Player × Player) → PLoopRes) : PLoopRes :=
  match loop_close buf2 off2 with
  | (buf3, off3, .done) =>
    if idx2 = -1 then ⟨buf3, buf3.length, p, idx2, false, rating2⟩
    else
      match terminate_number buf3 rating2 with
      | (buf4, rating3) =>
        ⟨buf4, off3, setPlayer p idx2 ⟨name2, rating3⟩, idx2, true, rating2⟩
  | (buf3, off3, .again) => recur buf3 off3 idx2 rating2 name2 p
  | (buf3, off3, .fail) => ⟨buf3, off3, p, idx2, false, rating2⟩

/-- The `for (;;)` key loop of parse_player, carrying the locals
`idx`, `rating`, `name`. -/
def parse_player_loop (buf0 : List Nat) (off0 : Nat) (idx : Int)
    (rating name : Option Nat) (p : Player × Player) :
    Nat → PLoopRes
  | 0 => ⟨buf0, buf0.length, p, idx, false, rating⟩
  | fuel + 1 =>
    match parse_key buf0 off0 with
    | (sym, buf1, off1) =>
      match sym with
      | .SYM_color =>
        match parse_enum buf1 off1 with
        | (sv, buf2, off2) =>
          let idx2 : Int :=
            match sv with
            | .SYM_black => 0
            | .SYM_white => 1
            | _ => idx
          player_close buf2 off2 idx2 rating name p
            (fun b o i r nm q => parse_player_loop b o i r nm q fuel)
      | .SYM_user =>
        match json_next buf1 off1 with
        | (t, buf2, off2) =>
          if t.type = JType.OBEG then
            match user_loop buf2 off2 name (buf2.length + 1) with
            | (buf3, off3, name3, ok) =>
              if ok then
                player_close buf3 off3 idx rating name3 p
                  (fun b o i r nm q => parse_player_loop b o i r nm q fuel)
              else ⟨buf3, buf3.length, p, idx, false, rating⟩
          else ⟨buf2, buf2.length, p, idx, false, rating⟩
      | .SYM_rating =>
        match parse_number buf1 off1 with
        | (rv, buf2, off2) =>
          player_close buf2 off2 idx rv name p
            (fun b o i r nm q => parse_player_loop b o i r nm q fuel)
      | _ =>
        match skip_value buf1 off1 with
        | (buf2, off2) =>
          player_close buf2 off2 idx rating name p
            (fun b o i r nm q => parse_player_loop b o i r nm q fuel)

/-- parse_player: object-open, then the key loop with locals
`idx = -1`, `rating = 0`, `name = 0`. -/
def parse_player (buf : List Nat) (off : Nat) (p : Player × Player) :
    List Nat × Nat × (Player × Player) :=
  match json_next buf off with
  | (t, buf1, off1) =>
    if t.type = JType.OBEG then
      match parse_player_loop buf1 off1 (-1) none none p (buf1.length + 1)
        with
      | ⟨buf2, off2, p2, _, _, _⟩ => (buf2, off2, p2)
    else (buf1, buf1.length, p)

/-- The shared closing switch of the parse_data key loop: read one token;
OEND returns the offset, COMMA continues via `recur`, anything else
returns len (abort). -/
def data_close (buf2 : List Nat) (off2 : Nat) (c : Chunk)
    (recur : List Nat → Nat → Chunk → List Nat × Nat × Chunk) :
    List Nat × Nat × Chunk :=
  match loop_close buf2 off2 with
  | (buf3, off3, .done) => (buf3, off3, c)
  | (buf3, off3, .again) => recur buf3 off3 c
  | (buf3, off3, .fail) => (buf3, off3, c)

/-- The SYM_players arm of the parse_data key loop: array-open, two
players separated by a comma, array-close, then the closing switch. -/
def data_players (buf1 : List Nat) (off1 : Nat) (c0 : Chunk)
    (recur : List Nat → Nat → Chunk → List Nat × Nat × Chunk) :
    List Nat × Nat × Chunk :=
  match json_next buf1 off1 with
  | (t, buf2, off2) =>
    if t.type = JType.ABEG then
      match parse_player buf2 off2 c0.players with
      | (buf3, off3, ps1) =>
        match json_next buf3 off3 with
        | (t4, buf4, off4) =>
          if t4.type = JType.COMMA then
            match parse_player buf4 off4 ps1 with
            | (buf5, off5, ps2) =>
              match json_next buf5 off5 with
              | (t6, buf6, off6) =>
                if t6.type = JType.AEND then
                  data_close buf6 off6 { c0 with players := ps2 } recur
                else (buf6, buf6.length, { c0 with players := ps2 })
          else (buf4, buf4.length, { c0 with players := ps1 })
    else (buf2, buf2.length, c0)

/-- The `for (;;)` key loop of parse_data over the data object. -/
def parse_data_loop (buf0 : List Nat) (off0 : Nat) (c0 : Chunk) :
    Nat → List Nat × Nat × Chunk
  | 0 => (buf0, buf0.length, c0)
  | fuel + 1 =>
    match parse_key buf0 off0 with
    | (sym, buf1, off1) =>
      match sym with
      | .SYM_fen =>
        match parse_string buf1 off1 with
        | (sv, buf2, off2) =>
          data_close buf2 off2 { c0 with fen := sv }
            (fun b o c => parse_data_loop b o c fuel)
      | .SYM_players =>
        data_players buf1 off1 c0 (fun b o c => parse_data_loop b o c fuel)
      | _ =>
        match skip_value buf1 off1 with
        | (buf2, off2) =>
          data_close buf2 off2 c0 (fun b o c => parse_data_loop b o c fuel)

/-- parse_data: object-open, then the key loop. -/
def parse_data (buf : List Nat) (off : Nat) (c : Chunk) :
    List Nat × Nat × Chunk :=
  match json_next buf off with
  | (t, buf1, off1) =>
    if t.type = JType.OBEG then parse_data_loop buf1 off1 c (buf1.length + 1)
    else (buf1, buf1.length, c)

/-- The `for (;;)` key loop of chunk_parse over the top-level object.
First component of the result is the C return value (0 or 1). -/
def chunk_close (buf2 : List Nat) (off2 : Nat) (c : Chunk)
    (recur : List Nat → Nat → Chunk → Nat × List Nat × Chunk) :
    Nat × List Nat × Chunk :=
  match loop_close buf2 off2 with
  | (buf3, _, .done) => (1, buf3, c)
  | (buf3, off3, .again) => recur buf3 off3 c
  | (buf3, _, .fail) => (0, buf3, c)

def chunk_parse_loop (buf0 : List Nat) (off0 : Nat) (c0 : Chunk) :
    Nat → Nat × List Nat × Chunk
  | 0 => (0, buf0, c0)
  | fuel + 1 =>
    match parse_key buf0 off0 with
    | (sym, buf1, off1) =>
      match sym with
      | .SYM_t =>
        match parse_enum buf1 off1 with
        | (sv, buf2, off2) =>
          match sv with
          | .SYM_featured =>
            chunk_close buf2 off2 { c0 with type := .CHUNK_FEATURED }
              (fun b o c => chunk_parse_loop b o c fuel)
          | .SYM_fen =>
            chunk_close buf2 off2 { c0 with type := .CHUNK_FEN }
              (fun b o c => chunk_parse_loop b o c fuel)
          | _ => (0, buf2, c0)
      | .SYM_d =>
        match parse_data buf1 off1 c0 with
        | (buf2, off2, c1) =>
          chunk_close buf2 off2 c1 (fun b o c => chunk_parse_loop b o c fuel)
      | _ =>
        match skip_value buf1 off1 with
        | (buf2, off2) =>
          chunk_close buf2 off2 c0 (fun b o c => chunk_parse_loop b o c fuel)

/-- chunk_parse: the entry point.  Object-open, then the key loop. -/
def chunk_parse (buf : List Nat) (c : Chunk) : Nat × List Nat × Chunk :=
  match json_next buf 0 with
  | (t, buf1, off1) =>
    if t.type = JType.OBEG then chunk_parse_loop buf1 off1 c (buf1.length + 1)
    else (0, buf1, c)

/-- Read the null-terminated C string at offset `off` of the buffer, as
the rendering layer would through the `char *` views of the record. -/
def cstr_go (buf : List Nat) : Nat → Nat → List Nat
  | 0, _ => []
  | fuel + 1, off =>
    if h : off < buf.length then
      if buf[off] = 0 then [] else buf[off] :: cstr_go buf fuel (off + 1)
    else []

/-- Null-terminated string view starting at `off`. -/
def cstr (buf : List Nat) (off : Nat) : List Nat :=
  cstr_go buf (buf.length - off) off

/-- Per-field two-run frame relation: across two runs of the parser on
caller records that may differ in one field, the field is either left
holding each caller's own pre-call contents, or written to the same
input-determined value in both runs. -/
def FrameEq {α : Type} (a1 a2 b1 b2 : α) : Prop :=
  (b1 = a1 ∧ b2 = a2) ∨ b1 = b2

/-- Two-run frame relation for the record kind: across two runs on
caller records that may differ in the type field, the field is either
left holding each caller's own pre-call value, or written identically in
both runs — and then never to CHUNK_UNKNOWN. -/
def TypeFrame (a1 a2 b1 b2 : CType) : Prop :=
  (b1 = a1 ∧ b2 = a2) ∨ (b1 = b2 ∧ b1 ≠ .CHUNK_UNKNOWN)

/-- Two-run relation at the parse_data level: on two runs against
caller records c1, c2 the buffer and cursor agree, each record field is
untouched-in-both or written-identically, and the type field is never
written at all. -/
def DRel (c1 c2 : Chunk) (x1 x2 : List Nat × Nat × Chunk) : Prop :=
  x1.1 = x2.1 ∧ x1.2.1 = x2.2.1 ∧
  FrameEq c1.fen c2.fen x1.2.2.fen x2.2.2.fen ∧
  FrameEq c1.players.1 c2.players.1 x1.2.2.players.1 x2.2.2.players.1 ∧
  FrameEq c1.players.2 c2.players.2 x1.2.2.players.2 x2.2.2.players.2 ∧
  x1.2.2.type = c1.type ∧ x2.2.2.type = c2.type

/-- Two-run relation at the chunk_parse level: the return value and the
buffer agree across the two runs, every record field is untouched-in-both
or written-identically, and a written type is never CHUNK_UNKNOWN. -/
def CRel (c1 c2 : Chunk) (x1 x2 : Nat × List Nat × Chunk) : Prop :=
  x1.1 = x2.1 ∧ x1.2.1 = x2.2.1 ∧
  FrameEq c1.fen c2.fen x1.2.2.fen x2.2.2.fen ∧
  FrameEq c1.players.1 c2.players.1 x1.2.2.players.1 x2.2.2.players.1 ∧
  FrameEq c1.players.2 c2.players.2 x1.2.2.players.2 x2.2.2.players.2 ∧
  TypeFrame c1.type c2.type x1.2.2.type x2.2.2.type

/-- Safety of the rating termination write for one run of the
parse_player key loop: if the run exits through the commit point having
captured a rating pointer `r`, then there is a pre-commit buffer `b3`
such that the digit run of `r` ends strictly inside the buffer at a
non-digit byte, the final buffer is `b3` with a null byte written over
exactly that position, and the final cursor is already past it. -/
def RatingSafe (R : PLoopRes) : Prop :=
  R.committed = true → ∀ r, R.grating = some r →
  ∃ b3 : List Nat,
    scan_digits b3 r < b3.length ∧
    isDigit (b3[scan_digits b3 r]!) = false ∧
    scan_digits b3 r < R.off ∧
    R.buf = b3.set (scan_digits b3 r) 0 ∧
    R.buf[scan_digits b3 r]! = 0

/-- A caller record with every field unset. -/
def cNone : Chunk := ⟨none, (⟨none, none⟩, ⟨none, none⟩), .CHUNK_UNKNOWN⟩

/-- Scenario A input: a full featured-game chunk. -/
def inputA : List Nat := strBytes
  "\x7b\"t\":\"featured\",\"d\":\x7b\"fen\":\"rnbqkbnr/...\",\"players\":[\x7b\"color\":\"black\",\"rating\":2500,\"user\":\x7b\"name\":\"Alice\"\x7d\x7d,\x7b\"color\":\"white\",\"rating\":2400,\"user\":\x7b\"name\":\"Bob\"\x7d\x7d]\x7d\x7d"

/-- Scenario B input: a fen-update chunk with no players. -/
def inputB : List Nat := strBytes "\x7b\"t\":\"fen\",\"d\":\x7b\"fen\":\"8/8/8/8/8/8/8/8\"\x7d\x7d"

/-- Scenario F input: extra unknown scalar keys at every nesting level. -/
def inputF : List Nat := strBytes
  "\x7b\"extra\":1,\"t\":\"fen\",\"noise\":true,\"d\":\x7b\"junk\":\"x\",\"fen\":\"8/8/8/8/8/8/8/8\"\x7d\x7d"

/-- A truncated chunk: the type tag parses and is stored, then the input
ends before the top-level object-close. -/
def inputT : List Nat := strBytes "\x7b\"t\":\"fen\""

/-- A caller record with every field set to a distinctive value. -/
def cMark : Chunk :=
  ⟨some 7777, (⟨some 701, some 702⟩, ⟨some 703, some 704⟩), .CHUNK_UNKNOWN⟩

/-- parse_player with its loop's ghost outputs kept: the final `idx`,
whether the commit point ran, and the committed rating pointer.  The
non-ghost fields are exactly parse_player's results (theorem
parse_player_g_proj). -/
def parse_player_g (buf : List Nat) (off : Nat) (p : Player × Player) :
    PLoopRes :=
  match json_next buf off with
  | (t, buf1, off1) =>
    if t.type = JType.OBEG then
      parse_player_loop buf1 off1 (-1) none none p (buf1.length + 1)
    else ⟨buf1, buf1.length, p, -1, false, none⟩

/-- Result of the ghost-instrumented parse_data key loop: parse_data's
own results plus one write flag per record field assignment in its C
body — `wfen` marks `c->fen = parse_string(...)`, and `w0`/`w1` mark a
parse_player commit into `p[0]`/`p[1]`.  A flag is only ever turned on,
exactly when the marked assignment executes. -/
structure DGRes where
  buf : List Nat
  off : Nat
  c : Chunk
  wfen : Bool
  w0 : Bool
  w1 : Bool
deriving DecidableEq, Repr

/-- The closing switch of the ghost parse_data key loop: same control
flow as data_close, threading the write flags unchanged. -/
def data_close_g (buf2 : List Nat) (off2 : Nat) (c : Chunk)
    (wf w0 w1 : Bool)
    (recur : List Nat → Nat → Chunk → Bool → Bool → Bool → DGRes) :
    DGRes :=
  match loop_close buf2 off2 with
  | (buf3, off3, .done) => ⟨buf3, off3, c, wf, w0, w1⟩
  | (buf3, off3, .again) => recur buf3 off3 c wf w0 w1
  | (buf3, off3, .fail) => ⟨buf3, off3, c, wf, w0, w1⟩

/-- The SYM_players arm of the ghost parse_data key loop: identical
control flow to data_players, with each parse_player call's commit
recorded into the slot flag its `p[idx]` write targets (slot 0 when the
committed index is 0, slot 1 otherwise, mirroring setPlayer). -/
def data_players_g (buf1 : List Nat) (off1 : Nat) (c0 : Chunk)
    (wf w0 w1 : Bool)
    (recur : List Nat → Nat → Chunk → Bool → Bool → Bool → DGRes) :
    DGRes :=
  match json_next buf1 off1 with
  | (t, buf2, off2) =>
    if t.type = JType.ABEG then
      match parse_player_g buf2 off2 c0.players with
      | ⟨buf3, off3, ps1, i1, cm1, _⟩ =>
        match json_next buf3 off3 with
        | (t4, buf4, off4) =>
          if t4.type = JType.COMMA then
            match parse_player_g buf4 off4 ps1 with
            | ⟨buf5, off5, ps2, i2, cm2, _⟩ =>
              match json_next buf5 off5 with
              | (t6, buf6, off6) =>
                if t6.type = JType.AEND then
                  data_close_g buf6 off6 { c0 with players := ps2 } wf
                    (w0 || (cm1 && decide (i1 = 0)) || (cm2 && decide (i2 = 0)))
                    (w1 || (cm1 && !decide (i1 = 0)) || (cm2 && !decide (i2 = 0)))
                    recur
                else
                  ⟨buf6, buf6.length, { c0 with players := ps2 }, wf,
                    w0 || (cm1 && decide (i1 = 0)) || (cm2 && decide (i2 = 0)),
                    w1 || (cm1 && !decide (i1 = 0)) || (cm2 && !decide (i2 = 0))⟩
          else
            ⟨buf4, buf4.length, { c0 with players := ps1 }, wf,
              w0 || (cm1 && decide (i1 = 0)), w1 || (cm1 && !decide (i1 = 0))⟩
    else ⟨buf2, buf2.length, c0, wf, w0, w1⟩

/-- The ghost-instrumented parse_data key loop. -/
def parse_data_loop_g (buf0 : List Nat) (off0 : Nat) (c0 : Chunk)
    (wf0 w00 w10 : Bool) : Nat → DGRes
  | 0 => ⟨buf0, buf0.length, c0, wf0, w00, w10⟩
  | fuel + 1 =>
    match parse_key buf0 off0 with
    | (sym, buf1, off1) =>
      match sym with
      | .SYM_fen =>
        match parse_string buf1 off1 with
        | (sv, buf2, off2) =>
          data_close_g buf2 off2 { c0 with fen := sv } true w00 w10
            (fun b o c wf w0 w1 => parse_data_loop_g b o c wf w0 w1 fuel)
      | .SYM_players =>
        data_players_g buf1 off1 c0 wf0 w00 w10
          (fun b o c wf w0 w1 => parse_data_loop_g b o c wf w0 w1 fuel)
      | _ =>
        match skip_value buf1 off1 with
        | (buf2, off2) =>
          data_close_g buf2 off2 c0 wf0 w00 w10
            (fun b o c wf w0 w1 => parse_data_loop_g b o c wf w0 w1 fuel)

/-- Ghost-instrumented parse_data. -/
def parse_data_g (buf : List Nat) (off : Nat) (c : Chunk)
    (wf w0 w1 : Bool) : DGRes :=
  match json_next buf off with
  | (t, buf1, off1) =>
    if t.type = JType.OBEG then
      parse_data_loop_g buf1 off1 c wf w0 w1 (buf1.length + 1)
    else ⟨buf1, buf1.length, c, wf, w0, w1⟩

/-- Result of the ghost-instrumented chunk_parse key loop: chunk_parse's
return value, buffer and record, plus one write flag per record field —
`wtype` marks the `c->type = ...` assignments of the SYM_t arm, and
`wfen`/`w0`/`w1` come from parse_data. -/
structure CGRes where
  ret : Nat
  buf : List Nat
  c : Chunk
  wtype : Bool
  wfen : Bool
  w0 : Bool
  w1 : Bool
deriving DecidableEq, Repr

/-- The closing switch of the ghost chunk_parse key loop. -/
def chunk_close_g (buf2 : List Nat) (off2 : Nat) (c : Chunk)
    (wt wf w0 w1 : Bool)
    (recur : List Nat → Nat → Chunk → Bool → Bool → Bool → Bool → CGRes) :
    CGRes :=
  match loop_close buf2 off2 with
  | (buf3, _, .done) => ⟨1, buf3, c, wt, wf, w0, w1⟩
  | (buf3, off3, .again) => recur buf3 off3 c wt wf w0 w1
  | (buf3, _, .fail) => ⟨0, buf3, c, wt, wf, w0, w1⟩

/-- The ghost-instrumented chunk_parse key loop. -/
def chunk_parse_loop_g (buf0 : List Nat) (off0 : Nat) (c0 : Chunk)
    (wt0 wf0 w00 w10 : Bool) : Nat → CGRes
  | 0 => ⟨0, buf0, c0, wt0, wf0, w00, w10⟩
  | fuel + 1 =>
    match parse_key buf0 off0 with
    | (sym, buf1, off1) =>
      match sym with
      | .SYM_t =>
        match parse_enum buf1 off1 with
        | (sv, buf2, off2) =>
          match sv with
          | .SYM_featured =>
            chunk_close_g buf2 off2 { c0 with type := .CHUNK_FEATURED }
              true wf0 w00 w10
              (fun b o c wt wf w0 w1 =>
                chunk_parse_loop_g b o c wt wf w0 w1 fuel)
          | .SYM_fen =>
            chunk_close_g buf2 off2 { c0 with type := .CHUNK_FEN }
              true wf0 w00 w10
              (fun b o c wt wf w0 w1 =>
                chunk_parse_loop_g b o c wt wf w0 w1 fuel)
          | _ => ⟨0, buf2, c0, wt0, wf0, w00, w10⟩
      | .SYM_d =>
        match parse_data_g buf1 off1 c0 wf0 w00 w10 with
        | ⟨buf2, off2, c1, wf1, w01, w11⟩ =>
          chunk_close_g buf2 off2 c1 wt0 wf1 w01 w11
            (fun b o c wt wf w0 w1 =>
              chunk_parse_loop_g b o c wt wf w0 w1 fuel)
      | _ =>
        match skip_value buf1 off1 with
        | (buf2, off2) =>
          chunk_close_g buf2 off2 c0 wt0 wf0 w00 w10
            (fun b o c wt wf w0 w1 =>
              chunk_parse_loop_g b o c wt wf w0 w1 fuel)

/-- Ghost-instrumented chunk_parse: every flag starts false; a flag is
turned on exactly when the corresponding record-field assignment of the
C body executes. -/
def chunk_parse_g (buf : List Nat) (c : Chunk) : CGRes :=
  match json_next buf 0 with
  | (t, buf1, off1) =>
    if t.type = JType.OBEG then
      chunk_parse_loop_g buf1 off1 c false false false false
        (buf1.length + 1)
    else ⟨0, buf1, c, false, false, false, false⟩

/-- Frame facts of one ghost parse_data run against the caller record
`c` and incoming flags: flags are monotone, a field whose flag is off at
the end holds exactly the caller's pre-call contents, and the type field
is never written at all at this level. -/
def DGFrame (c : Chunk) (wf w0 w1 : Bool) (R : DGRes) : Prop :=
  (wf = true → R.wfen = true) ∧
  (w0 = true → R.w0 = true) ∧
  (w1 = true → R.w1 = true) ∧
  (R.wfen = false → R.c.fen = c.fen) ∧
  (R.w0 = false → R.c.players.1 = c.players.1) ∧
  (R.w1 = false → R.c.players.2 = c.players.2) ∧
  R.c.type = c.type

/-- Frame facts of one ghost chunk_parse run: flags are monotone, a
field whose flag is off at the end holds exactly the caller's pre-call
contents, and a type that was written holds CHUNK_FEATURED or CHUNK_FEN
— never CHUNK_UNKNOWN. -/
def CGFrame (c : Chunk) (wt wf w0 w1 : Bool) (R : CGRes) : Prop :=
  (wt = true → R.wtype = true) ∧
  (wf = true → R.wfen = true) ∧
  (w0 = true → R.w0 = true) ∧
  (w1 = true → R.w1 = true) ∧
  (R.wtype = false → R.c.type = c.type) ∧
  (R.wtype = true →
    R.c.type = .CHUNK_FEATURED ∨ R.c.type = .CHUNK_FEN) ∧
  (R.wfen = false → R.c.fen = c.fen) ∧
  (R.w0 = false → R.c.players.1 = c.players.1) ∧
  (R.w1 = false → R.c.players.2 = c.players.2)

/-! ## Lemmas about the leaf scanning loops -/

theorem skip_ws_go_ge (buf : List Nat) :
    ∀ fuel off, off ≤ skip_ws_go buf fuel off := by
  intro fuel
  induction fuel with
  | zero => intro off; simp [skip_ws_go]
  | succ n ih =>
    intro off
    simp only [skip_ws_go]
    split
    · split
      · exact le_trans (Nat.le_succ off) (ih (off + 1))
      · exact Nat.le_refl off
    · exact Nat.le_refl off

theorem skip_ws_go_le (buf : List Nat) :
    ∀ fuel off, off ≤ buf.length → skip_ws_go buf fuel off ≤ buf.length := by
  intro fuel
  induction fuel with
  | zero => intro off h; simpa [skip_ws_go] using h
  | succ n ih =>
    intro off h
    simp only [skip_ws_go]
    split
    · split
      · exact ih (off + 1) (by omega)
      · exact h
    · exact h

theorem skip_whitespace_ge (buf : List Nat) (off : Nat) :
    off ≤ skip_whitespace buf off :=
  skip_ws_go_ge buf _ off

theorem skip_whitespace_le (buf : List Nat) (off : Nat)
    (h : off ≤ buf.length) : skip_whitespace buf off ≤ buf.length :=
  skip_ws_go_le buf _ off h

theorem skip_whitespace_eq_self (buf : List Nat) (off : Nat)
    (h : ∀ hh : off < buf.length, isWs buf[off] = false) :
    skip_whitespace buf off = off := by
  unfold skip_whitespace
  rcases hcmp : buf.length - off with _ | n
  · simp [skip_ws_go]
  · simp only [skip_ws_go]
    split
    · next hin => simp [h hin]
    · rfl

theorem skip_whitespace_at_end (buf : List Nat) (off : Nat)
    (h : buf.length ≤ off) : skip_whitespace buf off = off := by
  unfold skip_whitespace
  have : buf.length - off = 0 := by omega
  simp [this, skip_ws_go]

theorem skip_until_go_ge (buf : List Nat) (byte : Nat) :
    ∀ fuel off, off ≤ skip_until_go buf byte fuel off := by
  intro fuel
  induction fuel with
  | zero => intro off; simp [skip_until_go]
  | succ n ih =>
    intro off
    simp only [skip_until_go]
    split
    · split
      · exact Nat.le_refl off
      · exact le_trans (Nat.le_succ off) (ih (off + 1))
    · exact Nat.le_refl off

theorem skip_until_go_le (buf : List Nat) (byte : Nat) :
    ∀ fuel off, off ≤ buf.length →
      skip_until_go buf byte fuel off ≤ buf.length := by
  intro fuel
  induction fuel with
  | zero => intro off h; simpa [skip_until_go] using h
  | succ n ih =>
    intro off h
    simp only [skip_until_go]
    split
    · split
      · exact h
      · exact ih (off + 1) (by omega)
    · exact h

theorem skip_until_ge (buf : List Nat) (off byte : Nat) :
    off ≤ skip_until buf off byte :=
  skip_until_go_ge buf byte _ off

theorem skip_until_le (buf : List Nat) (off byte : Nat)
    (h : off ≤ buf.length) : skip_until buf off byte ≤ buf.length :=
  skip_until_go_le buf byte _ off h

theorem scan_digits_go_ge (buf : List Nat) :
    ∀ fuel off, off ≤ scan_digits_go buf fuel off := by
  intro fuel
  induction fuel with
  | zero => intro off; simp [scan_digits_go]
  | succ n ih =>
    intro off
    simp only [scan_digits_go]
    split
    · split
      · exact le_trans (Nat.le_succ off) (ih (off + 1))
      · exact Nat.le_refl off
    · exact Nat.le_refl off

theorem scan_digits_go_le (buf : List Nat) :
    ∀ fuel off, off ≤ buf.length →
      scan_digits_go buf fuel off ≤ buf.length := by
  intro fuel
  induction fuel with
  | zero => intro off h; simpa [scan_digits_go] using h
  | succ n ih =>
    intro off h
    simp only [scan_digits_go]
    split
    · split
      · exact ih (off + 1) (by omega)
      · exact h
    · exact h

theorem scan_digits_ge (buf : List Nat) (off : Nat) :
    off ≤ scan_digits buf off :=
  scan_digits_go_ge buf _ off

theorem scan_digits_le (buf : List Nat) (off : Nat)
    (h : off ≤ buf.length) : scan_digits buf off ≤ buf.length :=
  scan_digits_go_le buf _ off h

theorem scan_digits_go_stop (buf : List Nat) :
    ∀ fuel off, buf.length - off ≤ fuel →
      scan_digits_go buf fuel off < buf.length →
      isDigit (buf[scan_digits_go buf fuel off]!) = false := by
  intro fuel
  induction fuel with
  | zero =>
    intro off hf h
    simp only [scan_digits_go] at h
    omega
  | succ n ih =>
    intro off hf h
    by_cases hin : off < buf.length
    · by_cases hd : isDigit buf[off] = true
      · simp only [scan_digits_go, dif_pos hin, hd, if_true] at h ⊢
        exact ih (off + 1) (by omega) h
      · simp only [scan_digits_go, dif_pos hin, if_neg hd] at h ⊢
        rw [getElem!_pos buf off hin]
        exact eq_false_of_ne_true hd
    · simp only [scan_digits_go, dif_neg hin] at h
      omega

theorem scan_digits_go_digits (buf : List Nat) :
    ∀ fuel off j, off ≤ j → j < scan_digits_go buf fuel off →
      isDigit (buf[j]!) = true := by
  intro fuel
  induction fuel with
  | zero =>
    intro off j hj h
    simp only [scan_digits_go] at h
    omega
  | succ n ih =>
    intro off j hj h
    by_cases hin : off < buf.length
    · by_cases hd : isDigit buf[off] = true
      · simp only [scan_digits_go, dif_pos hin, hd, if_true] at h
        rcases Nat.eq_or_lt_of_le hj with rfl | hlt
        · rw [getElem!_pos buf off hin]; exact hd
        · exact ih (off + 1) j hlt h
      · simp only [scan_digits_go, dif_pos hin, if_neg hd] at h
        omega
    · simp only [scan_digits_go, dif_neg hin] at h
      omega

theorem scan_digits_stop (buf : List Nat) (off : Nat)
    (h : scan_digits buf off < buf.length) :
    isDigit (buf[scan_digits buf off]!) = false :=
  scan_digits_go_stop buf _ off (Nat.le_refl _) h

theorem scan_digits_digits (buf : List Nat) (off j : Nat)
    (hj : off ≤ j) (h : j < scan_digits buf off) :
    isDigit (buf[j]!) = true :=
  scan_digits_go_digits buf _ off j hj h

theorem scan_digits_go_eq (buf : List Nat) :
    ∀ fuel off e, buf.length - off ≤ fuel → off ≤ e →
      (∀ j, off ≤ j → j < e → isDigit (buf[j]!) = true) →
      e < buf.length → isDigit (buf[e]!) = false →
      scan_digits_go buf fuel off = e := by
  intro fuel
  induction fuel with
  | zero =>
    intro off e hf he hdig helen hstop
    simp only [scan_digits_go]
    omega
  | succ n ih =>
    intro off e hf he hdig helen hstop
    have hin : off < buf.length := by omega
    rcases Nat.eq_or_lt_of_le he with rfl | hlt
    · rw [getElem!_pos buf off hin] at hstop
      simp [scan_digits_go, dif_pos hin, hstop]
    · have hd := hdig off (Nat.le_refl off) hlt
      rw [getElem!_pos buf off hin] at hd
      simp only [scan_digits_go, dif_pos hin, hd, if_true]
      exact ih (off + 1) e (by omega) hlt
        (fun j h1 h2 => hdig j (by omega) h2) helen hstop

theorem scan_digits_eq (buf : List Nat) (off e : Nat) (he : off ≤ e)
    (hdig : ∀ j, off ≤ j → j < e → isDigit (buf[j]!) = true)
    (helen : e < buf.length) (hstop : isDigit (buf[e]!) = false) :
    scan_digits buf off = e :=
  scan_digits_go_eq buf _ off e (Nat.le_refl _) he hdig helen hstop

/-! ## Lemmas about the tokenizer -/

theorem peek_lt {buf : List Nat} {off c : Nat} (h : peek buf off = some c) :
    off < buf.length := by
  unfold peek at h
  split at h
  · assumption
  · exact absurd h (by simp)

theorem peek_val {buf : List Nat} {off c : Nat} (h : peek buf off = some c) :
    buf[off]! = c := by
  unfold peek at h
  split at h
  · next hin => rw [getElem!_pos buf off hin]; exact Option.some_injective _ h
  · exact absurd h (by simp)

theorem peek_none {buf : List Nat} {off : Nat} (h : peek buf off = none) :
    buf.length ≤ off := by
  unfold peek at h
  split at h
  · exact absurd h (by simp)
  · omega

theorem getbang_set_ne (buf : List Nat) (e j v : Nat) (h : j ≠ e) :
    (buf.set e v)[j]! = buf[j]! := by
  by_cases hj : j < buf.length
  · rw [getElem!_pos _ j (by simpa using hj), getElem!_pos buf j hj]
    exact List.getElem_set_ne (Ne.symm h) _
  · rw [getElem!_neg _ j (by simpa using hj), getElem!_neg buf j hj]

/-- Full case analysis of one json_next call: exactly one of the
fourteen switch outcomes happens, together with the byte condition that
selects it. -/
theorem json_next_cases (buf : List Nat) (off w len : Nat)
    (hw : w = skip_whitespace buf off) (hlen : len = buf.length) :
    (len ≤ w ∧ json_next buf off = (⟨len, 0, .ERROR⟩, buf, w)) ∨
    (w < len ∧ buf[w]! = 123 ∧
      json_next buf off = (⟨w, 1, .OBEG⟩, buf, w + 1)) ∨
    (w < len ∧ buf[w]! = 125 ∧
      json_next buf off = (⟨w, 1, .OEND⟩, buf, w + 1)) ∨
    (w < len ∧ buf[w]! = 91 ∧
      json_next buf off = (⟨w, 1, .ABEG⟩, buf, w + 1)) ∨
    (w < len ∧ buf[w]! = 93 ∧
      json_next buf off = (⟨w, 1, .AEND⟩, buf, w + 1)) ∨
    (w < len ∧ buf[w]! = 34 ∧ skip_until buf (w + 1) 34 = len ∧
      json_next buf off = (⟨w + 1, len - (w + 1), .ERROR⟩, buf, len)) ∨
    (w < len ∧ buf[w]! = 34 ∧ skip_until buf (w + 1) 34 ≠ len ∧
      json_next buf off =
        (⟨w + 1, skip_until buf (w + 1) 34 - (w + 1), .STRING⟩,
          buf.set (skip_until buf (w + 1) 34) 0,
          skip_until buf (w + 1) 34 + 1)) ∨
    (w < len ∧ buf[w]! = 44 ∧
      json_next buf off = (⟨w, 1, .COMMA⟩, buf, w + 1)) ∨
    (w < len ∧ isDigit (buf[w]!) = true ∧
      json_next buf off =
        (⟨w, scan_digits buf w - w, .NUMBER⟩, buf, scan_digits buf w)) ∨
    (w < len ∧ buf[w]! = 58 ∧
      json_next buf off = (⟨w, 1, .COLON⟩, buf, w + 1)) ∨
    (w < len ∧ buf[w]! = 102 ∧ w + 5 ≤ len ∧
      json_next buf off = (⟨w, 5, .FALSE⟩, buf, w + 5)) ∨
    (w < len ∧ buf[w]! = 102 ∧
      json_next buf off = (⟨len, 0, .ERROR⟩, buf, len)) ∨
    (w < len ∧ buf[w]! = 116 ∧ w + 4 ≤ len ∧
      json_next buf off = (⟨w, 4, .TRUE⟩, buf, w + 4)) ∨
    (w < len ∧ buf[w]! = 116 ∧
      json_next buf off = (⟨len, 0, .ERROR⟩, buf, len)) ∨
    (w < len ∧ buf[w]! ≠ 123 ∧ buf[w]! ≠ 125 ∧ buf[w]! ≠ 91 ∧
      buf[w]! ≠ 93 ∧ buf[w]! ≠ 34 ∧ buf[w]! ≠ 44 ∧
      isDigit (buf[w]!) = false ∧ buf[w]! ≠ 58 ∧ buf[w]! ≠ 102 ∧
      buf[w]! ≠ 116 ∧
      json_next buf off = (⟨len, 0, .ERROR⟩, buf, w)) := by
  subst hw hlen
  rcases hp : peek buf (skip_whitespace buf off) with _ | c
  · exact Or.inl ⟨peek_none hp, by simp [json_next, hp]⟩
  · have hwlt := peek_lt hp
    have hval := peek_val hp
    by_cases h1 : c = 123
    · subst h1
      iterate 1 right
      left
      exact ⟨hwlt, hval, by simp [json_next, hp]⟩
    by_cases h2 : c = 125
    · subst h2
      iterate 2 right
      left
      exact ⟨hwlt, hval, by simp [json_next, hp]⟩
    by_cases h3 : c = 91
    · subst h3
      iterate 3 right
      left
      exact ⟨hwlt, hval, by simp [json_next, hp]⟩
    by_cases h4 : c = 93
    · subst h4
      iterate 4 right
      left
      exact ⟨hwlt, hval, by simp [json_next, hp]⟩
    by_cases h5 : c = 34
    · subst h5
      by_cases he : skip_until buf (skip_whitespace buf off + 1) 34 = buf.length
      · iterate 5 right
        left
        exact ⟨hwlt, hval, he, by simp [json_next, hp, he]⟩
      · iterate 6 right
        left
        exact ⟨hwlt, hval, he, by simp [json_next, hp, he]⟩
    by_cases h6 : c = 44
    · subst h6
      iterate 7 right
      left
      exact ⟨hwlt, hval, by simp [json_next, hp]⟩
    by_cases hd : isDigit c = true
    · iterate 8 right
      left
      exact ⟨hwlt, by rw [hval]; exact hd,
        by simp [json_next, hp, h1, h2, h3, h4, h5, h6, hd]⟩
    by_cases h7 : c = 58
    · subst h7
      iterate 9 right
      left
      exact ⟨hwlt, hval, by simp [json_next, hp, hd]⟩
    by_cases h8 : c = 102
    · subst h8
      by_cases hg : 5 ≤ buf.length - skip_whitespace buf off ∧
          (buf.drop (skip_whitespace buf off)).take 5 = strBytes "false"
      · iterate 10 right
        left
        exact ⟨hwlt, hval, by omega, by simp [json_next, hp, hd, hg]⟩
      · iterate 11 right
        left
        exact ⟨hwlt, hval, by simp [json_next, hp, hd, hg]⟩
    by_cases h9 : c = 116
    · subst h9
      by_cases hg : 4 ≤ buf.length - skip_whitespace buf off ∧
          (buf.drop (skip_whitespace buf off)).take 4 = strBytes "true"
      · iterate 12 right
        left
        exact ⟨hwlt, hval, by omega, by simp [json_next, hp, hd, hg]⟩
      · iterate 13 right
        left
        exact ⟨hwlt, hval, by simp [json_next, hp, hd, hg]⟩
    iterate 14 right
    exact ⟨hwlt, by rw [hval]; exact h1, by rw [hval]; exact h2,
      by rw [hval]; exact h3, by rw [hval]; exact h4,
      by rw [hval]; exact h5, by rw [hval]; exact h6,
      by rw [hval]; exact eq_false_of_ne_true hd,
      by rw [hval]; exact h7, by rw [hval]; exact h8,
      by rw [hval]; exact h9,
      by simp [json_next, hp, h1, h2, h3, h4, h5, h6, hd, h7, h8, h9]⟩

theorem skip_until_at_end (buf : List Nat) (off byte : Nat)
    (h : buf.length ≤ off) : skip_until buf off byte = off := by
  unfold skip_until
  have h0 : buf.length - off = 0 := by omega
  rw [h0]
  rfl

theorem scan_digits_at_end (buf : List Nat) (off : Nat)
    (h : buf.length ≤ off) : scan_digits buf off = off := by
  unfold scan_digits
  have h0 : buf.length - off = 0 := by omega
  rw [h0]
  rfl

theorem skip_until_le2 (buf : List Nat) (off byte : Nat) :
    skip_until buf off byte ≤ buf.length ∨ skip_until buf off byte = off := by
  rcases le_or_lt off buf.length with h | h
  · exact Or.inl (skip_until_le buf off byte h)
  · exact Or.inr (skip_until_at_end buf off byte (by omega))

theorem scan_digits_le2 (buf : List Nat) (off : Nat) :
    scan_digits buf off ≤ buf.length ∨ scan_digits buf off = off := by
  rcases le_or_lt off buf.length with h | h
  · exact Or.inl (scan_digits_le buf off h)
  · exact Or.inr (scan_digits_at_end buf off (by omega))

theorem scan_digits_lt (buf : List Nat) (w : Nat) (hw : w < buf.length)
    (hd : isDigit (buf[w]!) = true) : w + 1 ≤ scan_digits buf w := by
  unfold scan_digits
  rcases hcmp : buf.length - w with _ | n
  · omega
  · rw [getElem!_pos buf w hw] at hd
    simp only [scan_digits_go, dif_pos hw, hd, if_true]
    exact scan_digits_go_ge buf n (w + 1)

theorem json_next_basic (buf : List Nat) (off : Nat) :
    (json_next buf off).2.1.length = buf.length ∧
    off ≤ (json_next buf off).2.2 ∧
    (off ≤ buf.length → (json_next buf off).2.2 ≤ buf.length) ∧
    (∀ j, j ≤ off → (json_next buf off).2.1[j]! = buf[j]!) := by
  have hws1 := skip_whitespace_ge buf off
  have hsu1 := skip_until_ge buf (skip_whitespace buf off + 1) 34
  have hsc1 := scan_digits_ge buf (skip_whitespace buf off)
  rcases json_next_cases buf off _ _ rfl rfl with
    ⟨hA, hE⟩ | ⟨hA, hB, hE⟩ | ⟨hA, hB, hE⟩ | ⟨hA, hB, hE⟩ | ⟨hA, hB, hE⟩ |
    ⟨hA, hB, hC, hE⟩ | ⟨hA, hB, hC, hE⟩ | ⟨hA, hB, hE⟩ | ⟨hA, hB, hE⟩ |
    ⟨hA, hB, hE⟩ | ⟨hA, hB, hC, hE⟩ | ⟨hA, hB, hE⟩ | ⟨hA, hB, hC, hE⟩ |
    ⟨hA, hB, hE⟩ | ⟨hA, hB1, hB2, hB3, hB4, hB5, hB6, hB7, hB8, hB9, hB10, hE⟩
  all_goals rcases skip_until_le2 buf (skip_whitespace buf off + 1) 34
    with hsu2 | hsu2
  all_goals rcases scan_digits_le2 buf (skip_whitespace buf off)
    with hsc2 | hsc2
  all_goals simp only [hE]
  all_goals
    refine ⟨by first | rfl | simp [List.length_set], by omega,
      fun h => by first | omega | exact skip_whitespace_le buf off h,
      fun j hj => ?_⟩
  all_goals first
    | rfl
    | trivial
    | exact getbang_set_ne buf _ j 0 (by omega)

theorem json_next_len (buf : List Nat) (off : Nat) :
    (json_next buf off).2.1.length = buf.length :=
  (json_next_basic buf off).1

theorem json_next_mono (buf : List Nat) (off : Nat) :
    off ≤ (json_next buf off).2.2 :=
  (json_next_basic buf off).2.1

theorem json_next_le (buf : List Nat) (off : Nat) (h : off ≤ buf.length) :
    (json_next buf off).2.2 ≤ buf.length :=
  (json_next_basic buf off).2.2.1 h

theorem json_next_frame (buf : List Nat) (off : Nat) :
    ∀ j, j ≤ off → (json_next buf off).2.1[j]! = buf[j]! :=
  (json_next_basic buf off).2.2.2

theorem json_next_progress (buf : List Nat) (off : Nat) :
    ((json_next buf off).1.type ≠ JType.ERROR →
      off < (json_next buf off).2.2) ∧
    ((json_next buf off).1.type = JType.ERROR →
      (json_next buf off).2.2 = buf.length ∨
      (json_next buf off).2.2 = skip_whitespace buf off) := by
  have hws1 := skip_whitespace_ge buf off
  have hsu1 := skip_until_ge buf (skip_whitespace buf off + 1) 34
  rcases json_next_cases buf off _ _ rfl rfl with
    ⟨hA, hE⟩ | ⟨hA, hB, hE⟩ | ⟨hA, hB, hE⟩ | ⟨hA, hB, hE⟩ | ⟨hA, hB, hE⟩ |
    ⟨hA, hB, hC, hE⟩ | ⟨hA, hB, hC, hE⟩ | ⟨hA, hB, hE⟩ | ⟨hA, hB, hE⟩ |
    ⟨hA, hB, hE⟩ | ⟨hA, hB, hC, hE⟩ | ⟨hA, hB, hE⟩ | ⟨hA, hB, hC, hE⟩ |
    ⟨hA, hB, hE⟩ | ⟨hA, hB1, hB2, hB3, hB4, hB5, hB6, hB7, hB8, hB9, hB10, hE⟩
  all_goals try have hsc3 := scan_digits_lt buf (skip_whitespace buf off) hA hB
  all_goals simp only [hE]
  all_goals constructor
  all_goals first
    | (intro hne; exact absurd rfl hne)
    | (intro hne; omega)
    | (intro heq; left; trivial)
    | (intro heq; right; trivial)

theorem json_next_number (buf : List Nat) (off : Nat)
    (h : (json_next buf off).1.type = JType.NUMBER) :
    (json_next buf off).2.1 = buf ∧
    (json_next buf off).1.off = skip_whitespace buf off ∧
    (json_next buf off).2.2 = scan_digits buf (skip_whitespace buf off) ∧
    skip_whitespace buf off < buf.length ∧
    isDigit (buf[skip_whitespace buf off]!) = true := by
  rcases json_next_cases buf off _ _ rfl rfl with
    ⟨hA, hE⟩ | ⟨hA, hB, hE⟩ | ⟨hA, hB, hE⟩ | ⟨hA, hB, hE⟩ | ⟨hA, hB, hE⟩ |
    ⟨hA, hB, hC, hE⟩ | ⟨hA, hB, hC, hE⟩ | ⟨hA, hB, hE⟩ | ⟨hA, hB, hE⟩ |
    ⟨hA, hB, hE⟩ | ⟨hA, hB, hC, hE⟩ | ⟨hA, hB, hE⟩ | ⟨hA, hB, hC, hE⟩ |
    ⟨hA, hB, hE⟩ | ⟨hA, hB1, hB2, hB3, hB4, hB5, hB6, hB7, hB8, hB9, hB10, hE⟩
  all_goals rw [hE] at h ⊢
  all_goals first
    | exact ⟨rfl, rfl, rfl, hA, hB⟩
    | simp at h

theorem json_next_string (buf : List Nat) (off : Nat)
    (h : (json_next buf off).1.type = JType.STRING) :
    (json_next buf off).1.off = skip_whitespace buf off + 1 ∧
    (json_next buf off).1.len =
      skip_until buf (skip_whitespace buf off + 1) 34 -
        (skip_whitespace buf off + 1) ∧
    (json_next buf off).2.1 =
      buf.set (skip_until buf (skip_whitespace buf off + 1) 34) 0 ∧
    (json_next buf off).2.2 =
      skip_until buf (skip_whitespace buf off + 1) 34 + 1 ∧
    skip_whitespace buf off + 1 ≤
      skip_until buf (skip_whitespace buf off + 1) 34 ∧
    skip_until buf (skip_whitespace buf off + 1) 34 < buf.length := by
  have hsu1 := skip_until_ge buf (skip_whitespace buf off + 1) 34
  rcases json_next_cases buf off _ _ rfl rfl with
    ⟨hA, hE⟩ | ⟨hA, hB, hE⟩ | ⟨hA, hB, hE⟩ | ⟨hA, hB, hE⟩ | ⟨hA, hB, hE⟩ |
    ⟨hA, hB, hC, hE⟩ | ⟨hA, hB, hC, hE⟩ | ⟨hA, hB, hE⟩ | ⟨hA, hB, hE⟩ |
    ⟨hA, hB, hE⟩ | ⟨hA, hB, hC, hE⟩ | ⟨hA, hB, hE⟩ | ⟨hA, hB, hC, hE⟩ |
    ⟨hA, hB, hE⟩ | ⟨hA, hB1, hB2, hB3, hB4, hB5, hB6, hB7, hB8, hB9, hB10, hE⟩
  all_goals rw [hE] at h ⊢
  all_goals try simp at h
  rcases skip_until_le2 buf (skip_whitespace buf off + 1) 34 with hsu2 | hsu2
  · exact ⟨rfl, rfl, rfl, rfl, hsu1, by omega⟩
  · exact ⟨rfl, rfl, rfl, rfl, hsu1, by omega⟩

/-! ## Lemmas about the one-token parsing helpers -/

theorem parse_key_basic (buf : List Nat) (off : Nat) (h : off ≤ buf.length) :
    (parse_key buf off).2.1.length = buf.length ∧
    off ≤ (parse_key buf off).2.2 ∧
    (parse_key buf off).2.2 ≤ buf.length ∧
    (∀ j, j ≤ off → (parse_key buf off).2.1[j]! = buf[j]!) := by
  obtain ⟨h1len, h1mono, h1le, h1frame⟩ := json_next_basic buf off
  obtain ⟨h2len, h2mono, h2le, h2frame⟩ :=
    json_next_basic (json_next buf off).2.1 (json_next buf off).2.2
  simp only [parse_key]
  split
  · exact ⟨h1len, by dsimp only; omega, by dsimp only; omega, h1frame⟩
  · have h2le2 := h2le (by omega)
    split
    · refine ⟨by dsimp only; omega, by dsimp only; omega,
        by dsimp only; omega, fun j hj => ?_⟩
      dsimp only
      rw [h2frame j (by omega), h1frame j hj]
    · refine ⟨by dsimp only; omega, by dsimp only; omega,
        by dsimp only; omega, fun j hj => ?_⟩
      dsimp only
      rw [h2frame j (by omega), h1frame j hj]

theorem parse_string_basic (buf : List Nat) (off : Nat)
    (h : off ≤ buf.length) :
    (parse_string buf off).2.1.length = buf.length ∧
    off ≤ (parse_string buf off).2.2 ∧
    (parse_string buf off).2.2 ≤ buf.length ∧
    (∀ j, j ≤ off → (parse_string buf off).2.1[j]! = buf[j]!) := by
  obtain ⟨h1len, h1mono, h1le, h1frame⟩ := json_next_basic buf off
  simp only [parse_string]
  split
  · exact ⟨h1len, by dsimp only; omega, by dsimp only; omega, h1frame⟩
  · exact ⟨h1len, by dsimp only; omega, by dsimp only; omega, h1frame⟩

theorem parse_number_basic (buf : List Nat) (off : Nat)
    (h : off ≤ buf.length) :
    (parse_number buf off).2.1.length = buf.length ∧
    off ≤ (parse_number buf off).2.2 ∧
    (parse_number buf off).2.2 ≤ buf.length ∧
    (∀ j, j ≤ off → (parse_number buf off).2.1[j]! = buf[j]!) := by
  obtain ⟨h1len, h1mono, h1le, h1frame⟩ := json_next_basic buf off
  simp only [parse_number]
  split
  · exact ⟨h1len, by dsimp only; omega, by dsimp only; omega, h1frame⟩
  · exact ⟨h1len, by dsimp only; omega, by dsimp only; omega, h1frame⟩

theorem parse_enum_basic (buf : List Nat) (off : Nat)
    (h : off ≤ buf.length) :
    (parse_enum buf off).2.1.length = buf.length ∧
    off ≤ (parse_enum buf off).2.2 ∧
    (parse_enum buf off).2.2 ≤ buf.length ∧
    (∀ j, j ≤ off → (parse_enum buf off).2.1[j]! = buf[j]!) := by
  obtain ⟨h1len, h1mono, h1le, h1frame⟩ := json_next_basic buf off
  simp only [parse_enum]
  split
  · exact ⟨h1len, by dsimp only; omega, by dsimp only; omega, h1frame⟩
  · exact ⟨h1len, by dsimp only; omega, by dsimp only; omega, h1frame⟩

theorem skip_value_basic (buf : List Nat) (off : Nat)
    (h : off ≤ buf.length) :
    (skip_value buf off).1.length = buf.length ∧
    off ≤ (skip_value buf off).2 ∧
    (skip_value buf off).2 ≤ buf.length ∧
    (∀ j, j ≤ off → (skip_value buf off).1[j]! = buf[j]!) := by
  obtain ⟨h1len, h1mono, h1le, h1frame⟩ := json_next_basic buf off
  simp only [skip_value]
  split
  all_goals exact ⟨h1len, by dsimp only; omega, by dsimp only; omega, h1frame⟩

theorem parse_string_spec (buf : List Nat) (off : Nat) :
    ((json_next buf off).1.type ≠ JType.STRING ∧
      parse_string buf off =
        (none, (json_next buf off).2.1, (json_next buf off).2.1.length)) ∨
    ((json_next buf off).1.type = JType.STRING ∧
      parse_string buf off =
        (some (json_next buf off).1.off, (json_next buf off).2.1,
          (json_next buf off).2.2)) := by
  simp only [parse_string]
  split
  · next hne => exact Or.inl ⟨hne, rfl⟩
  · next hne => exact Or.inr ⟨not_not.mp (fun hh => hne hh), rfl⟩

theorem parse_number_spec (buf : List Nat) (off : Nat) :
    ((json_next buf off).1.type ≠ JType.NUMBER ∧
      parse_number buf off =
        (none, (json_next buf off).2.1, (json_next buf off).2.1.length)) ∨
    ((json_next buf off).1.type = JType.NUMBER ∧
      parse_number buf off =
        (some (json_next buf off).1.off, (json_next buf off).2.1,
          (json_next buf off).2.2)) := by
  simp only [parse_number]
  split
  · next hne => exact Or.inl ⟨hne, rfl⟩
  · next hne => exact Or.inr ⟨not_not.mp (fun hh => hne hh), rfl⟩

theorem parse_enum_spec (buf : List Nat) (off : Nat) :
    ((json_next buf off).1.type ≠ JType.STRING ∧
      parse_enum buf off =
        (.SYM_UNKNOWN, (json_next buf off).2.1,
          (json_next buf off).2.1.length)) ∨
    ((json_next buf off).1.type = JType.STRING ∧
      parse_enum buf off =
        (parse_symbol
            (((json_next buf off).2.1.drop (json_next buf off).1.off).take
              (json_next buf off).1.len),
          (json_next buf off).2.1, (json_next buf off).2.2)) := by
  simp only [parse_enum]
  split
  · next hne => exact Or.inl ⟨hne, rfl⟩
  · next hne => exact Or.inr ⟨not_not.mp (fun hh => hne hh), rfl⟩

theorem skip_value_spec (buf : List Nat) (off : Nat) :
    (((json_next buf off).1.type = JType.FALSE ∨
      (json_next buf off).1.type = JType.TRUE ∨
      (json_next buf off).1.type = JType.STRING ∨
      (json_next buf off).1.type = JType.NUMBER) ∧
      skip_value buf off = ((json_next buf off).2.1, (json_next buf off).2.2)) ∨
    (¬((json_next buf off).1.type = JType.FALSE ∨
      (json_next buf off).1.type = JType.TRUE ∨
      (json_next buf off).1.type = JType.STRING ∨
      (json_next buf off).1.type = JType.NUMBER) ∧
      skip_value buf off =
        ((json_next buf off).2.1, (json_next buf off).2.1.length)) := by
  simp only [skip_value]
  rcases htype : (json_next buf off).1.type
  all_goals simp [htype]

/-- Relation between the (buffer, cursor) state before and after one
parsing step: the length is preserved, the cursor moves forward and
stays inside the buffer, and no byte at or before the starting cursor is
written. -/
def StepOK (buf : List Nat) (off : Nat) (buf2 : List Nat) (off2 : Nat) :
    Prop :=
  buf2.length = buf.length ∧ off ≤ off2 ∧ off2 ≤ buf.length ∧
  ∀ j, j ≤ off → buf2[j]! = buf[j]!

theorem StepOK.trans {b : List Nat} {o : Nat} {b2 : List Nat} {o2 : Nat}
    {b3 : List Nat} {o3 : Nat} (h1 : StepOK b o b2 o2)
    (h2 : StepOK b2 o2 b3 o3) : StepOK b o b3 o3 := by
  obtain ⟨l1, m1, e1, f1⟩ := h1
  obtain ⟨l2, m2, e2, f2⟩ := h2
  refine ⟨by omega, by omega, by omega, fun j hj => ?_⟩
  rw [f2 j (by omega), f1 j hj]

theorem StepOK.abort {b : List Nat} {o : Nat} {b2 : List Nat} {o2 : Nat}
    (h : StepOK b o b2 o2) : StepOK b o b2 b2.length := by
  obtain ⟨l1, m1, e1, f1⟩ := h
  exact ⟨l1, by omega, by omega, f1⟩

theorem StepOK.refl (b : List Nat) (o : Nat) (h : o ≤ b.length) :
    StepOK b o b o :=
  ⟨rfl, Nat.le_refl o, h, fun _ _ => rfl⟩

theorem json_next_ok (buf : List Nat) (off : Nat) (h : off ≤ buf.length) :
    StepOK buf off (json_next buf off).2.1 (json_next buf off).2.2 := by
  obtain ⟨l1, m1, e1, f1⟩ := json_next_basic buf off
  exact ⟨l1, m1, e1 h, f1⟩

theorem parse_key_ok (buf : List Nat) (off : Nat) (h : off ≤ buf.length) :
    StepOK buf off (parse_key buf off).2.1 (parse_key buf off).2.2 := by
  obtain ⟨l1, m1, e1, f1⟩ := parse_key_basic buf off h
  exact ⟨l1, m1, e1, f1⟩

theorem parse_string_ok (buf : List Nat) (off : Nat)
    (h : off ≤ buf.length) :
    StepOK buf off (parse_string buf off).2.1 (parse_string buf off).2.2 := by
  obtain ⟨l1, m1, e1, f1⟩ := parse_string_basic buf off h
  exact ⟨l1, m1, e1, f1⟩

theorem parse_number_ok (buf : List Nat) (off : Nat)
    (h : off ≤ buf.length) :
    StepOK buf off (parse_number buf off).2.1 (parse_number buf off).2.2 := by
  obtain ⟨l1, m1, e1, f1⟩ := parse_number_basic buf off h
  exact ⟨l1, m1, e1, f1⟩

theorem parse_enum_ok (buf : List Nat) (off : Nat) (h : off ≤ buf.length) :
    StepOK buf off (parse_enum buf off).2.1 (parse_enum buf off).2.2 := by
  obtain ⟨l1, m1, e1, f1⟩ := parse_enum_basic buf off h
  exact ⟨l1, m1, e1, f1⟩

theorem skip_value_ok (buf : List Nat) (off : Nat) (h : off ≤ buf.length) :
    StepOK buf off (skip_value buf off).1 (skip_value buf off).2 := by
  obtain ⟨l1, m1, e1, f1⟩ := skip_value_basic buf off h
  exact ⟨l1, m1, e1, f1⟩

/-! ## Step lemmas in hypothesis form, and the loop invariants -/

theorem json_next_ok' {buf : List Nat} {off : Nat} {t : Token}
    {b1 : List Nat} {o1 : Nat} (h : json_next buf off = (t, b1, o1))
    (hlen : off ≤ buf.length) : StepOK buf off b1 o1 := by
  have hh := json_next_ok buf off hlen
  rwa [h] at hh

theorem parse_key_ok' {buf : List Nat} {off : Nat} {sym : CSym}
    {b1 : List Nat} {o1 : Nat} (h : parse_key buf off = (sym, b1, o1))
    (hlen : off ≤ buf.length) : StepOK buf off b1 o1 := by
  have hh := parse_key_ok buf off hlen
  rwa [h] at hh

theorem parse_string_ok' {buf : List Nat} {off : Nat} {v : Option Nat}
    {b1 : List Nat} {o1 : Nat} (h : parse_string buf off = (v, b1, o1))
    (hlen : off ≤ buf.length) : StepOK buf off b1 o1 := by
  have hh := parse_string_ok buf off hlen
  rwa [h] at hh

theorem parse_number_ok' {buf : List Nat} {off : Nat} {v : Option Nat}
    {b1 : List Nat} {o1 : Nat} (h : parse_number buf off = (v, b1, o1))
    (hlen : off ≤ buf.length) : StepOK buf off b1 o1 := by
  have hh := parse_number_ok buf off hlen
  rwa [h] at hh

theorem parse_enum_ok' {buf : List Nat} {off : Nat} {sym : CSym}
    {b1 : List Nat} {o1 : Nat} (h : parse_enum buf off = (sym, b1, o1))
    (hlen : off ≤ buf.length) : StepOK buf off b1 o1 := by
  have hh := parse_enum_ok buf off hlen
  rwa [h] at hh

theorem skip_value_ok' {buf : List Nat} {off : Nat}
    {b1 : List Nat} {o1 : Nat} (h : skip_value buf off = (b1, o1))
    (hlen : off ≤ buf.length) : StepOK buf off b1 o1 := by
  have hh := skip_value_ok buf off hlen
  rwa [h] at hh

/-- The closing-token outcomes of json_next (object-close or comma):
these single-character tokens leave the buffer unchanged and place the
cursor one past the token byte. -/
theorem json_next_close (buf : List Nat) (off : Nat)
    (h : (json_next buf off).1.type = JType.OEND ∨
      (json_next buf off).1.type = JType.COMMA) :
    (json_next buf off).2.1 = buf ∧
    (json_next buf off).2.2 = skip_whitespace buf off + 1 ∧
    off ≤ skip_whitespace buf off ∧
    skip_whitespace buf off < buf.length := by
  have hws1 := skip_whitespace_ge buf off
  rcases json_next_cases buf off _ _ rfl rfl with
    ⟨hA, hE⟩ | ⟨hA, hB, hE⟩ | ⟨hA, hB, hE⟩ | ⟨hA, hB, hE⟩ | ⟨hA, hB, hE⟩ |
    ⟨hA, hB, hC, hE⟩ | ⟨hA, hB, hC, hE⟩ | ⟨hA, hB, hE⟩ | ⟨hA, hB, hE⟩ |
    ⟨hA, hB, hE⟩ | ⟨hA, hB, hC, hE⟩ | ⟨hA, hB, hE⟩ | ⟨hA, hB, hC, hE⟩ |
    ⟨hA, hB, hE⟩ | ⟨hA, hB1, hB2, hB3, hB4, hB5, hB6, hB7, hB8, hB9, hB10, hE⟩
  all_goals rw [hE] at h ⊢
  all_goals first
    | exact ⟨rfl, rfl, hws1, hA⟩
    | simp at h

/-- Everything about one loop_close call: the state moves forward, a
continue is strict progress, a fail forces the end-of-buffer sentinel,
and a non-fail leaves the buffer unchanged with the cursor one past the
closing byte. -/
theorem loop_close_spec {buf : List Nat} {off : Nat} {b3 : List Nat}
    {o3 : Nat} {s : LoopStep} (hlen : off ≤ buf.length)
    (h : loop_close buf off = (b3, o3, s)) :
    StepOK buf off b3 o3 ∧
    (s = .again → off < o3) ∧
    (s = .fail → o3 = b3.length) ∧
    (s ≠ .fail → b3 = buf ∧ o3 = skip_whitespace buf off + 1 ∧
      off ≤ skip_whitespace buf off ∧
      skip_whitespace buf off < buf.length) := by
  have hok := json_next_ok buf off hlen
  simp only [loop_close] at h
  split at h
  · -- OEND
    next htyp =>
    obtain ⟨rfl, rfl, rfl⟩ := h
    obtain ⟨hcb, hco, hcw, hcl⟩ := json_next_close buf off (Or.inl htyp)
    refine ⟨hok, ?_, ?_, fun _ => ⟨hcb, hco, hcw, hcl⟩⟩
    · intro hs; cases hs
    · intro hs; cases hs
  · -- COMMA
    next htyp =>
    obtain ⟨rfl, rfl, rfl⟩ := h
    obtain ⟨hcb, hco, hcw, hcl⟩ := json_next_close buf off (Or.inr htyp)
    refine ⟨hok, fun _ => ?_, ?_, fun _ => ⟨hcb, hco, hcw, hcl⟩⟩
    · rw [hco]; omega
    · intro hs; cases hs
  · -- anything else
    obtain ⟨rfl, rfl, rfl⟩ := h
    refine ⟨hok.abort, ?_, fun _ => rfl, fun hs => absurd rfl hs⟩
    intro hs; cases hs

/-- Weaker movement relation for completed sub-parses: length preserved,
cursor moved forward, cursor in bounds.  A committed parse_player call
writes a null byte behind its final cursor (the rating terminator), so
completed calls satisfy this relation rather than the full frame. -/
def MovesOK (buf : List Nat) (off : Nat) (buf2 : List Nat) (off2 : Nat) :
    Prop :=
  buf2.length = buf.length ∧ off ≤ off2 ∧ off2 ≤ buf.length

theorem StepOK.moves {b : List Nat} {o : Nat} {b2 : List Nat} {o2 : Nat}
    (h : StepOK b o b2 o2) : MovesOK b o b2 o2 :=
  ⟨h.1, h.2.1, h.2.2.1⟩

theorem MovesOK.mtrans {b : List Nat} {o : Nat} {b2 : List Nat} {o2 : Nat}
    {b3 : List Nat} {o3 : Nat} (h1 : MovesOK b o b2 o2)
    (h2 : MovesOK b2 o2 b3 o3) : MovesOK b o b3 o3 := by
  obtain ⟨l1, m1, e1⟩ := h1
  obtain ⟨l2, m2, e2⟩ := h2
  exact ⟨by omega, by omega, by omega⟩

theorem MovesOK.mabort {b : List Nat} {o : Nat} {b2 : List Nat} {o2 : Nat}
    (h : MovesOK b o b2 o2) : MovesOK b o b2 b2.length := by
  obtain ⟨l1, m1, e1⟩ := h
  exact ⟨by omega, by omega, by omega⟩

theorem user_close_ok (buf2 : List Nat) (off2 : Nat) (nm : Option Nat)
    (recur : List Nat → Nat → Option Nat →
      List Nat × Nat × Option Nat × Bool)
    (hlen : off2 ≤ buf2.length)
    (hrec : ∀ b o n, o ≤ b.length →
      StepOK b o (recur b o n).1 (recur b o n).2.1) :
    StepOK buf2 off2 (user_close buf2 off2 nm recur).1
      (user_close buf2 off2 nm recur).2.1 := by
  simp only [user_close]
  split
  all_goals next hlc =>
    obtain ⟨hcok, hcagain, hcfail, hcrest⟩ := loop_close_spec hlen hlc
    first
    | exact hcok
    | exact hcok.trans (hrec _ _ _ (by
        obtain ⟨l1, m1, e1, f1⟩ := hcok; omega))

theorem user_loop_ok : ∀ (fuel : Nat) (buf : List Nat) (off : Nat)
    (name : Option Nat), off ≤ buf.length →
    StepOK buf off (user_loop buf off name fuel).1
      (user_loop buf off name fuel).2.1 := by
  intro fuel
  induction fuel with
  | zero =>
    intro buf off name h
    simpa only [user_loop] using (StepOK.refl buf off h).abort
  | succ n ih =>
    intro buf off name h
    simp only [user_loop]
    rcases hpk : parse_key buf off with ⟨sym, buf1, off1⟩
    have hk := parse_key_ok' hpk h
    have hk2 : off1 ≤ buf1.length := by
      obtain ⟨l1, m1, e1, f1⟩ := hk; omega
    rcases sym
    all_goals dsimp only
    all_goals
      first
      | (rcases hps : parse_string buf1 off1 with ⟨nm, buf2, off2⟩
         dsimp only
         have hst := hk.trans (parse_string_ok' hps hk2)
         have hl2 : off2 ≤ buf2.length := by
           obtain ⟨l1, m1, e1, f1⟩ := hst; omega
         exact hst.trans (user_close_ok buf2 off2 nm
           (fun b o nn => user_loop b o nn n) hl2
           (fun b o nn hl => ih b o nn hl)))
      | (rcases hsv : skip_value buf1 off1 with ⟨buf2, off2⟩
         dsimp only
         have hst := hk.trans (skip_value_ok' hsv hk2)
         have hl2 : off2 ≤ buf2.length := by
           obtain ⟨l1, m1, e1, f1⟩ := hst; omega
         exact hst.trans (user_close_ok buf2 off2 name
           (fun b o nn => user_loop b o nn n) hl2
           (fun b o nn hl => ih b o nn hl)))

theorem terminate_number_len (buf : List Nat) (s : Option Nat) :
    (terminate_number buf s).1.length = buf.length := by
  rcases s with _ | r
  · rfl
  · simp [terminate_number]

theorem player_close_ok (buf2 : List Nat) (off2 : Nat) (idx2 : Int)
    (rating2 name2 : Option Nat) (p : Player × Player)
    (recur : List Nat → Nat → Int → Option Nat → Option Nat →
      (Player × Player) → PLoopRes)
    (hlen : off2 ≤ buf2.length)
    (hrec : ∀ b o i r nm q, o ≤ b.length →
      MovesOK b o (recur b o i r nm q).buf (recur b o i r nm q).off) :
    MovesOK buf2 off2
      (player_close buf2 off2 idx2 rating2 name2 p recur).buf
      (player_close buf2 off2 idx2 rating2 name2 p recur).off := by
  simp only [player_close]
  rcases hlc : loop_close buf2 off2 with ⟨buf3, off3, s⟩
  obtain ⟨hcok, hcagain, hcfail, hcrest⟩ := loop_close_spec hlen hlc
  rcases s
  · -- done
    dsimp only
    split
    · exact hcok.moves.mabort
    · rcases htn : terminate_number buf3 rating2 with ⟨buf4, rating3⟩
      dsimp only
      have hl4 : buf4.length = buf3.length := by
        have := terminate_number_len buf3 rating2
        rw [htn] at this
        exact this
      obtain ⟨l1, m1, e1, f1⟩ := hcok
      exact ⟨by omega, by omega, by omega⟩
  · -- again
    dsimp only
    exact hcok.moves.mtrans (hrec _ _ _ _ _ _
      (by obtain ⟨l1, m1, e1, f1⟩ := hcok; omega))
  · -- fail
    dsimp only
    exact hcok.moves

theorem parse_player_loop_ok : ∀ (fuel : Nat) (buf : List Nat) (off : Nat)
    (idx : Int) (rating name : Option Nat) (p : Player × Player),
    off ≤ buf.length →
    MovesOK buf off (parse_player_loop buf off idx rating name p fuel).buf
      (parse_player_loop buf off idx rating name p fuel).off := by
  intro fuel
  induction fuel with
  | zero =>
    intro buf off idx rating name p h
    simp only [parse_player_loop]
    exact ⟨rfl, h, Nat.le_refl _⟩
  | succ n ih =>
    intro buf off idx rating name p h
    rw [parse_player_loop]
    rcases hpk : parse_key buf off with ⟨sym, buf1, off1⟩
    have hk := (parse_key_ok' hpk h).moves
    have hk2 : off1 ≤ buf1.length := by
      obtain ⟨l1, m1, e1⟩ := hk; omega
    have hrec : ∀ b o i r nm q, o ≤ b.length →
        MovesOK b o (parse_player_loop b o i r nm q n).buf
          (parse_player_loop b o i r nm q n).off :=
      fun b o i r nm q hl => ih b o i r nm q hl
    rcases sym
    all_goals dsimp only
    case SYM_color =>
      rcases hpe : parse_enum buf1 off1 with ⟨sv, buf2, off2⟩
      dsimp only
      have hst := hk.mtrans (parse_enum_ok' hpe hk2).moves
      have hl2 : off2 ≤ buf2.length := by
        obtain ⟨l1, m1, e1⟩ := hst; omega
      exact hst.mtrans (player_close_ok _ _ _ _ _ _ _ hl2 hrec)
    case SYM_user =>
      rcases hjn : json_next buf1 off1 with ⟨t, buf2, off2⟩
      dsimp only
      have hst := hk.mtrans (json_next_ok' hjn hk2).moves
      have hl2 : off2 ≤ buf2.length := by
        obtain ⟨l1, m1, e1⟩ := hst; omega
      split
      · rcases hul : user_loop buf2 off2 name (buf2.length + 1)
          with ⟨buf3, off3, name3, ok⟩
        have hu := user_loop_ok (buf2.length + 1) buf2 off2 name hl2
        rw [hul] at hu
        dsimp only at hu
        have hst3 := hst.mtrans hu.moves
        have hl3 : off3 ≤ buf3.length := by
          obtain ⟨l1, m1, e1⟩ := hst3; omega
        dsimp only
        split
        · exact hst3.mtrans (player_close_ok _ _ _ _ _ _ _ hl3 hrec)
        · exact hst3.mabort
      · exact hst.mabort
    case SYM_rating =>
      rcases hpn : parse_number buf1 off1 with ⟨rv, buf2, off2⟩
      dsimp only
      have hst := hk.mtrans (parse_number_ok' hpn hk2).moves
      have hl2 : off2 ≤ buf2.length := by
        obtain ⟨l1, m1, e1⟩ := hst; omega
      exact hst.mtrans (player_close_ok _ _ _ _ _ _ _ hl2 hrec)
    all_goals
      rcases hsv : skip_value buf1 off1 with ⟨buf2, off2⟩
    all_goals dsimp only
    all_goals
      have hst := hk.mtrans (skip_value_ok' hsv hk2).moves
    all_goals
      have hl2 : off2 ≤ buf2.length := by
        obtain ⟨l1, m1, e1⟩ := hst; omega
    all_goals exact hst.mtrans (player_close_ok _ _ _ _ _ _ _ hl2 hrec)

theorem parse_player_ok (buf : List Nat) (off : Nat) (p : Player × Player)
    (h : off ≤ buf.length) :
    MovesOK buf off (parse_player buf off p).1
      (parse_player buf off p).2.1 := by
  rw [parse_player]
  rcases hjn : json_next buf off with ⟨t, buf1, off1⟩
  have hj := (json_next_ok' hjn h).moves
  have hl1 : off1 ≤ buf1.length := by
    obtain ⟨l1, m1, e1⟩ := hj; omega
  dsimp only
  split
  · rcases hpl : parse_player_loop buf1 off1 (-1) none none p
      (buf1.length + 1) with ⟨buf2, off2, p2, i2, cm2, g2⟩
    have hp := parse_player_loop_ok (buf1.length + 1) buf1 off1 (-1)
      none none p hl1
    rw [hpl] at hp
    dsimp only at hp
    dsimp only
    exact hj.mtrans hp
  · exact hj.mabort

theorem data_close_ok (buf2 : List Nat) (off2 : Nat) (c : Chunk)
    (recur : List Nat → Nat → Chunk → List Nat × Nat × Chunk)
    (hlen : off2 ≤ buf2.length)
    (hrec : ∀ b o cc, o ≤ b.length →
      MovesOK b o (recur b o cc).1 (recur b o cc).2.1) :
    MovesOK buf2 off2 (data_close buf2 off2 c recur).1
      (data_close buf2 off2 c recur).2.1 := by
  simp only [data_close]
  rcases hlc : loop_close buf2 off2 with ⟨buf3, off3, s⟩
  obtain ⟨hcok, hcagain, hcfail, hcrest⟩ := loop_close_spec hlen hlc
  have hl3 : off3 ≤ buf3.length := by
    obtain ⟨l1, m1, e1⟩ := hcok.moves; omega
  rcases s
  all_goals dsimp only
  · exact hcok.moves
  · exact hcok.moves.mtrans (hrec _ _ _ hl3)
  · exact hcok.moves

theorem data_players_ok (buf1 : List Nat) (off1 : Nat) (c : Chunk)
    (recur : List Nat → Nat → Chunk → List Nat × Nat × Chunk)
    (h : off1 ≤ buf1.length)
    (hrec : ∀ b o cc, o ≤ b.length →
      MovesOK b o (recur b o cc).1 (recur b o cc).2.1) :
    MovesOK buf1 off1 (data_players buf1 off1 c recur).1
      (data_players buf1 off1 c recur).2.1 := by
  rw [data_players]
  rcases hjn : json_next buf1 off1 with ⟨t, buf2, off2⟩
  have hst := (json_next_ok' hjn h).moves
  have hl2 : off2 ≤ buf2.length := by
    obtain ⟨l1, m1, e1⟩ := hst; omega
  dsimp only
  split
  · rcases hpp : parse_player buf2 off2 c.players with ⟨buf3, off3, ps1⟩
    have hp1 := parse_player_ok buf2 off2 c.players hl2
    rw [hpp] at hp1
    dsimp only at hp1
    have hst3 := hst.mtrans hp1
    have hl3 : off3 ≤ buf3.length := by
      obtain ⟨l1, m1, e1⟩ := hst3; omega
    dsimp only
    rcases hjn4 : json_next buf3 off3 with ⟨t4, buf4, off4⟩
    have hst4 := hst3.mtrans (json_next_ok' hjn4 hl3).moves
    have hl4 : off4 ≤ buf4.length := by
      obtain ⟨l1, m1, e1⟩ := hst4; omega
    dsimp only
    split
    · rcases hpp2 : parse_player buf4 off4 ps1 with ⟨buf5, off5, ps2⟩
      have hp2 := parse_player_ok buf4 off4 ps1 hl4
      rw [hpp2] at hp2
      dsimp only at hp2
      have hst5 := hst4.mtrans hp2
      have hl5 : off5 ≤ buf5.length := by
        obtain ⟨l1, m1, e1⟩ := hst5; omega
      dsimp only
      rcases hjn6 : json_next buf5 off5 with ⟨t6, buf6, off6⟩
      have hst6 := hst5.mtrans (json_next_ok' hjn6 hl5).moves
      have hl6 : off6 ≤ buf6.length := by
        obtain ⟨l1, m1, e1⟩ := hst6; omega
      dsimp only
      split
      · exact hst6.mtrans (data_close_ok _ _ _ _ hl6 hrec)
      · exact hst6.mabort
    · exact hst4.mabort
  · exact hst.mabort

theorem parse_data_loop_ok : ∀ (fuel : Nat) (buf : List Nat) (off : Nat)
    (c : Chunk), off ≤ buf.length →
    MovesOK buf off (parse_data_loop buf off c fuel).1
      (parse_data_loop buf off c fuel).2.1 := by
  intro fuel
  induction fuel with
  | zero =>
    intro buf off c h
    simp only [parse_data_loop]
    exact ⟨rfl, h, Nat.le_refl _⟩
  | succ n ih =>
    intro buf off c h
    rw [parse_data_loop]
    rcases hpk : parse_key buf off with ⟨sym, buf1, off1⟩
    have hk := (parse_key_ok' hpk h).moves
    have hk2 : off1 ≤ buf1.length := by
      obtain ⟨l1, m1, e1⟩ := hk; omega
    have hrec : ∀ b o cc, o ≤ b.length →
        MovesOK b o (parse_data_loop b o cc n).1
          (parse_data_loop b o cc n).2.1 :=
      fun b o cc hl => ih b o cc hl
    rcases sym
    all_goals dsimp only
    case SYM_fen =>
      rcases hps : parse_string buf1 off1 with ⟨sv, buf2, off2⟩
      dsimp only
      have hst := hk.mtrans (parse_string_ok' hps hk2).moves
      have hl2 : off2 ≤ buf2.length := by
        obtain ⟨l1, m1, e1⟩ := hst; omega
      exact hst.mtrans (data_close_ok _ _ _ _ hl2 hrec)
    case SYM_players =>
      exact hk.mtrans (data_players_ok _ _ _ _ hk2 hrec)
    all_goals
      rcases hsv : skip_value buf1 off1 with ⟨buf2, off2⟩
    all_goals dsimp only
    all_goals
      have hst := hk.mtrans (skip_value_ok' hsv hk2).moves
    all_goals
      have hl2 : off2 ≤ buf2.length := by
        obtain ⟨l1, m1, e1⟩ := hst; omega
    all_goals exact hst.mtrans (data_close_ok _ _ _ _ hl2 hrec)

theorem parse_data_ok (buf : List Nat) (off : Nat) (c : Chunk)
    (h : off ≤ buf.length) :
    MovesOK buf off (parse_data buf off c).1 (parse_data buf off c).2.1 := by
  rw [parse_data]
  rcases hjn : json_next buf off with ⟨t, buf1, off1⟩
  have hj := (json_next_ok' hjn h).moves
  have hl1 : off1 ≤ buf1.length := by
    obtain ⟨l1, m1, e1⟩ := hj; omega
  dsimp only
  split
  · exact hj.mtrans (parse_data_loop_ok (buf1.length + 1) buf1 off1 c hl1)
  · exact hj.mabort

/-! ## Behaviour at the end-of-buffer sentinel -/

theorem json_next_at_len (buf : List Nat) (off : Nat)
    (h : buf.length ≤ off) :
    json_next buf off = (⟨buf.length, 0, .ERROR⟩, buf, off) := by
  have hw := skip_whitespace_at_end buf off h
  rcases json_next_cases buf off _ _ rfl rfl with
    ⟨hA, hE⟩ | ⟨hA, hB, hE⟩ | ⟨hA, hB, hE⟩ | ⟨hA, hB, hE⟩ | ⟨hA, hB, hE⟩ |
    ⟨hA, hB, hC, hE⟩ | ⟨hA, hB, hC, hE⟩ | ⟨hA, hB, hE⟩ | ⟨hA, hB, hE⟩ |
    ⟨hA, hB, hE⟩ | ⟨hA, hB, hC, hE⟩ | ⟨hA, hB, hE⟩ | ⟨hA, hB, hC, hE⟩ |
    ⟨hA, hB, hE⟩ | ⟨hA, hB1, hB2, hB3, hB4, hB5, hB6, hB7, hB8, hB9, hB10, hE⟩
  all_goals first
    | (rw [hw] at hA
       exact absurd hA (by omega))
    | (rw [hw] at hE
       exact hE)

theorem parse_key_at_len (buf : List Nat) (off : Nat)
    (h : buf.length ≤ off) :
    parse_key buf off = (.SYM_UNKNOWN, buf, buf.length) := by
  simp [parse_key, json_next_at_len buf off h]

theorem skip_value_at_len (buf : List Nat) (off : Nat)
    (h : buf.length ≤ off) :
    skip_value buf off = (buf, buf.length) := by
  simp [skip_value, json_next_at_len buf off h]

theorem loop_close_at_len (buf : List Nat) (off : Nat)
    (h : buf.length ≤ off) :
    loop_close buf off = (buf, buf.length, .fail) := by
  simp [loop_close, json_next_at_len buf off h]

theorem chunk_parse_loop_at_len (fuel : Nat) (buf : List Nat) (off : Nat)
    (c : Chunk) (h : buf.length ≤ off) :
    chunk_parse_loop buf off c fuel = (0, buf, c) := by
  cases fuel with
  | zero => rfl
  | succ n =>
    rw [chunk_parse_loop, parse_key_at_len buf off h]
    dsimp only
    rw [skip_value_at_len buf buf.length (Nat.le_refl _)]
    dsimp only
    rw [chunk_close, loop_close_at_len buf buf.length (Nat.le_refl _)]

theorem parse_data_loop_at_len (fuel : Nat) (buf : List Nat) (off : Nat)
    (c : Chunk) (h : buf.length ≤ off) :
    parse_data_loop buf off c fuel = (buf, buf.length, c) := by
  cases fuel with
  | zero => rfl
  | succ n =>
    rw [parse_data_loop, parse_key_at_len buf off h]
    dsimp only
    rw [skip_value_at_len buf buf.length (Nat.le_refl _)]
    dsimp only
    rw [data_close, loop_close_at_len buf buf.length (Nat.le_refl _)]

/-- The unterminated-string outcome of the tokenizer: an opening quote
with no closing quote before the end of the buffer produces an error
token, forces the cursor to the end of the buffer, and writes nothing. -/
theorem json_next_string_unterminated (buf : List Nat) (off : Nat)
    (hlt : skip_whitespace buf off < buf.length)
    (hq : buf[skip_whitespace buf off]! = 34)
    (hsu : skip_until buf (skip_whitespace buf off + 1) 34 = buf.length) :
    json_next buf off =
      (⟨skip_whitespace buf off + 1,
        buf.length - (skip_whitespace buf off + 1), .ERROR⟩,
       buf, buf.length) := by
  rcases json_next_cases buf off _ _ rfl rfl with
    ⟨hA, hE⟩ | ⟨hA, hB, hE⟩ | ⟨hA, hB, hE⟩ | ⟨hA, hB, hE⟩ | ⟨hA, hB, hE⟩ |
    ⟨hA, hB, hC, hE⟩ | ⟨hA, hB, hC, hE⟩ | ⟨hA, hB, hE⟩ | ⟨hA, hB, hE⟩ |
    ⟨hA, hB, hE⟩ | ⟨hA, hB, hC, hE⟩ | ⟨hA, hB, hE⟩ | ⟨hA, hB, hC, hE⟩ |
    ⟨hA, hB, hE⟩ | ⟨hA, hB1, hB2, hB3, hB4, hB5, hB6, hB7, hB8, hB9, hB10, hE⟩
  all_goals first
    | exact hE
    | omega
    | (rw [hq] at hB; simp [isDigit] at hB)

/-! ## The symbol recognizer: completeness and exactness -/

theorem hashIdx_lt (tok : List Nat) : hashIdx tok < 16 := by
  simp only [hashIdx]
  omega

/-- Claim C2: every one of the eleven known names is recognized as its
own symbol, and every other byte span — in particular any flipped,
truncated or extended variant of a known name — is rejected: a span
accepted as a symbol is byte-for-byte one of the eleven stored names. -/
theorem C2 :
    (∀ i : Fin 11, symOfIdx (i : Nat) ≠ .SYM_UNKNOWN ∧
      parse_symbol (lutName (i : Nat)) = symOfIdx (i : Nat)) ∧
    (∀ tok : List Nat, parse_symbol tok ≠ .SYM_UNKNOWN →
      ∃ i : Fin 11, tok = lutName (i : Nat) ∧
        parse_symbol tok = symOfIdx (i : Nat)) := by
  constructor
  · decide
  · intro tok h
    by_cases hc : (lut.getD (hashIdx tok) (0, 0)).2 = tok.length ∧
        (symtab.drop (lut.getD (hashIdx tok) (0, 0)).1).take
          (lut.getD (hashIdx tok) (0, 0)).2 = tok
    · have he : parse_symbol tok = symOfIdx (hashIdx tok) := by
        simp only [parse_symbol]
        rw [if_pos hc]
      obtain ⟨k, hk16, hke⟩ : ∃ k, k < 16 ∧ hashIdx tok = k :=
        ⟨hashIdx tok, hashIdx_lt tok, rfl⟩
      rw [hke] at he hc
      interval_cases k
      all_goals first
        | exact absurd (he.trans rfl) h
        | exact ⟨⟨_, by omega⟩, hc.2.symm, he⟩
    · have he : parse_symbol tok = .SYM_UNKNOWN := by
        simp only [parse_symbol]
        rw [if_neg hc]
      exact absurd he h

theorem C2_witness :
    parse_symbol (lutName 7) = symOfIdx 7 ∧
    ∃ i : Fin 11, strBytes "fen" = lutName (i : Nat) ∧
      parse_symbol (strBytes "fen") = symOfIdx (i : Nat) :=
  ⟨(C2.1 ⟨7, by decide⟩).2, C2.2 (strBytes "fen") (by decide)⟩

/-- Claim C7: a successfully read string token null-terminates in place —
after the call the byte at `t.off + t.len` (the former closing quote) is
null, every other byte is untouched, and the buffer keeps its length;
when an opening quote has no closing quote before the end of the buffer,
the token is an error, the cursor is forced to the end of the buffer,
and no byte at all is written. -/
theorem C7 (buf : List Nat) (off : Nat) (t : Token) (buf1 : List Nat)
    (off1 : Nat) (h : json_next buf off = (t, buf1, off1)) :
    (t.type = .STRING →
      buf1.length = buf.length ∧
      t.off + t.len < buf.length ∧
      buf1[t.off + t.len]! = 0 ∧
      ∀ j, j ≠ t.off + t.len → buf1[j]! = buf[j]!) ∧
    (skip_whitespace buf off < buf.length →
      buf[skip_whitespace buf off]! = 34 →
      skip_until buf (skip_whitespace buf off + 1) 34 = buf.length →
      t.type = .ERROR ∧ off1 = buf.length ∧ buf1 = buf) := by
  constructor
  · intro hs
    have hs' : (json_next buf off).1.type = JType.STRING := by rw [h]; exact hs
    obtain ⟨hoff, hlen, hbuf, hcur, hge, hlt⟩ := json_next_string buf off hs'
    rw [h] at hoff hlen hbuf hcur
    dsimp only at hoff hlen hbuf hcur
    have hsum : t.off + t.len = skip_until buf (skip_whitespace buf off + 1) 34 := by
      omega
    refine ⟨by rw [hbuf]; simp [List.length_set], by omega, ?_, ?_⟩
    · rw [hbuf, hsum]
      rw [getElem!_pos _ _ (by simpa using hlt)]
      exact List.getElem_set_self _
    · intro j hj
      rw [hbuf]
      exact getbang_set_ne buf _ j 0 (by omega)
  · intro hlt hq hsu
    have he := json_next_string_unterminated buf off hlt hq hsu
    rw [h] at he
    simp only [Prod.mk.injEq] at he
    obtain ⟨rfl, rfl, rfl⟩ := he
    exact ⟨rfl, rfl, rfl⟩

theorem C7_witness :
    (([34, 97, 34, 32] : List Nat).set 2 0).length = 4 ∧
    ([34, 97, 0, 32] : List Nat)[2]! = 0 ∧
    (([34, 97, 52] : List Nat) = [34, 97, 52]) := by
  have h1 := (C7 [34, 97, 34, 32] 0 ⟨1, 1, .STRING⟩ ([34, 97, 34, 32].set 2 0)
    3 (by decide)).1 rfl
  have h2 := (C7 [34, 97, 52] 0 ⟨1, 2, .ERROR⟩ [34, 97, 52] 3 (by decide)).2
    (by decide) (by decide) (by decide)
  exact ⟨h1.1, by decide, h2.2.2⟩

/-! ## Return-value dichotomy of chunk_parse -/

theorem chunk_close_ret (buf : List Nat) (off : Nat) (c : Chunk)
    (recur : List Nat → Nat → Chunk → Nat × List Nat × Chunk)
    (hrec : ∀ b o cc, (recur b o cc).1 = 0 ∨ (recur b o cc).1 = 1) :
    (chunk_close buf off c recur).1 = 0 ∨
    (chunk_close buf off c recur).1 = 1 := by
  rw [chunk_close]
  rcases hlc : loop_close buf off with ⟨buf3, off3, s⟩
  rcases s
  · exact Or.inr rfl
  · exact hrec buf3 off3 c
  · exact Or.inl rfl

theorem chunk_parse_loop_ret : ∀ (fuel : Nat) (buf : List Nat) (off : Nat)
    (c : Chunk), (chunk_parse_loop buf off c fuel).1 = 0 ∨
      (chunk_parse_loop buf off c fuel).1 = 1 := by
  intro fuel
  induction fuel with
  | zero => intro buf off c; exact Or.inl rfl
  | succ n ih =>
    intro buf off c
    rw [chunk_parse_loop]
    rcases hpk : parse_key buf off with ⟨sym, buf1, off1⟩
    have hrec : ∀ b o cc, (chunk_parse_loop b o cc n).1 = 0 ∨
        (chunk_parse_loop b o cc n).1 = 1 := fun b o cc => ih b o cc
    rcases sym
    all_goals dsimp only
    case SYM_t =>
      rcases hpe : parse_enum buf1 off1 with ⟨sv, buf2, off2⟩
      dsimp only
      rcases sv
      all_goals dsimp only
      all_goals first
        | exact chunk_close_ret _ _ _ _ hrec
        | exact Or.inl rfl
    case SYM_d =>
      rcases hpd : parse_data buf1 off1 c with ⟨buf2, off2, c1⟩
      dsimp only
      exact chunk_close_ret _ _ _ _ hrec
    all_goals
      rcases hsv : skip_value buf1 off1 with ⟨buf2, off2⟩
    all_goals dsimp only
    all_goals exact chunk_close_ret _ _ _ _ hrec

/-! ## The claims about concrete scenario inputs -/

set_option maxRecDepth 100000 in
/-- Claim C1 (Scenario A): the full featured-game chunk parses with
success, the record kind is CHUNK_FEATURED, and the fen, both player
names and both player ratings are the expected null-terminated views
into the mutated buffer. -/
theorem C1 :
    (chunk_parse inputA cNone).1 = 1 ∧
    (chunk_parse inputA cNone).2.2.type = .CHUNK_FEATURED ∧
    ((chunk_parse inputA cNone).2.2.fen).map
      (cstr (chunk_parse inputA cNone).2.1) = some (strBytes "rnbqkbnr/...") ∧
    ((chunk_parse inputA cNone).2.2.players.1.name).map
      (cstr (chunk_parse inputA cNone).2.1) = some (strBytes "Alice") ∧
    ((chunk_parse inputA cNone).2.2.players.1.rating).map
      (cstr (chunk_parse inputA cNone).2.1) = some (strBytes "2500") ∧
    ((chunk_parse inputA cNone).2.2.players.2.name).map
      (cstr (chunk_parse inputA cNone).2.1) = some (strBytes "Bob") ∧
    ((chunk_parse inputA cNone).2.2.players.2.rating).map
      (cstr (chunk_parse inputA cNone).2.1) = some (strBytes "2400") := by
  decide

set_option maxRecDepth 100000 in
/-- Claim C5 (Scenario B): the fen-update chunk parses with success,
the record kind is CHUNK_FEN, the fen is set to the expected string,
and — the players key being absent — every player field is left exactly
as the caller had it (unset). -/
theorem C5 :
    (chunk_parse inputB cNone).1 = 1 ∧
    (chunk_parse inputB cNone).2.2.type = .CHUNK_FEN ∧
    ((chunk_parse inputB cNone).2.2.fen).map
      (cstr (chunk_parse inputB cNone).2.1) =
        some (strBytes "8/8/8/8/8/8/8/8") ∧
    (chunk_parse inputB cNone).2.2.players.1.name = none ∧
    (chunk_parse inputB cNone).2.2.players.1.rating = none ∧
    (chunk_parse inputB cNone).2.2.players.2.name = none ∧
    (chunk_parse inputB cNone).2.2.players.2.rating = none := by
  decide

/-- Claim C6, corrected: the return value of chunk_parse is the only
success signal (it is always 0 or 1), but failure is NOT all-or-nothing:
there are inputs on which chunk_parse fails a structural check partway
through (returns 0) while having already committed a valid kind into the
caller's record. -/
theorem C6 :
    (∀ buf c, (chunk_parse buf c).1 = 0 ∨ (chunk_parse buf c).1 = 1) ∧
    (∃ buf c, (chunk_parse buf c).1 = 0 ∧ c.type = .CHUNK_UNKNOWN ∧
      (chunk_parse buf c).2.2.type = .CHUNK_FEN) := by
  constructor
  · intro buf c
    rw [chunk_parse]
    rcases hjn : json_next buf 0 with ⟨t, buf1, off1⟩
    dsimp only
    split
    · exact chunk_parse_loop_ret _ _ _ _
    · exact Or.inl rfl
  · exact ⟨inputT, cNone, by decide, rfl, by decide⟩

/-- Counterexample to claim C6 as stated: on the truncated input
`{"t":"fen"` chunk_parse fails (returns 0) yet writes the valid kind
CHUNK_FEN into the record of a caller that passed CHUNK_UNKNOWN. -/
theorem C6_counterexample :
    (chunk_parse inputT cNone).1 = 0 ∧
    (chunk_parse inputT cNone).2.2.type = .CHUNK_FEN ∧
    cNone.type = .CHUNK_UNKNOWN := by
  decide

/-- Claim C3: unrecognized values at schema-load-bearing enum positions
are fatal.  (1) A top-level `t` key whose value is anything but exactly
"featured" or "fen" makes the chunk_parse key loop return 0 at once.
(2) A player object reaching its object-close with the color index still
unresolved takes the abort exit: the cursor is forced to the
end-of-buffer sentinel and nothing is committed.  (3) The sentinel is
fatal to the whole parse: at the sentinel the parse_data key loop
returns it unchanged and the chunk_parse key loop returns 0. -/
theorem C3 :
    (∀ buf off c fuel buf1 off1 sv buf2 off2,
      parse_key buf off = (.SYM_t, buf1, off1) →
      parse_enum buf1 off1 = (sv, buf2, off2) →
      sv ≠ .SYM_featured → sv ≠ .SYM_fen →
      chunk_parse_loop buf off c (fuel + 1) = (0, buf2, c)) ∧
    (∀ buf off rating name p recur buf3 off3,
      loop_close buf off = (buf3, off3, .done) →
      player_close buf off (-1) rating name p recur =
        ⟨buf3, buf3.length, p, -1, false, rating⟩) ∧
    (∀ fuel buf off c, buf.length ≤ off →
      parse_data_loop buf off c fuel = (buf, buf.length, c) ∧
      chunk_parse_loop buf off c fuel = (0, buf, c)) := by
  refine ⟨?_, ?_, ?_⟩
  · intro buf off c fuel buf1 off1 sv buf2 off2 hpk hpe h1 h2
    rw [chunk_parse_loop, hpk]
    dsimp only
    rw [hpe]
    dsimp only
    rcases sv
    all_goals dsimp only
    all_goals first
      | exact absurd rfl h1
      | exact absurd rfl h2
  · intro buf off rating name p recur buf3 off3 hlc
    rw [player_close, hlc]
    dsimp only
    rw [if_pos rfl]
  · intro fuel buf off c h
    exact ⟨parse_data_loop_at_len fuel buf off c h,
      chunk_parse_loop_at_len fuel buf off c h⟩

theorem C3_witness :
    chunk_parse_loop (strBytes "\"t\":\"bogus\"\x7d") 0 cNone 1 =
      (0, [34, 116, 0, 58, 34, 98, 111, 103, 117, 115, 0, 125], cNone) ∧
    player_close [125] 0 (-1) none none (⟨none, none⟩, ⟨none, none⟩)
      (fun b o i r _ q => ⟨b, o, q, i, false, r⟩) =
      ⟨[125], 1, (⟨none, none⟩, ⟨none, none⟩), -1, false, none⟩ ∧
    parse_data_loop [59] 3 cNone 2 = ([59], 1, cNone) ∧
    chunk_parse_loop [59] 3 cNone 2 = (0, [59], cNone) := by
  have h1 := C3.1 (strBytes "\"t\":\"bogus\"\x7d") 0 cNone 0
    [34, 116, 0, 58, 34, 98, 111, 103, 117, 115, 34, 125] 4 .SYM_UNKNOWN
    [34, 116, 0, 58, 34, 98, 111, 103, 117, 115, 0, 125] 11
    (by decide) (by decide) (by decide) (by decide)
  have h2 := C3.2.1 [125] 0 none none (⟨none, none⟩, ⟨none, none⟩)
    (fun b o i r _ q => ⟨b, o, q, i, false, r⟩) [125] 1 (by decide)
  have h3 := C3.2.2 2 [59] 3 cNone (by decide)
  exact ⟨h1, h2, h3.1, h3.2⟩

set_option maxRecDepth 100000 in
/-- Claim C4: at a non-load-bearing unknown key, skip_value consumes a
scalar value (string, number, true, false) and the parse continues, but
returns the end-of-buffer sentinel when the value starts with
object-open, array-open or an error token.  (1) The skip_value contract.
(2) Scenario F: a record with extra unknown scalar keys at every nesting
level parses successfully, ignoring them.  (3) At the top level, an
unknown key whose value is compound (or an error) makes the chunk_parse
key loop return 0: the whole record parse aborts. -/
theorem C4 :
    (∀ buf off t buf1 off1, json_next buf off = (t, buf1, off1) →
      ((t.type = .STRING ∨ t.type = .NUMBER ∨
        t.type = .TRUE ∨ t.type = .FALSE) →
        skip_value buf off = (buf1, off1)) ∧
      ((t.type = .OBEG ∨ t.type = .ABEG ∨ t.type = .ERROR) →
        skip_value buf off = (buf1, buf1.length))) ∧
    ((chunk_parse inputF cNone).1 = 1 ∧
      (chunk_parse inputF cNone).2.2.type = .CHUNK_FEN ∧
      ((chunk_parse inputF cNone).2.2.fen).map
        (cstr (chunk_parse inputF cNone).2.1) =
          some (strBytes "8/8/8/8/8/8/8/8")) ∧
    (∀ buf off c fuel sym buf1 off1 t buf2 off2,
      parse_key buf off = (sym, buf1, off1) →
      sym ≠ .SYM_t → sym ≠ .SYM_d →
      json_next buf1 off1 = (t, buf2, off2) →
      (t.type = .OBEG ∨ t.type = .ABEG ∨ t.type = .ERROR) →
      chunk_parse_loop buf off c (fuel + 1) = (0, buf2, c)) := by
  refine ⟨?_, by decide, ?_⟩
  · intro buf off t buf1 off1 hjn
    rcases skip_value_spec buf off with ⟨hty, hsv⟩ | ⟨hty, hsv⟩
    all_goals rw [hjn] at hty hsv
    all_goals dsimp only at hty hsv
    · constructor
      · intro _; exact hsv
      · intro hbad
        rcases hty with h | h | h | h
        all_goals rw [h] at hbad
        all_goals rcases hbad with hb | hb | hb
        all_goals cases hb
    · constructor
      · intro hgood
        exfalso
        apply hty
        rcases hgood with h | h | h | h
        · exact Or.inr (Or.inr (Or.inl h))
        · exact Or.inr (Or.inr (Or.inr h))
        · exact Or.inr (Or.inl h)
        · exact Or.inl h
      · intro _; exact hsv
  · intro buf off c fuel sym buf1 off1 t buf2 off2 hpk h1 h2 hjn hbad
    have hsv : skip_value buf1 off1 = (buf2, buf2.length) := by
      rcases skip_value_spec buf1 off1 with ⟨hty, hsv⟩ | ⟨hty, hsv⟩
      all_goals rw [hjn] at hty hsv
      all_goals dsimp only at hty hsv
      · exfalso
        rcases hty with h | h | h | h
        all_goals rw [h] at hbad
        all_goals rcases hbad with hb | hb | hb
        all_goals cases hb
      · exact hsv
    rw [chunk_parse_loop, hpk]
    dsimp only
    rcases sym
    all_goals first
      | exact absurd rfl h1
      | exact absurd rfl h2
      | (dsimp only
         rw [hsv]
         dsimp only
         rw [chunk_close, loop_close_at_len buf2 buf2.length (Nat.le_refl _)])

theorem C4_witness :
    skip_value [49] 0 = ([49], 1) ∧
    skip_value [123, 125] 0 = ([123, 125], 2) ∧
    chunk_parse_loop (strBytes "\"x\":\x7b") 0 cNone 1 =
      (0, [34, 120, 0, 58, 123], cNone) := by
  have h1 := (C4.1 [49] 0 ⟨0, 1, .NUMBER⟩ [49] 1 (by decide)).1
    (Or.inr (Or.inl rfl))
  have h2 := (C4.1 [123, 125] 0 ⟨0, 1, .OBEG⟩ [123, 125] 1 (by decide)).2
    (Or.inl rfl)
  have h3 := C4.2.2 (strBytes "\"x\":\x7b") 0 cNone 0 .SYM_UNKNOWN
    [34, 120, 0, 58, 123] 4 ⟨4, 1, .OBEG⟩ [34, 120, 0, 58, 123] 5
    (by decide) (by decide) (by decide) (by decide) (Or.inl rfl)
  exact ⟨h1, h2, h3⟩

/-! ## Fuel insensitivity: every loop makes strict progress -/

theorem user_close_congr (buf2 : List Nat) (off2 : Nat) (nm : Option Nat)
    (r1 r2 : List Nat → Nat → Option Nat → List Nat × Nat × Option Nat × Bool)
    (hlen : off2 ≤ buf2.length)
    (h : ∀ b o n, b.length = buf2.length → off2 < o → o ≤ b.length →
      r1 b o n = r2 b o n) :
    user_close buf2 off2 nm r1 = user_close buf2 off2 nm r2 := by
  simp only [user_close]
  rcases hlc : loop_close buf2 off2 with ⟨buf3, off3, s⟩
  obtain ⟨hok, hagain, hfail, hrest⟩ := loop_close_spec hlen hlc
  rcases s
  · rfl
  · exact h buf3 off3 nm hok.1 (hagain rfl) (by
      obtain ⟨l1, m1, e1, f1⟩ := hok; omega)
  · rfl

theorem user_loop_fuel : ∀ (f g : Nat) (buf : List Nat) (off : Nat)
    (name : Option Nat), off ≤ buf.length →
    buf.length - off < f → buf.length - off < g →
    user_loop buf off name f = user_loop buf off name g := by
  intro f
  induction f with
  | zero =>
    intro g buf off name hlen hf hg
    exact absurd hf (by omega)
  | succ n ih =>
    intro g buf off name hlen hf hg
    cases g with
    | zero => exact absurd hg (by omega)
    | succ m =>
      simp only [user_loop]
      rcases hpk : parse_key buf off with ⟨sym, buf1, off1⟩
      have hk := parse_key_ok' hpk hlen
      have hk2 : off1 ≤ buf1.length := by
        obtain ⟨l1, m1, e1, f1⟩ := hk; omega
      rcases sym
      all_goals dsimp only
      case SYM_name =>
        rcases hps : parse_string buf1 off1 with ⟨nm, buf2, off2⟩
        dsimp only
        have hst := hk.trans (parse_string_ok' hps hk2)
        obtain ⟨l1, m1, e1, f1⟩ := hst
        refine user_close_congr buf2 off2 nm _ _ (by omega) ?_
        intro b o nn hb ho hob
        exact ih m b o nn hob (by omega) (by omega)
      all_goals
        rcases hsv : skip_value buf1 off1 with ⟨buf2, off2⟩
      all_goals dsimp only
      all_goals
        have hst := hk.trans (skip_value_ok' hsv hk2)
      all_goals
        obtain ⟨l1, m1, e1, f1⟩ := hst
      all_goals
        refine user_close_congr buf2 off2 name _ _ (by omega) ?_
      all_goals
        intro b o nn hb ho hob
      all_goals exact ih m b o nn hob (by omega) (by omega)

theorem player_close_congr (buf2 : List Nat) (off2 : Nat) (idx2 : Int)
    (rating2 name2 : Option Nat) (p : Player × Player)
    (r1 r2 : List Nat → Nat → Int → Option Nat → Option Nat →
      (Player × Player) → PLoopRes)
    (hlen : off2 ≤ buf2.length)
    (h : ∀ b o i r nm q, b.length = buf2.length → off2 < o →
      o ≤ b.length → r1 b o i r nm q = r2 b o i r nm q) :
    player_close buf2 off2 idx2 rating2 name2 p r1 =
    player_close buf2 off2 idx2 rating2 name2 p r2 := by
  simp only [player_close]
  rcases hlc : loop_close buf2 off2 with ⟨buf3, off3, s⟩
  obtain ⟨hok, hagain, hfail, hrest⟩ := loop_close_spec hlen hlc
  rcases s
  · rfl
  · exact h buf3 off3 idx2 rating2 name2 p hok.1 (hagain rfl) (by
      obtain ⟨l1, m1, e1, f1⟩ := hok; omega)
  · rfl

theorem parse_player_loop_fuel : ∀ (f g : Nat) (buf : List Nat) (off : Nat)
    (idx : Int) (rating name : Option Nat) (p : Player × Player),
    off ≤ buf.length →
    buf.length - off < f → buf.length - off < g →
    parse_player_loop buf off idx rating name p f =
    parse_player_loop buf off idx rating name p g := by
  intro f
  induction f with
  | zero =>
    intro g buf off idx rating name p hlen hf hg
    exact absurd hf (by omega)
  | succ n ih =>
    intro g buf off idx rating name p hlen hf hg
    cases g with
    | zero => exact absurd hg (by omega)
    | succ m =>
      rw [parse_player_loop, parse_player_loop]
      rcases hpk : parse_key buf off with ⟨sym, buf1, off1⟩
      have hk := parse_key_ok' hpk hlen
      have hk2 : off1 ≤ buf1.length := by
        obtain ⟨l1, m1, e1, f1⟩ := hk; omega
      rcases sym
      all_goals dsimp only
      case SYM_color =>
        rcases hpe : parse_enum buf1 off1 with ⟨sv, buf2, off2⟩
        dsimp only
        have hst := hk.trans (parse_enum_ok' hpe hk2)
        obtain ⟨l1, m1, e1, f1⟩ := hst
        refine player_close_congr buf2 off2 _ rating name p _ _ (by omega) ?_
        intro b o i r nm q hb ho hob
        exact ih m b o i r nm q hob (by omega) (by omega)
      case SYM_user =>
        rcases hjn : json_next buf1 off1 with ⟨t, buf2, off2⟩
        dsimp only
        have hst := hk.trans (json_next_ok' hjn hk2)
        obtain ⟨l1, m1, e1, f1⟩ := hst
        split
        · rcases hul : user_loop buf2 off2 name (buf2.length + 1)
            with ⟨buf3, off3, name3, ok⟩
          have hu := user_loop_ok (buf2.length + 1) buf2 off2 name (by omega)
          rw [hul] at hu
          dsimp only at hu
          obtain ⟨l2, m2, e2, f2⟩ := hu
          dsimp only
          split
          · refine player_close_congr buf3 off3 idx rating name3 p _ _
              (by omega) ?_
            intro b o i r nm q hb ho hob
            exact ih m b o i r nm q hob (by omega) (by omega)
          · rfl
        · rfl
      case SYM_rating =>
        rcases hpn : parse_number buf1 off1 with ⟨rv, buf2, off2⟩
        dsimp only
        have hst := hk.trans (parse_number_ok' hpn hk2)
        obtain ⟨l1, m1, e1, f1⟩ := hst
        refine player_close_congr buf2 off2 idx rv name p _ _ (by omega) ?_
        intro b o i r nm q hb ho hob
        exact ih m b o i r nm q hob (by omega) (by omega)
      all_goals
        rcases hsv : skip_value buf1 off1 with ⟨buf2, off2⟩
      all_goals dsimp only
      all_goals
        have hst := hk.trans (skip_value_ok' hsv hk2)
      all_goals
        obtain ⟨l1, m1, e1, f1⟩ := hst
      all_goals
        refine player_close_congr buf2 off2 idx rating name p _ _
          (by omega) ?_
      all_goals
        intro b o i r nm q hb ho hob
      all_goals exact ih m b o i r nm q hob (by omega) (by omega)

theorem data_close_congr (buf2 : List Nat) (off2 : Nat) (c : Chunk)
    (r1 r2 : List Nat → Nat → Chunk → List Nat × Nat × Chunk)
    (hlen : off2 ≤ buf2.length)
    (h : ∀ b o cc, b.length = buf2.length → off2 < o → o ≤ b.length →
      r1 b o cc = r2 b o cc) :
    data_close buf2 off2 c r1 = data_close buf2 off2 c r2 := by
  simp only [data_close]
  rcases hlc : loop_close buf2 off2 with ⟨buf3, off3, s⟩
  obtain ⟨hok, hagain, hfail, hrest⟩ := loop_close_spec hlen hlc
  rcases s
  · rfl
  · exact h buf3 off3 c hok.1 (hagain rfl) (by
      obtain ⟨l1, m1, e1, f1⟩ := hok; omega)
  · rfl

theorem data_players_congr (buf1 : List Nat) (off1 : Nat) (c : Chunk)
    (r1 r2 : List Nat → Nat → Chunk → List Nat × Nat × Chunk)
    (hlen : off1 ≤ buf1.length)
    (h : ∀ b o cc, b.length = buf1.length → off1 < o → o ≤ b.length →
      r1 b o cc = r2 b o cc) :
    data_players buf1 off1 c r1 = data_players buf1 off1 c r2 := by
  rw [data_players, data_players]
  rcases hjn : json_next buf1 off1 with ⟨t, buf2, off2⟩
  have hst := (json_next_ok' hjn hlen).moves
  have hl2 : off2 ≤ buf2.length := by
    obtain ⟨l1, m1, e1⟩ := hst; omega
  dsimp only
  split
  · rcases hpp : parse_player buf2 off2 c.players with ⟨buf3, off3, ps1⟩
    have hp1 := parse_player_ok buf2 off2 c.players hl2
    rw [hpp] at hp1
    dsimp only at hp1
    have hst3 := hst.mtrans hp1
    have hl3 : off3 ≤ buf3.length := by
      obtain ⟨l1, m1, e1⟩ := hst3; omega
    dsimp only
    rcases hjn4 : json_next buf3 off3 with ⟨t4, buf4, off4⟩
    have hst4 := hst3.mtrans (json_next_ok' hjn4 hl3).moves
    have hl4 : off4 ≤ buf4.length := by
      obtain ⟨l1, m1, e1⟩ := hst4; omega
    dsimp only
    split
    · rcases hpp2 : parse_player buf4 off4 ps1 with ⟨buf5, off5, ps2⟩
      have hp2 := parse_player_ok buf4 off4 ps1 hl4
      rw [hpp2] at hp2
      dsimp only at hp2
      have hst5 := hst4.mtrans hp2
      have hl5 : off5 ≤ buf5.length := by
        obtain ⟨l1, m1, e1⟩ := hst5; omega
      dsimp only
      rcases hjn6 : json_next buf5 off5 with ⟨t6, buf6, off6⟩
      have hst6 := hst5.mtrans (json_next_ok' hjn6 hl5).moves
      have hl6 : off6 ≤ buf6.length := by
        obtain ⟨l1, m1, e1⟩ := hst6; omega
      dsimp only
      split
      · refine data_close_congr buf6 off6 _ _ _ hl6 ?_
        intro b o cc hb ho hob
        obtain ⟨l6, m6, e6⟩ := hst6
        exact h b o cc (by omega) (by omega) hob
      · rfl
    · rfl
  · rfl

theorem parse_data_loop_fuel : ∀ (f g : Nat) (buf : List Nat) (off : Nat)
    (c : Chunk), off ≤ buf.length →
    buf.length - off < f → buf.length - off < g →
    parse_data_loop buf off c f = parse_data_loop buf off c g := by
  intro f
  induction f with
  | zero =>
    intro g buf off c hlen hf hg
    exact absurd hf (by omega)
  | succ n ih =>
    intro g buf off c hlen hf hg
    cases g with
    | zero => exact absurd hg (by omega)
    | succ m =>
      rw [parse_data_loop, parse_data_loop]
      rcases hpk : parse_key buf off with ⟨sym, buf1, off1⟩
      have hk := parse_key_ok' hpk hlen
      have hk2 : off1 ≤ buf1.length := by
        obtain ⟨l1, m1, e1, f1⟩ := hk; omega
      rcases sym
      all_goals dsimp only
      case SYM_fen =>
        rcases hps : parse_string buf1 off1 with ⟨sv, buf2, off2⟩
        dsimp only
        have hst := hk.trans (parse_string_ok' hps hk2)
        obtain ⟨l1, m1, e1, f1⟩ := hst
        refine data_close_congr buf2 off2 _ _ _ (by omega) ?_
        intro b o cc hb ho hob
        exact ih m b o cc hob (by omega) (by omega)
      case SYM_players =>
        have hkm := hk.moves
        obtain ⟨l1, m1, e1⟩ := hkm
        refine data_players_congr buf1 off1 c _ _ (by omega) ?_
        intro b o cc hb ho hob
        exact ih m b o cc hob (by omega) (by omega)
      all_goals
        rcases hsv : skip_value buf1 off1 with ⟨buf2, off2⟩
      all_goals dsimp only
      all_goals
        have hst := hk.trans (skip_value_ok' hsv hk2)
      all_goals
        obtain ⟨l1, m1, e1, f1⟩ := hst
      all_goals
        refine data_close_congr buf2 off2 c _ _ (by omega) ?_
      all_goals
        intro b o cc hb ho hob
      all_goals exact ih m b o cc hob (by omega) (by omega)

theorem chunk_close_congr (buf2 : List Nat) (off2 : Nat) (c : Chunk)
    (r1 r2 : List Nat → Nat → Chunk → Nat × List Nat × Chunk)
    (hlen : off2 ≤ buf2.length)
    (h : ∀ b o cc, b.length = buf2.length → off2 < o → o ≤ b.length →
      r1 b o cc = r2 b o cc) :
    chunk_close buf2 off2 c r1 = chunk_close buf2 off2 c r2 := by
  simp only [chunk_close]
  rcases hlc : loop_close buf2 off2 with ⟨buf3, off3, s⟩
  obtain ⟨hok, hagain, hfail, hrest⟩ := loop_close_spec hlen hlc
  rcases s
  · rfl
  · exact h buf3 off3 c hok.1 (hagain rfl) (by
      obtain ⟨l1, m1, e1, f1⟩ := hok; omega)
  · rfl

theorem chunk_parse_loop_fuel : ∀ (f g : Nat) (buf : List Nat) (off : Nat)
    (c : Chunk), off ≤ buf.length →
    buf.length - off < f → buf.length - off < g →
    chunk_parse_loop buf off c f = chunk_parse_loop buf off c g := by
  intro f
  induction f with
  | zero =>
    intro g buf off c hlen hf hg
    exact absurd hf (by omega)
  | succ n ih =>
    intro g buf off c hlen hf hg
    cases g with
    | zero => exact absurd hg (by omega)
    | succ m =>
      rw [chunk_parse_loop, chunk_parse_loop]
      rcases hpk : parse_key buf off with ⟨sym, buf1, off1⟩
      have hk := parse_key_ok' hpk hlen
      have hk2 : off1 ≤ buf1.length := by
        obtain ⟨l1, m1, e1, f1⟩ := hk; omega
      rcases sym
      all_goals dsimp only
      case SYM_t =>
        rcases hpe : parse_enum buf1 off1 with ⟨sv, buf2, off2⟩
        dsimp only
        have hst := hk.trans (parse_enum_ok' hpe hk2)
        obtain ⟨l1, m1, e1, f1⟩ := hst
        rcases sv
        all_goals dsimp only
        all_goals first
          | rfl
          | (refine chunk_close_congr buf2 off2 _ _ _ (by omega) ?_
             intro b o cc hb ho hob
             exact ih m b o cc hob (by omega) (by omega))
      case SYM_d =>
        rcases hpd : parse_data buf1 off1 c with ⟨buf2, off2, c1⟩
        dsimp only
        have hp := parse_data_ok buf1 off1 c hk2
        rw [hpd] at hp
        dsimp only at hp
        have hst := hk.moves.mtrans hp
        obtain ⟨l1, m1, e1⟩ := hst
        refine chunk_close_congr buf2 off2 c1 _ _ (by omega) ?_
        intro b o cc hb ho hob
        exact ih m b o cc hob (by omega) (by omega)
      all_goals
        rcases hsv : skip_value buf1 off1 with ⟨buf2, off2⟩
      all_goals dsimp only
      all_goals
        have hst := hk.trans (skip_value_ok' hsv hk2)
      all_goals
        obtain ⟨l1, m1, e1, f1⟩ := hst
      all_goals
        refine chunk_close_congr buf2 off2 c _ _ (by omega) ?_
      all_goals
        intro b o cc hb ho hob
      all_goals exact ih m b o cc hob (by omega) (by omega)

/-- Claim C9: the parser always terminates.  Each of the four key loops
— in chunk_parse, parse_data, parse_player, and the user sub-loop — is
insensitive to its fuel once the fuel exceeds the distance from the
cursor to the end of the buffer: every iteration either strictly
advances the cursor or returns, so the remaining distance is a strictly
decreasing termination measure and the fuel the wrappers pass
(buffer length + 1) is always sufficient. -/
theorem C9 :
    (∀ buf off name f g, off ≤ buf.length →
      buf.length - off < f → buf.length - off < g →
      user_loop buf off name f = user_loop buf off name g) ∧
    (∀ buf off idx rating name p f g, off ≤ buf.length →
      buf.length - off < f → buf.length - off < g →
      parse_player_loop buf off idx rating name p f =
        parse_player_loop buf off idx rating name p g) ∧
    (∀ buf off c f g, off ≤ buf.length →
      buf.length - off < f → buf.length - off < g →
      parse_data_loop buf off c f = parse_data_loop buf off c g) ∧
    (∀ buf off c f g, off ≤ buf.length →
      buf.length - off < f → buf.length - off < g →
      chunk_parse_loop buf off c f = chunk_parse_loop buf off c g) :=
  ⟨fun buf off name f g h1 h2 h3 => user_loop_fuel f g buf off name h1 h2 h3,
   fun buf off idx rating name p f g h1 h2 h3 =>
     parse_player_loop_fuel f g buf off idx rating name p h1 h2 h3,
   fun buf off c f g h1 h2 h3 => parse_data_loop_fuel f g buf off c h1 h2 h3,
   fun buf off c f g h1 h2 h3 => chunk_parse_loop_fuel f g buf off c h1 h2 h3⟩

theorem C9_witness :
    user_loop [125] 0 none 2 = user_loop [125] 0 none 9 ∧
    parse_player_loop [125] 0 (-1) none none (⟨none, none⟩, ⟨none, none⟩) 2 =
      parse_player_loop [125] 0 (-1) none none (⟨none, none⟩, ⟨none, none⟩) 7 ∧
    parse_data_loop [125] 0 cNone 2 = parse_data_loop [125] 0 cNone 5 ∧
    chunk_parse_loop [125] 0 cNone 2 = chunk_parse_loop [125] 0 cNone 3 :=
  ⟨C9.1 [125] 0 none 2 9 (by decide) (by decide) (by decide),
   C9.2.1 [125] 0 (-1) none none (⟨none, none⟩, ⟨none, none⟩) 2 7
     (by decide) (by decide) (by decide),
   C9.2.2.1 [125] 0 cNone 2 5 (by decide) (by decide) (by decide),
   C9.2.2.2 [125] 0 cNone 2 3 (by decide) (by decide) (by decide)⟩

/-! ## Two-run lemmas: the parser never reads the caller's record -/

theorem FrameEq.funtouched {α : Type} (a1 a2 : α) : FrameEq a1 a2 a1 a2 :=
  Or.inl ⟨rfl, rfl⟩

theorem FrameEq.written {α : Type} (a1 a2 b : α) : FrameEq a1 a2 b b :=
  Or.inr rfl

theorem FrameEq.ftrans {α : Type} {a1 a2 b1 b2 c1 c2 : α}
    (h1 : FrameEq a1 a2 b1 b2) (h2 : FrameEq b1 b2 c1 c2) :
    FrameEq a1 a2 c1 c2 := by
  rcases h2 with ⟨rfl, rfl⟩ | rfl
  · exact h1
  · exact Or.inr rfl

theorem FrameEq.of_eq_args {α : Type} {a b1 b2 : α}
    (h : FrameEq a a b1 b2) : b1 = b2 := by
  rcases h with ⟨rfl, rfl⟩ | rfl
  · rfl
  · rfl

theorem TypeFrame.tuntouched (a1 a2 : CType) : TypeFrame a1 a2 a1 a2 :=
  Or.inl ⟨rfl, rfl⟩

theorem TypeFrame.ttrans {a1 a2 b1 b2 c1 c2 : CType}
    (h1 : TypeFrame a1 a2 b1 b2) (h2 : TypeFrame b1 b2 c1 c2) :
    TypeFrame a1 a2 c1 c2 := by
  rcases h2 with ⟨rfl, rfl⟩ | ⟨rfl, hv⟩
  · exact h1
  · exact Or.inr ⟨rfl, hv⟩

theorem player_close_tworun (buf2 : List Nat) (off2 : Nat) (idx2 : Int)
    (rating2 name2 : Option Nat) (p1 p2 : Player × Player)
    (r1 r2 : List Nat → Nat → Int → Option Nat → Option Nat →
      (Player × Player) → PLoopRes)
    (hrec : ∀ b o i rr nm,
      (r1 b o i rr nm p1).buf = (r2 b o i rr nm p2).buf ∧
      (r1 b o i rr nm p1).off = (r2 b o i rr nm p2).off ∧
      (r1 b o i rr nm p1).idx = (r2 b o i rr nm p2).idx ∧
      (r1 b o i rr nm p1).committed = (r2 b o i rr nm p2).committed ∧
      (r1 b o i rr nm p1).grating = (r2 b o i rr nm p2).grating ∧
      FrameEq p1.1 p2.1 (r1 b o i rr nm p1).p.1 (r2 b o i rr nm p2).p.1 ∧
      FrameEq p1.2 p2.2 (r1 b o i rr nm p1).p.2 (r2 b o i rr nm p2).p.2) :
    (player_close buf2 off2 idx2 rating2 name2 p1 r1).buf =
      (player_close buf2 off2 idx2 rating2 name2 p2 r2).buf ∧
    (player_close buf2 off2 idx2 rating2 name2 p1 r1).off =
      (player_close buf2 off2 idx2 rating2 name2 p2 r2).off ∧
    (player_close buf2 off2 idx2 rating2 name2 p1 r1).idx =
      (player_close buf2 off2 idx2 rating2 name2 p2 r2).idx ∧
    (player_close buf2 off2 idx2 rating2 name2 p1 r1).committed =
      (player_close buf2 off2 idx2 rating2 name2 p2 r2).committed ∧
    (player_close buf2 off2 idx2 rating2 name2 p1 r1).grating =
      (player_close buf2 off2 idx2 rating2 name2 p2 r2).grating ∧
    FrameEq p1.1 p2.1 (player_close buf2 off2 idx2 rating2 name2 p1 r1).p.1
      (player_close buf2 off2 idx2 rating2 name2 p2 r2).p.1 ∧
    FrameEq p1.2 p2.2 (player_close buf2 off2 idx2 rating2 name2 p1 r1).p.2
      (player_close buf2 off2 idx2 rating2 name2 p2 r2).p.2 := by
  simp only [player_close]
  rcases hlc : loop_close buf2 off2 with ⟨buf3, off3, s⟩
  rcases s
  · -- done
    dsimp only
    by_cases hidx : idx2 = -1
    · rw [if_pos hidx, if_pos hidx]
      exact ⟨rfl, rfl, rfl, rfl, rfl, FrameEq.funtouched _ _,
        FrameEq.funtouched _ _⟩
    · rw [if_neg hidx, if_neg hidx]
      rcases htn : terminate_number buf3 rating2 with ⟨buf4, rating3⟩
      dsimp only
      refine ⟨rfl, rfl, rfl, rfl, rfl, ?_, ?_⟩
      all_goals rw [setPlayer, setPlayer]
      all_goals by_cases hz : idx2 = 0
      · rw [if_pos hz, if_pos hz]
        exact FrameEq.written _ _ _
      · rw [if_neg hz, if_neg hz]
        exact FrameEq.funtouched _ _
      · rw [if_pos hz, if_pos hz]
        exact FrameEq.funtouched _ _
      · rw [if_neg hz, if_neg hz]
        exact FrameEq.written _ _ _
  · exact hrec buf3 off3 idx2 rating2 name2
  · exact ⟨rfl, rfl, rfl, rfl, rfl, FrameEq.funtouched _ _,
      FrameEq.funtouched _ _⟩

theorem parse_player_loop_tworun : ∀ (fuel : Nat) (buf : List Nat)
    (off : Nat) (idx : Int) (rating name : Option Nat)
    (p1 p2 : Player × Player),
    (parse_player_loop buf off idx rating name p1 fuel).buf =
      (parse_player_loop buf off idx rating name p2 fuel).buf ∧
    (parse_player_loop buf off idx rating name p1 fuel).off =
      (parse_player_loop buf off idx rating name p2 fuel).off ∧
    (parse_player_loop buf off idx rating name p1 fuel).idx =
      (parse_player_loop buf off idx rating name p2 fuel).idx ∧
    (parse_player_loop buf off idx rating name p1 fuel).committed =
      (parse_player_loop buf off idx rating name p2 fuel).committed ∧
    (parse_player_loop buf off idx rating name p1 fuel).grating =
      (parse_player_loop buf off idx rating name p2 fuel).grating ∧
    FrameEq p1.1 p2.1 (parse_player_loop buf off idx rating name p1 fuel).p.1
      (parse_player_loop buf off idx rating name p2 fuel).p.1 ∧
    FrameEq p1.2 p2.2 (parse_player_loop buf off idx rating name p1 fuel).p.2
      (parse_player_loop buf off idx rating name p2 fuel).p.2 := by
  intro fuel
  induction fuel with
  | zero =>
    intro buf off idx rating name p1 p2
    refine ⟨rfl, rfl, rfl, rfl, rfl, ?_, ?_⟩
    all_goals
      simp only [parse_player_loop]
    all_goals exact FrameEq.funtouched _ _
  | succ n ih =>
    intro buf off idx rating name p1 p2
    rw [parse_player_loop]
    rw [parse_player_loop]
    rcases hpk : parse_key buf off with ⟨sym, buf1, off1⟩
    rcases sym
    all_goals dsimp only
    case SYM_color =>
      rcases hpe : parse_enum buf1 off1 with ⟨sv, buf2, off2⟩
      dsimp only
      exact player_close_tworun buf2 off2 _ rating name p1 p2
        (fun b o i r nm q => parse_player_loop b o i r nm q n)
        (fun b o i r nm q => parse_player_loop b o i r nm q n)
        (fun b o i rr nm => ih b o i rr nm p1 p2)
    case SYM_user =>
      rcases hjn : json_next buf1 off1 with ⟨t, buf2, off2⟩
      dsimp only
      split
      · rcases hul : user_loop buf2 off2 name (buf2.length + 1)
          with ⟨buf3, off3, name3, ok⟩
        dsimp only
        split
        · exact player_close_tworun buf3 off3 idx rating name3 p1 p2
            (fun b o i r nm q => parse_player_loop b o i r nm q n)
            (fun b o i r nm q => parse_player_loop b o i r nm q n)
            (fun b o i rr nm => ih b o i rr nm p1 p2)
        · exact ⟨rfl, rfl, rfl, rfl, rfl, FrameEq.funtouched _ _,
            FrameEq.funtouched _ _⟩
      · exact ⟨rfl, rfl, rfl, rfl, rfl, FrameEq.funtouched _ _,
          FrameEq.funtouched _ _⟩
    case SYM_rating =>
      rcases hpn : parse_number buf1 off1 with ⟨rv, buf2, off2⟩
      dsimp only
      exact player_close_tworun buf2 off2 idx rv name p1 p2
        (fun b o i r nm q => parse_player_loop b o i r nm q n)
        (fun b o i r nm q => parse_player_loop b o i r nm q n)
        (fun b o i rr nm => ih b o i rr nm p1 p2)
    all_goals
      rcases hsv : skip_value buf1 off1 with ⟨buf2, off2⟩
    all_goals dsimp only
    all_goals
      exact player_close_tworun buf2 off2 idx rating name p1 p2
        (fun b o i r nm q => parse_player_loop b o i r nm q n)
        (fun b o i r nm q => parse_player_loop b o i r nm q n)
        (fun b o i rr nm => ih b o i rr nm p1 p2)

theorem parse_player_tworun (buf : List Nat) (off : Nat)
    (p1 p2 : Player × Player) :
    (parse_player buf off p1).1 = (parse_player buf off p2).1 ∧
    (parse_player buf off p1).2.1 = (parse_player buf off p2).2.1 ∧
    FrameEq p1.1 p2.1 (parse_player buf off p1).2.2.1
      (parse_player buf off p2).2.2.1 ∧
    FrameEq p1.2 p2.2 (parse_player buf off p1).2.2.2
      (parse_player buf off p2).2.2.2 := by
  rw [parse_player]
  rw [parse_player]
  rcases hjn : json_next buf off with ⟨t, buf1, off1⟩
  dsimp only
  split
  · obtain ⟨hb, ho, hi, hc, hg, hs1, hs2⟩ :=
      parse_player_loop_tworun (buf1.length + 1) buf1 off1 (-1) none none
        p1 p2
    rcases hpl1 : parse_player_loop buf1 off1 (-1) none none p1
      (buf1.length + 1) with ⟨b1, o1, q1, i1, c1, g1⟩
    rcases hpl2 : parse_player_loop buf1 off1 (-1) none none p2
      (buf1.length + 1) with ⟨b2, o2, q2, i2, c2, g2⟩
    rw [hpl1, hpl2] at hb ho hi hc hg hs1 hs2
    dsimp only at hb ho hi hc hg hs1 hs2 ⊢
    exact ⟨hb, ho, hs1, hs2⟩
  · exact ⟨rfl, rfl, FrameEq.funtouched _ _, FrameEq.funtouched _ _⟩

theorem DRel.dlift (c1 c2 c1' c2' : Chunk) {x1 x2 : List Nat × Nat × Chunk}
    (h : DRel c1' c2' x1 x2)
    (hfen : FrameEq c1.fen c2.fen c1'.fen c2'.fen)
    (hp1 : FrameEq c1.players.1 c2.players.1 c1'.players.1 c2'.players.1)
    (hp2 : FrameEq c1.players.2 c2.players.2 c1'.players.2 c2'.players.2)
    (ht1 : c1'.type = c1.type) (ht2 : c2'.type = c2.type) :
    DRel c1 c2 x1 x2 := by
  obtain ⟨hb, ho, hf, h1, h2, hta, htb⟩ := h
  exact ⟨hb, ho, hfen.ftrans hf, hp1.ftrans h1, hp2.ftrans h2,
    hta.trans ht1, htb.trans ht2⟩

theorem DRel.dframe (c1 c2 : Chunk) (b1 b2 : List Nat) (o1 o2 : Nat)
    (hb : b1 = b2) (ho : o1 = o2) :
    DRel c1 c2 (b1, o1, c1) (b2, o2, c2) :=
  ⟨hb, ho, FrameEq.funtouched _ _, FrameEq.funtouched _ _,
    FrameEq.funtouched _ _, rfl, rfl⟩

theorem data_close_tworun (buf2 : List Nat) (off2 : Nat) (c1 c2 : Chunk)
    (r1 r2 : List Nat → Nat → Chunk → List Nat × Nat × Chunk)
    (hrec : ∀ b o, DRel c1 c2 (r1 b o c1) (r2 b o c2)) :
    DRel c1 c2 (data_close buf2 off2 c1 r1) (data_close buf2 off2 c2 r2) := by
  simp only [data_close]
  rcases hlc : loop_close buf2 off2 with ⟨buf3, off3, s⟩
  rcases s
  · exact DRel.dframe c1 c2 _ _ _ _ rfl rfl
  · exact hrec buf3 off3
  · exact DRel.dframe c1 c2 _ _ _ _ rfl rfl

theorem data_players_tworun (buf1 : List Nat) (off1 : Nat) (c1 c2 : Chunk)
    (r1 r2 : List Nat → Nat → Chunk → List Nat × Nat × Chunk)
    (hrec : ∀ b o cc1 cc2, DRel cc1 cc2 (r1 b o cc1) (r2 b o cc2)) :
    DRel c1 c2 (data_players buf1 off1 c1 r1)
      (data_players buf1 off1 c2 r2) := by
  rw [data_players]
  rw [data_players]
  rcases hjn : json_next buf1 off1 with ⟨t, buf2, off2⟩
  dsimp only
  split
  · obtain ⟨hb, ho, hq1, hq2⟩ := parse_player_tworun buf2 off2
      c1.players c2.players
    rcases hpp1 : parse_player buf2 off2 c1.players with ⟨buf3, off3, ps1⟩
    rcases hpp2 : parse_player buf2 off2 c2.players with ⟨buf3x, off3x, ps1x⟩
    rw [hpp1, hpp2] at hb ho hq1 hq2
    dsimp only at hb ho hq1 hq2
    subst hb
    subst ho
    dsimp only
    rcases hjn4 : json_next buf3 off3 with ⟨t4, buf4, off4⟩
    dsimp only
    split
    · obtain ⟨hb2, ho2, hr1, hr2⟩ := parse_player_tworun buf4 off4 ps1 ps1x
      rcases hpp3 : parse_player buf4 off4 ps1 with ⟨buf5, off5, ps2⟩
      rcases hpp4 : parse_player buf4 off4 ps1x with ⟨buf5x, off5x, ps2x⟩
      rw [hpp3, hpp4] at hb2 ho2 hr1 hr2
      dsimp only at hb2 ho2 hr1 hr2
      subst hb2
      subst ho2
      dsimp only
      rcases hjn6 : json_next buf5 off5 with ⟨t6, buf6, off6⟩
      dsimp only
      split
      · refine DRel.dlift c1 c2 { c1 with players := (ps2.1, ps2.2) }
          { c2 with players := (ps2x.1, ps2x.2) }
          ?_ (FrameEq.funtouched _ _) (hq1.ftrans hr1) (hq2.ftrans hr2) rfl rfl
        exact data_close_tworun buf6 off6 _ _ r1 r2
          (fun b o => hrec b o _ _)
      · refine DRel.dlift c1 c2 { c1 with players := (ps2.1, ps2.2) }
          { c2 with players := (ps2x.1, ps2x.2) }
          ?_ (FrameEq.funtouched _ _) (hq1.ftrans hr1) (hq2.ftrans hr2) rfl rfl
        exact DRel.dframe _ _ _ _ _ _ rfl rfl
    · refine DRel.dlift c1 c2 { c1 with players := (ps1.1, ps1.2) }
        { c2 with players := (ps1x.1, ps1x.2) }
        ?_ (FrameEq.funtouched _ _) hq1 hq2 rfl rfl
      exact DRel.dframe _ _ _ _ _ _ rfl rfl
  · exact DRel.dframe c1 c2 _ _ _ _ rfl rfl

theorem parse_data_loop_tworun : ∀ (fuel : Nat) (buf : List Nat)
    (off : Nat) (c1 c2 : Chunk),
    DRel c1 c2 (parse_data_loop buf off c1 fuel)
      (parse_data_loop buf off c2 fuel) := by
  intro fuel
  induction fuel with
  | zero =>
    intro buf off c1 c2
    simp only [parse_data_loop]
    exact DRel.dframe c1 c2 _ _ _ _ rfl rfl
  | succ n ih =>
    intro buf off c1 c2
    rw [parse_data_loop]
    rw [parse_data_loop]
    rcases hpk : parse_key buf off with ⟨sym, buf1, off1⟩
    rcases sym
    all_goals dsimp only
    case SYM_fen =>
      rcases hps : parse_string buf1 off1 with ⟨sv, buf2, off2⟩
      dsimp only
      refine DRel.dlift c1 c2 { c1 with fen := sv } { c2 with fen := sv }
        ?_ (FrameEq.written _ _ _) (FrameEq.funtouched _ _)
        (FrameEq.funtouched _ _) rfl rfl
      exact data_close_tworun buf2 off2 _ _
        (fun b o c => parse_data_loop b o c n)
        (fun b o c => parse_data_loop b o c n)
        (fun b o => ih b o _ _)
    case SYM_players =>
      exact data_players_tworun buf1 off1 c1 c2
        (fun b o c => parse_data_loop b o c n)
        (fun b o c => parse_data_loop b o c n)
        (fun b o cc1 cc2 => ih b o cc1 cc2)
    all_goals
      rcases hsv : skip_value buf1 off1 with ⟨buf2, off2⟩
    all_goals dsimp only
    all_goals
      exact data_close_tworun buf2 off2 c1 c2
        (fun b o c => parse_data_loop b o c n)
        (fun b o c => parse_data_loop b o c n)
        (fun b o => ih b o c1 c2)

theorem parse_data_tworun (buf : List Nat) (off : Nat) (c1 c2 : Chunk) :
    DRel c1 c2 (parse_data buf off c1) (parse_data buf off c2) := by
  rw [parse_data]
  rw [parse_data]
  rcases hjn : json_next buf off with ⟨t, buf1, off1⟩
  dsimp only
  split
  · exact parse_data_loop_tworun (buf1.length + 1) buf1 off1 c1 c2
  · exact DRel.dframe c1 c2 _ _ _ _ rfl rfl

theorem CRel.clift (c1 c2 c1' c2' : Chunk) {x1 x2 : Nat × List Nat × Chunk}
    (h : CRel c1' c2' x1 x2)
    (hfen : FrameEq c1.fen c2.fen c1'.fen c2'.fen)
    (hp1 : FrameEq c1.players.1 c2.players.1 c1'.players.1 c2'.players.1)
    (hp2 : FrameEq c1.players.2 c2.players.2 c1'.players.2 c2'.players.2)
    (ht : TypeFrame c1.type c2.type c1'.type c2'.type) :
    CRel c1 c2 x1 x2 := by
  obtain ⟨hv, hb, hf, h1, h2, hta⟩ := h
  exact ⟨hv, hb, hfen.ftrans hf, hp1.ftrans h1, hp2.ftrans h2, ht.ttrans hta⟩

theorem CRel.cframe (c1 c2 : Chunk) (v : Nat) (b1 b2 : List Nat)
    (hb : b1 = b2) :
    CRel c1 c2 (v, b1, c1) (v, b2, c2) :=
  ⟨rfl, hb, FrameEq.funtouched _ _, FrameEq.funtouched _ _,
    FrameEq.funtouched _ _, TypeFrame.tuntouched _ _⟩

theorem chunk_close_tworun (buf2 : List Nat) (off2 : Nat) (c1 c2 : Chunk)
    (r1 r2 : List Nat → Nat → Chunk → Nat × List Nat × Chunk)
    (hrec : ∀ b o, CRel c1 c2 (r1 b o c1) (r2 b o c2)) :
    CRel c1 c2 (chunk_close buf2 off2 c1 r1)
      (chunk_close buf2 off2 c2 r2) := by
  simp only [chunk_close]
  rcases hlc : loop_close buf2 off2 with ⟨buf3, off3, s⟩
  rcases s
  · exact CRel.cframe c1 c2 _ _ _ rfl
  · exact hrec buf3 off3
  · exact CRel.cframe c1 c2 _ _ _ rfl

theorem chunk_parse_loop_tworun : ∀ (fuel : Nat) (buf : List Nat)
    (off : Nat) (c1 c2 : Chunk),
    CRel c1 c2 (chunk_parse_loop buf off c1 fuel)
      (chunk_parse_loop buf off c2 fuel) := by
  intro fuel
  induction fuel with
  | zero =>
    intro buf off c1 c2
    simp only [chunk_parse_loop]
    exact CRel.cframe c1 c2 _ _ _ rfl
  | succ n ih =>
    intro buf off c1 c2
    rw [chunk_parse_loop]
    rw [chunk_parse_loop]
    rcases hpk : parse_key buf off with ⟨sym, buf1, off1⟩
    rcases sym
    all_goals dsimp only
    case SYM_t =>
      rcases hpe : parse_enum buf1 off1 with ⟨sv, buf2, off2⟩
      dsimp only
      rcases sv
      all_goals dsimp only
      case SYM_featured =>
        refine CRel.clift c1 c2 { c1 with type := .CHUNK_FEATURED }
          { c2 with type := .CHUNK_FEATURED }
          ?_ (FrameEq.funtouched _ _) (FrameEq.funtouched _ _)
          (FrameEq.funtouched _ _) (Or.inr ⟨rfl, by intro hh; cases hh⟩)
        exact chunk_close_tworun buf2 off2 _ _
          (fun b o c => chunk_parse_loop b o c n)
          (fun b o c => chunk_parse_loop b o c n)
          (fun b o => ih b o _ _)
      case SYM_fen =>
        refine CRel.clift c1 c2 { c1 with type := .CHUNK_FEN }
          { c2 with type := .CHUNK_FEN }
          ?_ (FrameEq.funtouched _ _) (FrameEq.funtouched _ _)
          (FrameEq.funtouched _ _) (Or.inr ⟨rfl, by intro hh; cases hh⟩)
        exact chunk_close_tworun buf2 off2 _ _
          (fun b o c => chunk_parse_loop b o c n)
          (fun b o c => chunk_parse_loop b o c n)
          (fun b o => ih b o _ _)
      all_goals exact CRel.cframe c1 c2 _ _ _ rfl
    case SYM_d =>
      obtain ⟨hb, ho, hfen, hp1, hp2, ht1, ht2⟩ :=
        parse_data_tworun buf1 off1 c1 c2
      rcases hpd1 : parse_data buf1 off1 c1 with ⟨buf2, off2, cd1⟩
      rcases hpd2 : parse_data buf1 off1 c2 with ⟨buf2x, off2x, cd2⟩
      rw [hpd2] at hb ho hfen hp1 hp2 ht2
      try rw [hpd1] at hb ho hfen hp1 hp2 ht1
      dsimp only at hb ho hfen hp1 hp2 ht1 ht2
      subst hb
      subst ho
      dsimp only
      refine CRel.clift c1 c2 cd1 cd2
        ?_ hfen hp1 hp2 (Or.inl ⟨ht1, ht2⟩)
      exact chunk_close_tworun buf2 off2 cd1 cd2
        (fun b o c => chunk_parse_loop b o c n)
        (fun b o c => chunk_parse_loop b o c n)
        (fun b o => ih b o cd1 cd2)
    all_goals
      rcases hsv : skip_value buf1 off1 with ⟨buf2, off2⟩
    all_goals dsimp only
    all_goals
      exact chunk_close_tworun buf2 off2 c1 c2
        (fun b o c => chunk_parse_loop b o c n)
        (fun b o c => chunk_parse_loop b o c n)
        (fun b o => ih b o c1 c2)

/-- Two-run record-independence of chunk_parse: on the same buffer
against any two caller records the return value and the resulting
buffer coincide, and each record field is either left holding each
caller's own pre-call contents in both runs or written to the same
input-determined value in both.  (The parser never reads the record;
the per-field frame itself is theorem C10 below.) -/
theorem chunk_parse_tworun : ∀ (buf : List Nat) (c1 c2 : Chunk),
    CRel c1 c2 (chunk_parse buf c1) (chunk_parse buf c2) := by
  intro buf c1 c2
  rw [chunk_parse]
  rw [chunk_parse]
  rcases hjn : json_next buf 0 with ⟨t, buf1, off1⟩
  dsimp only
  split
  · exact chunk_parse_loop_tworun (buf1.length + 1) buf1 off1 c1 c2
  · exact CRel.cframe c1 c2 _ _ _ rfl

/-! ## The rating termination write is in bounds -/

theorem scan_digits_frame {buf buf2 : List Nat} {r s : Nat}
    (hl : buf2.length = buf.length)
    (hfr : ∀ j, j ≤ s → buf2[j]! = buf[j]!)
    (hs : scan_digits buf r = s) (hr : r ≤ s) (hsb : s ≤ buf.length) :
    scan_digits buf2 r = s := by
  rcases Nat.lt_or_ge s buf.length with hlt | hge
  · have hstop : isDigit (buf[s]!) = false := by
      have := scan_digits_stop buf r (by omega)
      rwa [hs] at this
    refine scan_digits_eq buf2 r s hr ?_ (by omega) ?_
    · intro j h1 h2
      rw [hfr j (by omega)]
      exact scan_digits_digits buf r j h1 (by omega)
    · rw [hfr s (Nat.le_refl s)]
      exact hstop
  · have hle2 := scan_digits_le buf2 r (by omega)
    have hge3 := scan_digits_ge buf2 r
    rcases Nat.lt_or_ge (scan_digits buf2 r) buf2.length with hlt2 | hge4
    · exfalso
      have hstop2 := scan_digits_stop buf2 r hlt2
      have hdig2 : isDigit (buf2[scan_digits buf2 r]!) = true := by
        rw [hfr _ (by omega)]
        exact scan_digits_digits buf r _ (by omega) (by omega)
      rw [hstop2] at hdig2
      cases hdig2
    · omega

theorem inv_transfer {buf buf2 : List Nat} {off off2 : Nat}
    {rating : Option Nat} (hst : StepOK buf off buf2 off2)
    (hinv : ∀ r, rating = some r → scan_digits buf r ≤ off) :
    ∀ r, rating = some r → scan_digits buf2 r ≤ off2 := by
  intro r hr
  obtain ⟨l, m, e, f⟩ := hst
  have h0 := hinv r hr
  have h1 : scan_digits buf2 r = scan_digits buf r :=
    scan_digits_frame l (fun j hj => f j (by omega)) rfl
      (scan_digits_ge buf r) (by omega)
  omega

theorem player_close_safe (buf2 : List Nat) (off2 : Nat) (idx2 : Int)
    (rating2 name2 : Option Nat) (p : Player × Player)
    (recur : List Nat → Nat → Int → Option Nat → Option Nat →
      (Player × Player) → PLoopRes)
    (hlen : off2 ≤ buf2.length)
    (hinv : ∀ r, rating2 = some r → scan_digits buf2 r ≤ off2)
    (hrec : ∀ b o i rr nm q, o ≤ b.length →
      (∀ r, rr = some r → scan_digits b r ≤ o) →
      RatingSafe (recur b o i rr nm q)) :
    RatingSafe (player_close buf2 off2 idx2 rating2 name2 p recur) := by
  rw [player_close]
  rcases hlc : loop_close buf2 off2 with ⟨buf3, off3, s⟩
  obtain ⟨hok, hagain, hfail, hrest⟩ := loop_close_spec hlen hlc
  rcases s
  · -- done
    obtain ⟨hb3, ho3, hw1, hw2⟩ := hrest (by intro hh; cases hh)
    subst hb3
    dsimp only
    by_cases hidx : idx2 = -1
    · rw [if_pos hidx]
      intro hcm
      exact Bool.noConfusion hcm
    · rw [if_neg hidx]
      rcases htn : terminate_number buf3 rating2 with ⟨buf4, rating3⟩
      dsimp only
      intro _ r hr
      dsimp only at hr
      have hscan := hinv r hr
      rw [hr] at htn
      simp only [terminate_number, Prod.mk.injEq] at htn
      obtain ⟨hb4, _⟩ := htn
      have hslt : scan_digits buf3 r < buf3.length := by omega
      refine ⟨buf3, hslt, scan_digits_stop buf3 r hslt,
        by dsimp only; omega, ?_, ?_⟩
      · dsimp only
        exact hb4.symm
      · dsimp only
        rw [hb4.symm]
        rw [getElem!_pos _ _ (by simpa using hslt)]
        exact List.getElem_set_self _
  · -- again
    dsimp only
    refine hrec buf3 off3 idx2 rating2 name2 p ?_ ?_
    · obtain ⟨l, m, e, f⟩ := hok
      omega
    · obtain ⟨hb3, ho3, hw1, hw2⟩ := hrest (by intro hh; cases hh)
      subst hb3
      intro r hr
      have := hinv r hr
      omega
  · -- fail
    dsimp only
    intro hcm
    exact Bool.noConfusion hcm

/-- Claim C8: whenever the parse_player key loop reaches its commit
point (object-close with a resolved color index) having captured a
rating, the digit run of that rating is followed by a non-digit byte
strictly inside the buffer, and terminate_number's null write lands
exactly there — in bounds, behind the final cursor.  The hypothesis is
the loop invariant for the rating local (the digit run of a captured
rating ends at or before the cursor); parse_player enters the loop with
`rating = 0`, for which it holds vacuously. -/
theorem C8 : ∀ (fuel : Nat) (buf : List Nat) (off : Nat) (idx : Int)
    (rating name : Option Nat) (p : Player × Player),
    off ≤ buf.length →
    (∀ r, rating = some r → scan_digits buf r ≤ off) →
    RatingSafe (parse_player_loop buf off idx rating name p fuel) := by
  intro fuel
  induction fuel with
  | zero =>
    intro buf off idx rating name p hlen hinv
    simp only [parse_player_loop]
    intro hcm
    exact Bool.noConfusion hcm
  | succ n ih =>
    intro buf off idx rating name p hlen hinv
    rw [parse_player_loop]
    rcases hpk : parse_key buf off with ⟨sym, buf1, off1⟩
    have hk := parse_key_ok' hpk hlen
    have hk2 : off1 ≤ buf1.length := by
      obtain ⟨l1, m1, e1, f1⟩ := hk; omega
    have hrec : ∀ b o i rr nm q, o ≤ b.length →
        (∀ r, rr = some r → scan_digits b r ≤ o) →
        RatingSafe (parse_player_loop b o i rr nm q n) :=
      fun b o i rr nm q hbo hin => ih b o i rr nm q hbo hin
    rcases sym
    all_goals dsimp only
    case SYM_color =>
      rcases hpe : parse_enum buf1 off1 with ⟨sv, buf2, off2⟩
      dsimp only
      have hst := hk.trans (parse_enum_ok' hpe hk2)
      have hl2 : off2 ≤ buf2.length := by
        obtain ⟨l1, m1, e1, f1⟩ := hst; omega
      exact player_close_safe buf2 off2 _ rating name p _ hl2
        (inv_transfer hst hinv) hrec
    case SYM_user =>
      rcases hjn : json_next buf1 off1 with ⟨t, buf2, off2⟩
      dsimp only
      have hst := hk.trans (json_next_ok' hjn hk2)
      have hl2 : off2 ≤ buf2.length := by
        obtain ⟨l1, m1, e1, f1⟩ := hst; omega
      split
      · rcases hul : user_loop buf2 off2 name (buf2.length + 1)
          with ⟨buf3, off3, name3, ok⟩
        have hu := user_loop_ok (buf2.length + 1) buf2 off2 name hl2
        rw [hul] at hu
        dsimp only at hu
        have hst3 := hst.trans hu
        have hl3 : off3 ≤ buf3.length := by
          obtain ⟨l1, m1, e1, f1⟩ := hst3; omega
        dsimp only
        split
        · exact player_close_safe buf3 off3 idx rating name3 p _ hl3
            (inv_transfer hst3 hinv) hrec
        · intro hcm
          exact Bool.noConfusion hcm
      · intro hcm
        exact Bool.noConfusion hcm
    case SYM_rating =>
      rcases hpn : parse_number buf1 off1 with ⟨rv, buf2, off2⟩
      dsimp only
      have hst := hk.trans (parse_number_ok' hpn hk2)
      have hl2 : off2 ≤ buf2.length := by
        obtain ⟨l1, m1, e1, f1⟩ := hst; omega
      have hinv2 : ∀ r, rv = some r → scan_digits buf2 r ≤ off2 := by
        intro r hr
        rcases parse_number_spec buf1 off1 with ⟨hty, heq⟩ | ⟨hty, heq⟩
        · rw [hpn] at heq
          simp only [Prod.mk.injEq] at heq
          obtain ⟨hv, _⟩ := heq
          rw [hv] at hr
          cases hr
        · rw [hpn] at heq
          obtain ⟨hnum1, hnum2, hnum3, hnum4, hnum5⟩ :=
            json_next_number buf1 off1 hty
          simp only [Prod.mk.injEq] at heq
          obtain ⟨hv, hb, ho⟩ := heq
          rw [hv, hnum2] at hr
          injection hr with hr2
          subst hr2
          rw [hb, hnum1, ho, hnum3]
      exact player_close_safe buf2 off2 idx rv name p _ hl2 hinv2 hrec
    all_goals
      rcases hsv : skip_value buf1 off1 with ⟨buf2, off2⟩
    all_goals dsimp only
    all_goals
      have hst := hk.trans (skip_value_ok' hsv hk2)
    all_goals
      have hl2 : off2 ≤ buf2.length := by
        obtain ⟨l1, m1, e1, f1⟩ := hst; omega
    all_goals
      exact player_close_safe buf2 off2 idx rating name p _ hl2
        (inv_transfer hst hinv) hrec

theorem C8_witness :
    ∃ b3 : List Nat,
      scan_digits b3 25 < b3.length ∧
      isDigit (b3[scan_digits b3 25]!) = false ∧
      scan_digits b3 25 <
        (parse_player_loop (strBytes "\"color\":\"black\",\"rating\":2500\x7d")
          0 (-1) none none (⟨none, none⟩, ⟨none, none⟩) 31).off ∧
      (parse_player_loop (strBytes "\"color\":\"black\",\"rating\":2500\x7d")
          0 (-1) none none (⟨none, none⟩, ⟨none, none⟩) 31).buf =
        b3.set (scan_digits b3 25) 0 ∧
      ((parse_player_loop (strBytes "\"color\":\"black\",\"rating\":2500\x7d")
          0 (-1) none none (⟨none, none⟩, ⟨none, none⟩) 31).buf)[scan_digits b3 25]! = 0 :=
  C8 31 (strBytes "\"color\":\"black\",\"rating\":2500\x7d") 0 (-1) none none
    (⟨none, none⟩, ⟨none, none⟩) (by decide)
    (fun r hr => Option.noConfusion hr) (by decide) 25 (by decide)

/-! ## Write provenance: every record write has a marked origin -/

theorem player_close_pshape (buf2 : List Nat) (off2 : Nat) (idx2 : Int)
    (rating2 name2 : Option Nat) (p : Player × Player)
    (recur : List Nat → Nat → Int → Option Nat → Option Nat →
      (Player × Player) → PLoopRes)
    (hrec : ∀ b o i rr nm q,
      ((recur b o i rr nm q).committed = false →
        (recur b o i rr nm q).p = q) ∧
      ((recur b o i rr nm q).committed = true →
        ∃ v, (recur b o i rr nm q).p =
          setPlayer q (recur b o i rr nm q).idx v)) :
    ((player_close buf2 off2 idx2 rating2 name2 p recur).committed =
        false →
      (player_close buf2 off2 idx2 rating2 name2 p recur).p = p) ∧
    ((player_close buf2 off2 idx2 rating2 name2 p recur).committed =
        true →
      ∃ v, (player_close buf2 off2 idx2 rating2 name2 p recur).p =
        setPlayer p
          (player_close buf2 off2 idx2 rating2 name2 p recur).idx v) := by
  rw [player_close]
  rcases hlc : loop_close buf2 off2 with ⟨buf3, off3, s⟩
  rcases s
  · dsimp only
    by_cases hidx : idx2 = -1
    · rw [if_pos hidx]
      exact ⟨fun _ => rfl, fun hcm => Bool.noConfusion hcm⟩
    · rw [if_neg hidx]
      rcases htn : terminate_number buf3 rating2 with ⟨buf4, rating3⟩
      dsimp only
      exact ⟨fun hcm => Bool.noConfusion hcm,
        fun _ => ⟨⟨name2, rating3⟩, rfl⟩⟩
  · dsimp only
    exact hrec buf3 off3 idx2 rating2 name2 p
  · dsimp only
    exact ⟨fun _ => rfl, fun hcm => Bool.noConfusion hcm⟩

theorem parse_player_loop_pshape : ∀ (fuel : Nat) (buf : List Nat)
    (off : Nat) (idx : Int) (rating name : Option Nat)
    (p : Player × Player),
    ((parse_player_loop buf off idx rating name p fuel).committed =
        false →
      (parse_player_loop buf off idx rating name p fuel).p = p) ∧
    ((parse_player_loop buf off idx rating name p fuel).committed =
        true →
      ∃ v, (parse_player_loop buf off idx rating name p fuel).p =
        setPlayer p
          (parse_player_loop buf off idx rating name p fuel).idx v) := by
  intro fuel
  induction fuel with
  | zero =>
    intro buf off idx rating name p
    exact ⟨fun _ => rfl, fun hcm => Bool.noConfusion hcm⟩
  | succ n ih =>
    intro buf off idx rating name p
    rw [parse_player_loop]
    rcases hpk : parse_key buf off with ⟨sym, buf1, off1⟩
    have hrec : ∀ b o i rr nm q,
        ((parse_player_loop b o i rr nm q n).committed = false →
          (parse_player_loop b o i rr nm q n).p = q) ∧
        ((parse_player_loop b o i rr nm q n).committed = true →
          ∃ v, (parse_player_loop b o i rr nm q n).p =
            setPlayer q (parse_player_loop b o i rr nm q n).idx v) :=
      fun b o i rr nm q => ih b o i rr nm q
    rcases sym
    all_goals dsimp only
    case SYM_color =>
      rcases hpe : parse_enum buf1 off1 with ⟨sv, buf2, off2⟩
      dsimp only
      exact player_close_pshape buf2 off2 _ rating name p _ hrec
    case SYM_user =>
      rcases hjn : json_next buf1 off1 with ⟨t, buf2, off2⟩
      dsimp only
      split
      · rcases hul : user_loop buf2 off2 name (buf2.length + 1)
          with ⟨buf3, off3, name3, ok⟩
        dsimp only
        split
        · exact player_close_pshape buf3 off3 idx rating name3 p _ hrec
        · exact ⟨fun _ => rfl, fun hcm => Bool.noConfusion hcm⟩
      · exact ⟨fun _ => rfl, fun hcm => Bool.noConfusion hcm⟩
    case SYM_rating =>
      rcases hpn : parse_number buf1 off1 with ⟨rv, buf2, off2⟩
      dsimp only
      exact player_close_pshape buf2 off2 idx rv name p _ hrec
    all_goals
      rcases hsv : skip_value buf1 off1 with ⟨buf2, off2⟩
    all_goals dsimp only
    all_goals exact player_close_pshape buf2 off2 idx rating name p _ hrec

theorem parse_player_g_pshape (buf : List Nat) (off : Nat)
    (p : Player × Player) :
    ((parse_player_g buf off p).committed = false →
      (parse_player_g buf off p).p = p) ∧
    ((parse_player_g buf off p).committed = true →
      ∃ v, (parse_player_g buf off p).p =
        setPlayer p (parse_player_g buf off p).idx v) := by
  rw [parse_player_g]
  rcases hjn : json_next buf off with ⟨t, buf1, off1⟩
  dsimp only
  split
  · exact parse_player_loop_pshape (buf1.length + 1) buf1 off1 (-1)
      none none p
  · exact ⟨fun _ => rfl, fun hcm => Bool.noConfusion hcm⟩

theorem parse_player_g_slot0 (buf : List Nat) (off : Nat)
    (p : Player × Player)
    (h : ((parse_player_g buf off p).committed &&
      decide ((parse_player_g buf off p).idx = 0)) = false) :
    (parse_player_g buf off p).p.1 = p.1 := by
  obtain ⟨hf, hc⟩ := parse_player_g_pshape buf off p
  rcases hcm : (parse_player_g buf off p).committed
  · rw [hf hcm]
  · obtain ⟨v, hv⟩ := hc hcm
    rw [hcm, Bool.true_and] at h
    have hne : ¬((parse_player_g buf off p).idx = 0) :=
      of_decide_eq_false h
    rw [hv]
    simp [setPlayer, hne]

theorem parse_player_g_slot1 (buf : List Nat) (off : Nat)
    (p : Player × Player)
    (h : ((parse_player_g buf off p).committed &&
      !decide ((parse_player_g buf off p).idx = 0)) = false) :
    (parse_player_g buf off p).p.2 = p.2 := by
  obtain ⟨hf, hc⟩ := parse_player_g_pshape buf off p
  rcases hcm : (parse_player_g buf off p).committed
  · rw [hf hcm]
  · obtain ⟨v, hv⟩ := hc hcm
    rw [hcm, Bool.true_and, Bool.not_eq_false'] at h
    have hz : (parse_player_g buf off p).idx = 0 := of_decide_eq_true h
    rw [hv]
    simp [setPlayer, hz]

theorem parse_player_g_proj (buf : List Nat) (off : Nat)
    (p : Player × Player) :
    ((parse_player_g buf off p).buf, (parse_player_g buf off p).off,
      (parse_player_g buf off p).p) = parse_player buf off p := by
  rw [parse_player_g, parse_player]
  rcases hjn : json_next buf off with ⟨t, buf1, off1⟩
  dsimp only
  split
  · rcases hpl : parse_player_loop buf1 off1 (-1) none none p
      (buf1.length + 1) with ⟨b, o, q, i, cm, g⟩
    rfl
  · rfl

theorem data_close_g_proj (buf2 : List Nat) (off2 : Nat) (c : Chunk)
    (wf w0 w1 : Bool)
    (r : List Nat → Nat → Chunk → List Nat × Nat × Chunk)
    (rg : List Nat → Nat → Chunk → Bool → Bool → Bool → DGRes)
    (hrec : ∀ b o cc wfx w0x w1x,
      ((rg b o cc wfx w0x w1x).buf, (rg b o cc wfx w0x w1x).off,
        (rg b o cc wfx w0x w1x).c) = r b o cc) :
    ((data_close_g buf2 off2 c wf w0 w1 rg).buf,
      (data_close_g buf2 off2 c wf w0 w1 rg).off,
      (data_close_g buf2 off2 c wf w0 w1 rg).c) =
      data_close buf2 off2 c r := by
  rw [data_close_g, data_close]
  rcases hlc : loop_close buf2 off2 with ⟨buf3, off3, s⟩
  rcases s
  · rfl
  · exact hrec buf3 off3 c wf w0 w1
  · rfl

theorem data_players_g_proj (buf1 : List Nat) (off1 : Nat) (c : Chunk)
    (wf w0 w1 : Bool)
    (r : List Nat → Nat → Chunk → List Nat × Nat × Chunk)
    (rg : List Nat → Nat → Chunk → Bool → Bool → Bool → DGRes)
    (hrec : ∀ b o cc wfx w0x w1x,
      ((rg b o cc wfx w0x w1x).buf, (rg b o cc wfx w0x w1x).off,
        (rg b o cc wfx w0x w1x).c) = r b o cc) :
    ((data_players_g buf1 off1 c wf w0 w1 rg).buf,
      (data_players_g buf1 off1 c wf w0 w1 rg).off,
      (data_players_g buf1 off1 c wf w0 w1 rg).c) =
      data_players buf1 off1 c r := by
  rw [data_players_g, data_players]
  rcases hjn : json_next buf1 off1 with ⟨t, buf2, off2⟩
  dsimp only
  split
  · have hp1 := parse_player_g_proj buf2 off2 c.players
    rcases hR1 : parse_player_g buf2 off2 c.players
      with ⟨buf3, off3, ps1, i1, cm1, g1⟩
    rw [hR1] at hp1
    dsimp only at hp1
    rw [hp1.symm]
    dsimp only
    rcases hjn4 : json_next buf3 off3 with ⟨t4, buf4, off4⟩
    dsimp only
    split
    · have hp2 := parse_player_g_proj buf4 off4 ps1
      rcases hR2 : parse_player_g buf4 off4 ps1
        with ⟨buf5, off5, ps2, i2, cm2, g2⟩
      rw [hR2] at hp2
      dsimp only at hp2
      rw [hp2.symm]
      dsimp only
      rcases hjn6 : json_next buf5 off5 with ⟨t6, buf6, off6⟩
      dsimp only
      split
      · exact data_close_g_proj buf6 off6 _ _ _ _ r rg hrec
      · rfl
    · rfl
  · rfl

theorem parse_data_loop_g_proj : ∀ (fuel : Nat) (buf : List Nat)
    (off : Nat) (c : Chunk) (wf w0 w1 : Bool),
    ((parse_data_loop_g buf off c wf w0 w1 fuel).buf,
      (parse_data_loop_g buf off c wf w0 w1 fuel).off,
      (parse_data_loop_g buf off c wf w0 w1 fuel).c) =
      parse_data_loop buf off c fuel := by
  intro fuel
  induction fuel with
  | zero =>
    intro buf off c wf w0 w1
    rfl
  | succ n ih =>
    intro buf off c wf w0 w1
    rw [parse_data_loop_g, parse_data_loop]
    rcases hpk : parse_key buf off with ⟨sym, buf1, off1⟩
    have hrec : ∀ b o cc wfx w0x w1x,
        ((parse_data_loop_g b o cc wfx w0x w1x n).buf,
          (parse_data_loop_g b o cc wfx w0x w1x n).off,
          (parse_data_loop_g b o cc wfx w0x w1x n).c) =
          parse_data_loop b o cc n :=
      fun b o cc wfx w0x w1x => ih b o cc wfx w0x w1x
    rcases sym
    all_goals dsimp only
    case SYM_fen =>
      rcases hps : parse_string buf1 off1 with ⟨sv, buf2, off2⟩
      dsimp only
      exact data_close_g_proj buf2 off2 _ _ _ _ _ _ hrec
    case SYM_players =>
      exact data_players_g_proj buf1 off1 c wf w0 w1 _ _ hrec
    all_goals
      rcases hsv : skip_value buf1 off1 with ⟨buf2, off2⟩
    all_goals dsimp only
    all_goals exact data_close_g_proj buf2 off2 c wf w0 w1 _ _ hrec

theorem parse_data_g_proj (buf : List Nat) (off : Nat) (c : Chunk)
    (wf w0 w1 : Bool) :
    ((parse_data_g buf off c wf w0 w1).buf,
      (parse_data_g buf off c wf w0 w1).off,
      (parse_data_g buf off c wf w0 w1).c) = parse_data buf off c := by
  rw [parse_data_g, parse_data]
  rcases hjn : json_next buf off with ⟨t, buf1, off1⟩
  dsimp only
  split
  · exact parse_data_loop_g_proj (buf1.length + 1) buf1 off1 c wf w0 w1
  · rfl

theorem chunk_close_g_proj (buf2 : List Nat) (off2 : Nat) (c : Chunk)
    (wt wf w0 w1 : Bool)
    (r : List Nat → Nat → Chunk → Nat × List Nat × Chunk)
    (rg : List Nat → Nat → Chunk → Bool → Bool → Bool → Bool → CGRes)
    (hrec : ∀ b o cc wtx wfx w0x w1x,
      ((rg b o cc wtx wfx w0x w1x).ret, (rg b o cc wtx wfx w0x w1x).buf,
        (rg b o cc wtx wfx w0x w1x).c) = r b o cc) :
    ((chunk_close_g buf2 off2 c wt wf w0 w1 rg).ret,
      (chunk_close_g buf2 off2 c wt wf w0 w1 rg).buf,
      (chunk_close_g buf2 off2 c wt wf w0 w1 rg).c) =
      chunk_close buf2 off2 c r := by
  rw [chunk_close_g, chunk_close]
  rcases hlc : loop_close buf2 off2 with ⟨buf3, off3, s⟩
  rcases s
  · rfl
  · exact hrec buf3 off3 c wt wf w0 w1
  · rfl

theorem chunk_parse_loop_g_proj : ∀ (fuel : Nat) (buf : List Nat)
    (off : Nat) (c : Chunk) (wt wf w0 w1 : Bool),
    ((chunk_parse_loop_g buf off c wt wf w0 w1 fuel).ret,
      (chunk_parse_loop_g buf off c wt wf w0 w1 fuel).buf,
      (chunk_parse_loop_g buf off c wt wf w0 w1 fuel).c) =
      chunk_parse_loop buf off c fuel := by
  intro fuel
  induction fuel with
  | zero =>
    intro buf off c wt wf w0 w1
    rfl
  | succ n ih =>
    intro buf off c wt wf w0 w1
    rw [chunk_parse_loop_g, chunk_parse_loop]
    rcases hpk : parse_key buf off with ⟨sym, buf1, off1⟩
    have hrec : ∀ b o cc wtx wfx w0x w1x,
        ((chunk_parse_loop_g b o cc wtx wfx w0x w1x n).ret,
          (chunk_parse_loop_g b o cc wtx wfx w0x w1x n).buf,
          (chunk_parse_loop_g b o cc wtx wfx w0x w1x n).c) =
          chunk_parse_loop b o cc n :=
      fun b o cc wtx wfx w0x w1x => ih b o cc wtx wfx w0x w1x
    rcases sym
    all_goals dsimp only
    case SYM_t =>
      rcases hpe : parse_enum buf1 off1 with ⟨sv, buf2, off2⟩
      dsimp only
      rcases sv
      all_goals dsimp only
      all_goals first
        | rfl
        | exact chunk_close_g_proj buf2 off2 _ _ _ _ _ _ _ hrec
    case SYM_d =>
      have hd := parse_data_g_proj buf1 off1 c wf w0 w1
      rcases hD : parse_data_g buf1 off1 c wf w0 w1
        with ⟨buf2, off2, c1, wf1, w01, w11⟩
      rw [hD] at hd
      dsimp only at hd
      rw [hd.symm]
      dsimp only
      exact chunk_close_g_proj buf2 off2 c1 wt wf1 w01 w11 _ _ hrec
    all_goals
      rcases hsv : skip_value buf1 off1 with ⟨buf2, off2⟩
    all_goals dsimp only
    all_goals exact chunk_close_g_proj buf2 off2 c wt wf w0 w1 _ _ hrec

theorem chunk_parse_g_proj (buf : List Nat) (c : Chunk) :
    ((chunk_parse_g buf c).ret, (chunk_parse_g buf c).buf,
      (chunk_parse_g buf c).c) = chunk_parse buf c := by
  rw [chunk_parse_g, chunk_parse]
  rcases hjn : json_next buf 0 with ⟨t, buf1, off1⟩
  dsimp only
  split
  · exact chunk_parse_loop_g_proj (buf1.length + 1) buf1 off1 c
      false false false false
  · rfl

theorem orb_false_split {a b : Bool} (h : (a || b) = false) :
    a = false ∧ b = false := by
  rcases a
  · rcases b
    · exact ⟨rfl, rfl⟩
    · exact Bool.noConfusion h
  · exact Bool.noConfusion h

theorem data_close_g_frame (buf2 : List Nat) (off2 : Nat) (c : Chunk)
    (wf w0 w1 : Bool)
    (rg : List Nat → Nat → Chunk → Bool → Bool → Bool → DGRes)
    (hrec : ∀ b o cc wfx w0x w1x,
      DGFrame cc wfx w0x w1x (rg b o cc wfx w0x w1x)) :
    DGFrame c wf w0 w1 (data_close_g buf2 off2 c wf w0 w1 rg) := by
  rw [data_close_g]
  rcases hlc : loop_close buf2 off2 with ⟨buf3, off3, s⟩
  rcases s
  · exact ⟨fun h => h, fun h => h, fun h => h, fun _ => rfl, fun _ => rfl,
      fun _ => rfl, rfl⟩
  · exact hrec buf3 off3 c wf w0 w1
  · exact ⟨fun h => h, fun h => h, fun h => h, fun _ => rfl, fun _ => rfl,
      fun _ => rfl, rfl⟩

theorem data_players_g_frame (buf1 : List Nat) (off1 : Nat) (c : Chunk)
    (wf w0 w1 : Bool)
    (rg : List Nat → Nat → Chunk → Bool → Bool → Bool → DGRes)
    (hrec : ∀ b o cc wfx w0x w1x,
      DGFrame cc wfx w0x w1x (rg b o cc wfx w0x w1x)) :
    DGFrame c wf w0 w1 (data_players_g buf1 off1 c wf w0 w1 rg) := by
  rw [data_players_g]
  rcases hjn : json_next buf1 off1 with ⟨t, buf2, off2⟩
  dsimp only
  split
  · have hs0 := parse_player_g_slot0 buf2 off2 c.players
    have hs1 := parse_player_g_slot1 buf2 off2 c.players
    rcases hR1 : parse_player_g buf2 off2 c.players
      with ⟨buf3, off3, ps1, i1, cm1, g1⟩
    rw [hR1] at hs0 hs1
    dsimp only at hs0 hs1
    dsimp only
    rcases hjn4 : json_next buf3 off3 with ⟨t4, buf4, off4⟩
    dsimp only
    split
    · have hs0b := parse_player_g_slot0 buf4 off4 ps1
      have hs1b := parse_player_g_slot1 buf4 off4 ps1
      rcases hR2 : parse_player_g buf4 off4 ps1
        with ⟨buf5, off5, ps2, i2, cm2, g2⟩
      rw [hR2] at hs0b hs1b
      dsimp only at hs0b hs1b
      dsimp only
      rcases hjn6 : json_next buf5 off5 with ⟨t6, buf6, off6⟩
      dsimp only
      split
      · obtain ⟨m1, m2, m3, ffen, f0, f1c, fty⟩ :=
          data_close_g_frame buf6 off6 { c with players := ps2 } wf
            (w0 || (cm1 && decide (i1 = 0)) || (cm2 && decide (i2 = 0)))
            (w1 || (cm1 && !decide (i1 = 0)) || (cm2 && !decide (i2 = 0)))
            rg hrec
        refine ⟨m1, ?_, ?_, ffen, ?_, ?_, fty⟩
        · intro h
          exact m2 (by simp [h])
        · intro h
          exact m3 (by simp [h])
        · intro h
          have hA : (w0 || (cm1 && decide (i1 = 0)) ||
              (cm2 && decide (i2 = 0))) = false := by
            rcases hb : (w0 || (cm1 && decide (i1 = 0)) ||
              (cm2 && decide (i2 = 0)))
            · rfl
            · rw [m2 hb] at h
              exact Bool.noConfusion h
          obtain ⟨hA1, hA2⟩ := orb_false_split hA
          obtain ⟨hA0, hA1c⟩ := orb_false_split hA1
          rw [f0 h]
          dsimp only
          rw [hs0b hA2, hs0 hA1c]
        · intro h
          have hA : (w1 || (cm1 && !decide (i1 = 0)) ||
              (cm2 && !decide (i2 = 0))) = false := by
            rcases hb : (w1 || (cm1 && !decide (i1 = 0)) ||
              (cm2 && !decide (i2 = 0)))
            · rfl
            · rw [m3 hb] at h
              exact Bool.noConfusion h
          obtain ⟨hA1, hA2⟩ := orb_false_split hA
          obtain ⟨hA0, hA1c⟩ := orb_false_split hA1
          rw [f1c h]
          dsimp only
          rw [hs1b hA2, hs1 hA1c]
      · refine ⟨fun h => h, ?_, ?_, fun _ => rfl, ?_, ?_, rfl⟩
        · intro h
          dsimp only
          simp [h]
        · intro h
          dsimp only
          simp [h]
        · intro h
          dsimp only at h ⊢
          obtain ⟨hA1, hA2⟩ := orb_false_split h
          obtain ⟨hA0, hA1c⟩ := orb_false_split hA1
          rw [hs0b hA2, hs0 hA1c]
        · intro h
          dsimp only at h ⊢
          obtain ⟨hA1, hA2⟩ := orb_false_split h
          obtain ⟨hA0, hA1c⟩ := orb_false_split hA1
          rw [hs1b hA2, hs1 hA1c]
    · refine ⟨fun h => h, ?_, ?_, fun _ => rfl, ?_, ?_, rfl⟩
      · intro h
        dsimp only
        simp [h]
      · intro h
        dsimp only
        simp [h]
      · intro h
        dsimp only at h ⊢
        obtain ⟨hA0, hA1c⟩ := orb_false_split h
        rw [hs0 hA1c]
      · intro h
        dsimp only at h ⊢
        obtain ⟨hA0, hA1c⟩ := orb_false_split h
        rw [hs1 hA1c]
  · exact ⟨fun h => h, fun h => h, fun h => h, fun _ => rfl, fun _ => rfl,
      fun _ => rfl, rfl⟩

theorem parse_data_loop_g_frame : ∀ (fuel : Nat) (buf : List Nat)
    (off : Nat) (c : Chunk) (wf w0 w1 : Bool),
    DGFrame c wf w0 w1 (parse_data_loop_g buf off c wf w0 w1 fuel) := by
  intro fuel
  induction fuel with
  | zero =>
    intro buf off c wf w0 w1
    exact ⟨fun h => h, fun h => h, fun h => h, fun _ => rfl, fun _ => rfl,
      fun _ => rfl, rfl⟩
  | succ n ih =>
    intro buf off c wf w0 w1
    rw [parse_data_loop_g]
    rcases hpk : parse_key buf off with ⟨sym, buf1, off1⟩
    have hrec : ∀ b o cc wfx w0x w1x,
        DGFrame cc wfx w0x w1x (parse_data_loop_g b o cc wfx w0x w1x n) :=
      fun b o cc wfx w0x w1x => ih b o cc wfx w0x w1x
    rcases sym
    all_goals dsimp only
    case SYM_fen =>
      rcases hps : parse_string buf1 off1 with ⟨sv, buf2, off2⟩
      dsimp only
      obtain ⟨m1, m2, m3, ffen, f0, f1c, fty⟩ :=
        data_close_g_frame buf2 off2 { c with fen := sv } true w0 w1 _ hrec
      refine ⟨fun _ => m1 rfl, m2, m3, ?_, f0, f1c, fty⟩
      intro h
      rw [m1 rfl] at h
      exact Bool.noConfusion h
    case SYM_players =>
      exact data_players_g_frame buf1 off1 c wf w0 w1 _ hrec
    all_goals
      rcases hsv : skip_value buf1 off1 with ⟨buf2, off2⟩
    all_goals dsimp only
    all_goals exact data_close_g_frame buf2 off2 c wf w0 w1 _ hrec

theorem parse_data_g_frame (buf : List Nat) (off : Nat) (c : Chunk)
    (wf w0 w1 : Bool) :
    DGFrame c wf w0 w1 (parse_data_g buf off c wf w0 w1) := by
  rw [parse_data_g]
  rcases hjn : json_next buf off with ⟨t, buf1, off1⟩
  dsimp only
  split
  · exact parse_data_loop_g_frame (buf1.length + 1) buf1 off1 c wf w0 w1
  · exact ⟨fun h => h, fun h => h, fun h => h, fun _ => rfl, fun _ => rfl,
      fun _ => rfl, rfl⟩

theorem chunk_close_g_frame (buf2 : List Nat) (off2 : Nat) (c : Chunk)
    (wt wf w0 w1 : Bool)
    (rg : List Nat → Nat → Chunk → Bool → Bool → Bool → Bool → CGRes)
    (hty : wt = true → c.type = .CHUNK_FEATURED ∨ c.type = .CHUNK_FEN)
    (hrec : ∀ b o cc wtx wfx w0x w1x,
      (wtx = true → cc.type = .CHUNK_FEATURED ∨ cc.type = .CHUNK_FEN) →
      CGFrame cc wtx wfx w0x w1x (rg b o cc wtx wfx w0x w1x)) :
    CGFrame c wt wf w0 w1 (chunk_close_g buf2 off2 c wt wf w0 w1 rg) := by
  rw [chunk_close_g]
  rcases hlc : loop_close buf2 off2 with ⟨buf3, off3, s⟩
  rcases s
  · exact ⟨fun h => h, fun h => h, fun h => h, fun h => h, fun _ => rfl,
      hty, fun _ => rfl, fun _ => rfl, fun _ => rfl⟩
  · exact hrec buf3 off3 c wt wf w0 w1 hty
  · exact ⟨fun h => h, fun h => h, fun h => h, fun h => h, fun _ => rfl,
      hty, fun _ => rfl, fun _ => rfl, fun _ => rfl⟩

theorem chunk_parse_loop_g_frame : ∀ (fuel : Nat) (buf : List Nat)
    (off : Nat) (c : Chunk) (wt wf w0 w1 : Bool),
    (wt = true → c.type = .CHUNK_FEATURED ∨ c.type = .CHUNK_FEN) →
    CGFrame c wt wf w0 w1 (chunk_parse_loop_g buf off c wt wf w0 w1 fuel)
    := by
  intro fuel
  induction fuel with
  | zero =>
    intro buf off c wt wf w0 w1 hty
    exact ⟨fun h => h, fun h => h, fun h => h, fun h => h, fun _ => rfl,
      hty, fun _ => rfl, fun _ => rfl, fun _ => rfl⟩
  | succ n ih =>
    intro buf off c wt wf w0 w1 hty
    rw [chunk_parse_loop_g]
    rcases hpk : parse_key buf off with ⟨sym, buf1, off1⟩
    have hrec : ∀ b o cc wtx wfx w0x w1x,
        (wtx = true → cc.type = .CHUNK_FEATURED ∨ cc.type = .CHUNK_FEN) →
        CGFrame cc wtx wfx w0x w1x
          (chunk_parse_loop_g b o cc wtx wfx w0x w1x n) :=
      fun b o cc wtx wfx w0x w1x htyx => ih b o cc wtx wfx w0x w1x htyx
    rcases sym
    all_goals dsimp only
    case SYM_t =>
      rcases hpe : parse_enum buf1 off1 with ⟨sv, buf2, off2⟩
      dsimp only
      rcases sv
      all_goals dsimp only
      case SYM_featured =>
        obtain ⟨m1, m2, m3, m4, tf, tv, ffen, f0, f1c⟩ :=
          chunk_close_g_frame buf2 off2 { c with type := .CHUNK_FEATURED }
            true wf w0 w1 _ (fun _ => Or.inl rfl) hrec
        refine ⟨fun _ => m1 rfl, m2, m3, m4, ?_, tv, ffen, f0, f1c⟩
        intro h
        rw [m1 rfl] at h
        exact Bool.noConfusion h
      case SYM_fen =>
        obtain ⟨m1, m2, m3, m4, tf, tv, ffen, f0, f1c⟩ :=
          chunk_close_g_frame buf2 off2 { c with type := .CHUNK_FEN }
            true wf w0 w1 _ (fun _ => Or.inr rfl) hrec
        refine ⟨fun _ => m1 rfl, m2, m3, m4, ?_, tv, ffen, f0, f1c⟩
        intro h
        rw [m1 rfl] at h
        exact Bool.noConfusion h
      all_goals exact ⟨fun h => h, fun h => h, fun h => h, fun h => h,
        fun _ => rfl, hty, fun _ => rfl, fun _ => rfl, fun _ => rfl⟩
    case SYM_d =>
      have hDf := parse_data_g_frame buf1 off1 c wf w0 w1
      rcases hD : parse_data_g buf1 off1 c wf w0 w1
        with ⟨buf2, off2, c1, wf1, w01, w11⟩
      rw [hD] at hDf
      obtain ⟨dm1, dm2, dm3, dfen, d0, d1, dty⟩ := hDf
      dsimp only
      obtain ⟨m1, m2, m3, m4, tf, tv, ffen, f0, f1c⟩ :=
        chunk_close_g_frame buf2 off2 c1 wt wf1 w01 w11 _
          (fun h => by rw [dty]; exact hty h) hrec
      refine ⟨m1, fun h => m2 (dm1 h), fun h => m3 (dm2 h),
        fun h => m4 (dm3 h), fun h => (tf h).trans dty, tv, ?_, ?_, ?_⟩
      · intro h
        have hwf1 : wf1 = false := by
          rcases hb : wf1
          · rfl
          · rw [m2 hb] at h
            exact Bool.noConfusion h
        rw [ffen h, dfen hwf1]
      · intro h
        have hw01 : w01 = false := by
          rcases hb : w01
          · rfl
          · rw [m3 hb] at h
            exact Bool.noConfusion h
        rw [f0 h, d0 hw01]
      · intro h
        have hw11 : w11 = false := by
          rcases hb : w11
          · rfl
          · rw [m4 hb] at h
            exact Bool.noConfusion h
        rw [f1c h, d1 hw11]
    all_goals
      rcases hsv : skip_value buf1 off1 with ⟨buf2, off2⟩
    all_goals dsimp only
    all_goals exact chunk_close_g_frame buf2 off2 c wt wf w0 w1 _ hty hrec

theorem chunk_parse_g_frame (buf : List Nat) (c : Chunk) :
    CGFrame c false false false false (chunk_parse_g buf c) := by
  rw [chunk_parse_g]
  rcases hjn : json_next buf 0 with ⟨t, buf1, off1⟩
  dsimp only
  split
  · exact chunk_parse_loop_g_frame (buf1.length + 1) buf1 off1 c
      false false false false (fun h => Bool.noConfusion h)
  · exact ⟨fun h => h, fun h => h, fun h => h, fun h => h, fun _ => rfl,
      fun h => Bool.noConfusion h, fun _ => rfl, fun _ => rfl, fun _ => rfl⟩

/-- Claim C10: chunk_parse never assigns CHUNK_UNKNOWN and never
initializes or clears the caller's record.  chunk_parse_g is the parser
with one ghost flag per record-field assignment of the C body, turned on
exactly when that assignment executes (so a field whose key is absent
from the input keeps its flag off); its non-ghost results are exactly
chunk_parse's.  For every buffer and caller record: a field whose flag
is off after the run — type with no accepted `t` key, fen with no `fen`
key, a player slot never committed by parse_player — holds exactly the
caller's pre-call contents, unmodified; and whenever the type field was
assigned at all, it holds CHUNK_FEATURED or CHUNK_FEN, never
CHUNK_UNKNOWN. -/
theorem C10 : ∀ (buf : List Nat) (c : Chunk),
    ((chunk_parse_g buf c).ret, (chunk_parse_g buf c).buf,
      (chunk_parse_g buf c).c) = chunk_parse buf c ∧
    ((chunk_parse_g buf c).wtype = false →
      (chunk_parse_g buf c).c.type = c.type) ∧
    ((chunk_parse_g buf c).wtype = true →
      (chunk_parse_g buf c).c.type = .CHUNK_FEATURED ∨
      (chunk_parse_g buf c).c.type = .CHUNK_FEN) ∧
    ((chunk_parse_g buf c).wfen = false →
      (chunk_parse_g buf c).c.fen = c.fen) ∧
    ((chunk_parse_g buf c).w0 = false →
      (chunk_parse_g buf c).c.players.1 = c.players.1) ∧
    ((chunk_parse_g buf c).w1 = false →
      (chunk_parse_g buf c).c.players.2 = c.players.2) := by
  intro buf c
  obtain ⟨m1, m2, m3, m4, tf, tv, ffen, f0, f1c⟩ := chunk_parse_g_frame buf c
  exact ⟨chunk_parse_g_proj buf c, tf, tv, ffen, f0, f1c⟩

set_option maxRecDepth 100000 in
theorem C10_witness :
    ((chunk_parse_g inputB cMark).ret, (chunk_parse_g inputB cMark).buf,
      (chunk_parse_g inputB cMark).c) = chunk_parse inputB cMark ∧
    (chunk_parse_g inputB cMark).c.players.1 = cMark.players.1 ∧
    (chunk_parse_g inputB cMark).c.players.2 = cMark.players.2 ∧
    ((chunk_parse_g inputB cMark).c.type = .CHUNK_FEATURED ∨
      (chunk_parse_g inputB cMark).c.type = .CHUNK_FEN) :=
  ⟨(C10 inputB cMark).1,
   (C10 inputB cMark).2.2.2.2.1 (by decide),
   (C10 inputB cMark).2.2.2.2.2 (by decide),
   (C10 inputB cMark).2.2.1 (by decide)⟩
